import Mathlib

/-!
# Verification of the yarmtl task model and Todoist synchronization engine

Shallow embedding of the yarmtl source (src/main.rs, src/todoist_sync.rs,
src/sync_metadata.rs, src/todoist_types.rs, src/todoist_client.rs) in Lean 4.
Strings are modelled as `List Char`; `chrono::NaiveDate` as a year/month/day
record with an explicit validity predicate; Rust machine integers as `Nat`
with explicit `% 2^w` where overflow matters.  Every definition is translated
from the source; randomness (UUID generation) and wall-clock reads
(`Local::now`, `Utc::now`) are threaded as explicit parameters.
-/

namespace Yarmtl

/-- Model of Rust `&str` / `String`: a list of characters. -/
abbrev Str := List Char

/-- ASCII decimal digit, matching regex `\d` on ASCII inputs. -/
def isDigitCh (c : Char) : Bool := '0' ≤ c && c ≤ '9'

/-- Character class `[a-f0-9-]` used by the id markers. -/
def isIdCh (c : Char) : Bool :=
  isDigitCh c || ('a' ≤ c && c ≤ 'f') || c = '-'

/-- Regex `\w` (word character), modelled on its ASCII fragment:
letters, digits and underscore. -/
def isWordCh (c : Char) : Bool :=
  isDigitCh c || ('a' ≤ c && c ≤ 'z') || ('A' ≤ c && c ≤ 'Z') || c = '_'

/-- Character class `[\w-]` used by the tag marker. -/
def isTagCh (c : Char) : Bool := isWordCh c || c = '-'

/-- Rust `char::is_whitespace`, modelled on its ASCII fragment. -/
def isWsCh (c : Char) : Bool :=
  c = ' ' || c = '\t' || c = '\n' || c = '\r' ||
  c = Char.ofNat 11 || c = Char.ofNat 12

/-- Rust `str::trim_start`. -/
def trimStart (s : Str) : Str := s.dropWhile (fun c => isWsCh c)

/-- Rust `str::trim_end`. -/
def trimEnd (s : Str) : Str := (trimStart s.reverse).reverse

/-- Rust `str::trim`. -/
def rustTrim (s : Str) : Str := trimEnd (trimStart s)

/-- Value of an ASCII digit character. -/
def digitVal (c : Char) : Nat := c.toNat - '0'.toNat

/-! ## Calendar dates (`chrono::NaiveDate`)

`chrono::NaiveDate` always holds a valid proleptic-Gregorian calendar date;
we model it as a year/month/day record together with the validity predicate
`NaiveDate.valid` that mirrors chrono's constructor checks. -/

/-- Model of `chrono::NaiveDate` (year, month, day). -/
structure NaiveDate where
  y : Nat
  m : Nat
  d : Nat
deriving DecidableEq, Repr

/-- Gregorian leap-year rule used by chrono. -/
def isLeapYear (y : Nat) : Bool :=
  (y % 4 = 0 && y % 100 ≠ 0) || y % 400 = 0

/-- Days in a month of a given year (chrono's calendar). -/
def daysInMonth (y m : Nat) : Nat :=
  if m = 2 then (if isLeapYear y then 29 else 28)
  else if m = 4 || m = 6 || m = 9 || m = 11 then 30
  else 31

/-- Validity of a `NaiveDate`, as enforced by `chrono` constructors and by
`NaiveDate::parse_from_str`.  Years are restricted to the four-digit range
that the `%Y-%m-%d` round trip supports. -/
def NaiveDate.valid (dt : NaiveDate) : Prop :=
  dt.y ≤ 9999 ∧ 1 ≤ dt.m ∧ dt.m ≤ 12 ∧ 1 ≤ dt.d ∧ dt.d ≤ daysInMonth dt.y dt.m

instance (dt : NaiveDate) : Decidable dt.valid := by
  unfold NaiveDate.valid; infer_instance

/-- Zero-padded two-digit decimal rendering (`%m`, `%d`). -/
def pad2 (n : Nat) : Str := [Nat.digitChar (n / 10 % 10), Nat.digitChar (n % 10)]

/-- Zero-padded four-digit decimal rendering (`%Y` for years 0..=9999). -/
def pad4 (n : Nat) : Str :=
  [Nat.digitChar (n / 1000 % 10), Nat.digitChar (n / 100 % 10),
   Nat.digitChar (n / 10 % 10), Nat.digitChar (n % 10)]

/-- `date.format("%Y-%m-%d")` from chrono, for valid four-digit-year dates. -/
def formatDate (dt : NaiveDate) : Str :=
  pad4 dt.y ++ '-' :: (pad2 dt.m ++ '-' :: pad2 dt.d)

/-- `NaiveDate::parse_from_str(s, "%Y-%m-%d")`: requires the exact
ten-character digit shape and a valid calendar date. -/
def parseDateStr (s : Str) : Option NaiveDate :=
  match s with
  | [y1, y2, y3, y4, c5, m1, m2, c8, d1, d2] =>
    if c5 = '-' && c8 = '-' &&
       isDigitCh y1 && isDigitCh y2 && isDigitCh y3 && isDigitCh y4 &&
       isDigitCh m1 && isDigitCh m2 && isDigitCh d1 && isDigitCh d2 then
      let dt : NaiveDate :=
        ⟨digitVal y1 * 1000 + digitVal y2 * 100 + digitVal y3 * 10 + digitVal y4,
         digitVal m1 * 10 + digitVal m2,
         digitVal d1 * 10 + digitVal d2⟩
      if dt.valid then some dt else none
    else none
  | _ => none

/-- Day count of a date (days since 0000-03-01, `days_from_civil`); chrono's
date ordering and `Duration::days` arithmetic agree with this count on valid
dates. -/
def dayNumber (dt : NaiveDate) : Nat :=
  let y := if dt.m ≤ 2 then dt.y + 9999 - 1 else dt.y + 9999
  let era := y / 400
  let yoe := y % 400
  let mp := (dt.m + 9) % 12
  let doy := (153 * mp + 2) / 5 + dt.d - 1
  let doe := yoe * 365 + yoe / 4 - yoe / 100 + doy
  era * 146097 + doe

/-! ## Regex-style scanning combinators

The source uses the `regex` crate with a fixed set of patterns, each of which
starts with a distinguished literal character and otherwise consists of
literals and greedy character-class repetitions.  A pattern is modelled as a
matcher `tryM : Char → Str → Option Nat`: given the head character and the
remaining input, it returns `some n` when the pattern matches the prefix
`c :: rest.take n` (so the whole match has `n + 1` characters).  `findFirst`,
`findIter` and `replaceAll` mirror `Regex::find`, `Regex::find_iter` and
`Regex::replace_all(_, "")` (leftmost, non-overlapping). -/

/-- Leftmost match of a matcher: `Regex::find`, returning the matched text. -/
def findFirst (tryM : Char → Str → Option Nat) : Str → Option Str
  | [] => none
  | c :: cs =>
    match tryM c cs with
    | some n => some (c :: cs.take n)
    | none => findFirst tryM cs

/-- All leftmost non-overlapping matches: `Regex::find_iter`. -/
def findIter (tryM : Char → Str → Option Nat) : Str → List Str
  | [] => []
  | c :: cs =>
    match tryM c cs with
    | some n => (c :: cs.take n) :: findIter tryM (cs.drop n)
    | none => findIter tryM cs
termination_by s => s.length
decreasing_by
  · simp only [List.length_cons]
    exact Nat.lt_succ_of_le (List.length_drop _ _ ▸ Nat.sub_le _ _)
  · simp

/-- Delete all leftmost non-overlapping matches:
`Regex::replace_all(s, "")`. -/
def replaceAll (tryM : Char → Str → Option Nat) : Str → Str
  | [] => []
  | c :: cs =>
    match tryM c cs with
    | some n => replaceAll tryM (cs.drop n)
    | none => c :: replaceAll tryM cs
termination_by s => s.length
decreasing_by
  · simp only [List.length_cons]
    exact Nat.lt_succ_of_le (List.length_drop _ _ ▸ Nat.sub_le _ _)
  · simp

/-- Does the ten-character digit-date shape `\d{4}-\d{2}-\d{2}` match the
front of the string? -/
def dateShape : Str → Bool
  | y1 :: y2 :: y3 :: y4 :: c5 :: m1 :: m2 :: c8 :: d1 :: d2 :: _ =>
    c5 = '-' && c8 = '-' &&
    isDigitCh y1 && isDigitCh y2 && isDigitCh y3 && isDigitCh y4 &&
    isDigitCh m1 && isDigitCh m2 && isDigitCh d1 && isDigitCh d2
  | _ => false

/-- Matcher for `!(\d{4}-\d{2}-\d{2})` (the `deadline_re`). -/
def deadlineTry (c : Char) (cs : Str) : Option Nat :=
  if c = '!' && dateShape cs then some 10 else none

/-- Matcher for `@(\d{4}-\d{2}-\d{2})` (the `reminder_date_re`). -/
def reminderTry (c : Char) (cs : Str) : Option Nat :=
  if c = '@' && dateShape cs then some 10 else none

/-- Matcher for `#([\w-]+)` (the `tags_re`): `#` followed by a maximal
non-empty run of tag characters. -/
def tagTry (c : Char) (cs : Str) : Option Nat :=
  if c = '#' then
    let run := (cs.takeWhile (fun c => isTagCh c)).length
    if run = 0 then none else some run
  else none

/-- Matcher for `\$([1-5])` (the `importance_re`). -/
def importanceTry (c : Char) (cs : Str) : Option Nat :=
  if c = '$' then
    match cs with
    | d :: _ => if '1' ≤ d && d ≤ '5' then some 1 else none
    | [] => none
  else none

/-- Matcher for `\[id:([a-f0-9-]+)\]` (the `id_re`): literal `[id:`,
a maximal non-empty run over `[a-f0-9-]`, then `]`. -/
def idTry (c : Char) (cs : Str) : Option Nat :=
  if c = '[' then
    match cs with
    | 'i' :: 'd' :: ':' :: rest =>
      let run := rest.takeWhile (fun c => isIdCh c)
      if run.length = 0 then none
      else match rest.drop run.length with
        | ']' :: _ => some (3 + run.length + 1)
        | _ => none
    | _ => none
  else none

/-- Matcher for `//([^!@#$]+)` (the `notes_re` of `Task::parse`): `//`
followed by a maximal non-empty run of characters other than
`!`, `@`, `#`, `$`. -/
def notesTry (c : Char) (cs : Str) : Option Nat :=
  if c = '/' then
    match cs with
    | '/' :: rest =>
      let run := (rest.takeWhile (fun c =>
        !(c = '!' || c = '@' || c = '#' || c = '$'))).length
      if run = 0 then none else some (1 + run)
    | _ => none
  else none

/-! ## Small Rust `str` helpers -/

/-- Rust `str::find(char)` / `str::find(closure)`: index of the first
character satisfying the predicate. -/
def findCharIdx (p : Char → Bool) : Str → Option Nat
  | [] => none
  | c :: cs => if p c then some 0 else (findCharIdx p cs).map (· + 1)

/-- Rust `str::find("//")`: index of the first occurrence of two adjacent
slashes. -/
def findSlashes : Str → Option Nat
  | [] => none
  | '/' :: '/' :: _ => some 0
  | _ :: cs => (findSlashes cs).map (· + 1)

/-- Does `s` start with `p`? (Rust `str::starts_with`.) -/
def strStarts : Str → Str → Bool
  | _, [] => true
  | [], _ :: _ => false
  | c :: cs, p :: ps => c = p && strStarts cs ps

/-- Rust `str::strip_prefix`: drop `p` from the front of `s` when present. -/
def dropStart : Str → Str → Option Str
  | s, [] => some s
  | [], _ :: _ => none
  | c :: cs, p :: ps => if c = p then dropStart cs ps else none

/-- Rust `trim_start_matches("//")`: repeatedly drop a leading `//`. -/
def dropLeadingSlashPairs : Str → Str
  | '/' :: '/' :: rest => dropLeadingSlashPairs rest
  | s => s

/-- Rust `trim_start_matches("[id:")`: repeatedly drop a leading `[id:`. -/
def dropLeadingIdMarks : Str → Str
  | '[' :: 'i' :: 'd' :: ':' :: rest => dropLeadingIdMarks rest
  | s => s

/-- Rust `trim_end_matches(']')`: drop every trailing `]`. -/
def dropTrailingBrackets (s : Str) : Str :=
  (s.reverse.dropWhile (fun c => c = ']')).reverse

/-- Rust `u8::from_str` / `u64::from_str` behaviour on strings: an optional
leading `+`, then one or more ASCII digits, rejecting values above the
type's maximum. -/
def rustParseUInt (maxVal : Nat) (s : Str) : Option Nat :=
  let t := match s with
    | '+' :: rest => rest
    | _ => s
  if t ≠ [] ∧ t.all (fun c => isDigitCh c) then
    let v := t.foldl (fun a c => a * 10 + digitVal c) 0
    if v ≤ maxVal then some v else none
  else none

/-! ## The Task model (src/main.rs)

`Task::parse` reads the wall clock (`Local::now`) for natural-language
dates, calls the external `chrono_english::parse_date_string` parser, and
generates a random eight-character UUID fragment when no id marker is
present.  These three effects are threaded through a `ParseEnv` record. -/

/-- Effects of `Task::parse`: `today` models `Local::now().date_naive()`,
`nl` models the external `chrono_english::parse_date_string` fallback, and
`freshId` models the random `Uuid::new_v4` eight-character fragment. -/
structure ParseEnv where
  today : NaiveDate
  nl : Str → Option NaiveDate
  freshId : Str

/-- `Local::now().date_naive() + Duration::days(1)`. -/
def nextDay (dt : NaiveDate) : NaiveDate :=
  if dt.d < daysInMonth dt.y dt.m then ⟨dt.y, dt.m, dt.d + 1⟩
  else if dt.m < 12 then ⟨dt.y, dt.m + 1, 1⟩
  else ⟨dt.y + 1, 1, 1⟩

/-- `Local::now().date_naive() - Duration::days(1)`. -/
def prevDay (dt : NaiveDate) : NaiveDate :=
  if 1 < dt.d then ⟨dt.y, dt.m, dt.d - 1⟩
  else if 1 < dt.m then ⟨dt.y, dt.m - 1, daysInMonth dt.y (dt.m - 1)⟩
  else ⟨dt.y - 1, 12, 31⟩

/-- Shared body of `extract_natural_deadline` / `extract_natural_reminder`:
the trimmed phrase after the first `marker` character, cut at the first
`//` or at the first `stop1`/`stop2` character, provided it is non-empty
and not made of digits and dashes only. -/
def naturalSegment (marker stop1 stop2 : Char) (input : Str) : Option Str :=
  match findCharIdx (fun c => c = marker) input with
  | none => none
  | some start =>
    let afterM := input.drop (start + 1)
    let endPos := ((findSlashes afterM).orElse
      (fun _ => findCharIdx (fun c => c = stop1 || c = stop2) afterM)).getD
      afterM.length
    let t := rustTrim (afterM.take endPos)
    if t ≠ [] ∧ ¬ (t.all (fun c => isDigitCh c || c = '-')) then some t
    else none

/-- `Task::extract_natural_deadline` (marker `!`, stops `#`/`@`). -/
def extractNaturalDate (env : ParseEnv) (marker stop1 stop2 : Char)
    (input : Str) : Option NaiveDate :=
  match naturalSegment marker stop1 stop2 input with
  | none => none
  | some t =>
    if t = "today".toList then some env.today
    else if t = "tomorrow".toList then some (nextDay env.today)
    else if t = "yesterday".toList then some (prevDay env.today)
    else env.nl t

/-- `Task::remove_natural_deadline` / `remove_natural_reminder`: delete the
natural-language phrase after the first `marker` character when present. -/
def removeNatural (marker stop1 stop2 : Char) (input : Str) : Str :=
  match findCharIdx (fun c => c = marker) input with
  | none => input
  | some start =>
    let before := input.take start
    let afterM := input.drop (start + 1)
    let endPos := ((findSlashes afterM).orElse
      (fun _ => findCharIdx (fun c => c = stop1 || c = stop2) afterM)).getD
      afterM.length
    let t := rustTrim (afterM.take endPos)
    if t ≠ [] ∧ ¬ (t.all (fun c => isDigitCh c || c = '-')) then
      before ++ afterM.drop endPos
    else input

/-- The local task record (`struct Task` of src/main.rs).  `importance` is a
`u8` in Rust, modelled as `Nat`. -/
structure Task where
  id : Str
  text : Str
  deadline : Option NaiveDate
  tags : List Str
  reminder : Option NaiveDate
  completed : Bool
  notes : Option Str
  importance : Option Nat
deriving DecidableEq, Repr

/-- `Task::parse` (src/main.rs lines 455-520). -/
def Task.parse (env : ParseEnv) (input : Str) : Task :=
  let notes := ((findFirst notesTry input).map
    (fun m => rustTrim (dropLeadingSlashPairs m))).filter (fun s => s ≠ [])
  let taskId := ((findFirst idTry input).map
    (fun m => dropTrailingBrackets (dropLeadingIdMarks m))).getD env.freshId
  let deadline := ((findFirst deadlineTry input).bind
      (fun m => parseDateStr (m.dropWhile (fun c => c = '!')))).orElse
    (fun _ => extractNaturalDate env '!' '#' '@' input)
  let tags := (findIter tagTry input).map
    (fun m => m.dropWhile (fun c => c = '#'))
  let reminder := ((findFirst reminderTry input).bind
      (fun m => parseDateStr (m.dropWhile (fun c => c = '@')))).orElse
    (fun _ => extractNaturalDate env '@' '#' '!' input)
  let importance := (findFirst importanceTry input).bind
    (fun m => rustParseUInt 255 (m.dropWhile (fun c => c = '$')))
  let c1 := replaceAll deadlineTry input
  let c2 := removeNatural '!' '#' '@' c1
  let c3 := replaceAll tagTry c2
  let c4 := replaceAll reminderTry c3
  let c5 := removeNatural '@' '#' '!' c4
  let c6 := replaceAll notesTry c5
  let c7 := replaceAll idTry c6
  let c8 := replaceAll importanceTry c7
  { id := taskId
    text := rustTrim c8
    deadline := deadline
    tags := tags
    reminder := reminder
    completed := false
    notes := notes
    importance := importance }

/-- `Task::to_markdown` (src/main.rs lines 522-548). -/
def Task.toMarkdown (t : Task) : Str :=
  let checkbox := if t.completed then "[x]".toList else "[ ]".toList
  let idDisplay := if t.id.length > 8 then t.id.take 8 else t.id
  let base := '-' :: ' ' :: (checkbox ++ ' ' :: (t.text ++
    (" [id:".toList ++ (idDisplay ++ [']']))))
  let s1 := base ++ (match t.deadline with
    | some d => ' ' :: '!' :: formatDate d
    | none => [])
  let s2 := s1 ++ (t.tags.map (fun tg => ' ' :: '#' :: tg)).flatten
  let s3 := s2 ++ (match t.reminder with
    | some r => ' ' :: '@' :: formatDate r
    | none => [])
  let s4 := s3 ++ (match t.notes with
    | some n => ' ' :: '/' :: '/' :: n
    | none => [])
  s4 ++ (match t.importance with
    | some i => ' ' :: '$' :: (Nat.toDigits 10 i)
    | none => [])

/-- One line of `TodoistSync::load_local_tasks` (src/todoist_sync.rs lines
159-170): recognise a checkbox line, strip the prefix, parse, and set the
completion flag from the checkbox. -/
def loadTaskLine (env : ParseEnv) (line : Str) : Option Task :=
  let trimmed := rustTrim line
  if strStarts trimmed "- [ ]".toList || strStarts trimmed "- [x]".toList then
    let taskText := ((dropStart trimmed "- [ ] ".toList).orElse
      (fun _ => dropStart trimmed "- [x] ".toList)).getD trimmed
    let t := Task.parse env taskText
    some { t with completed := strStarts trimmed "- [x]".toList }
  else none

/-- The deadline/reminder segment of `Task::to_markdown`
(`format!(" !{}", ...)` / `format!(" @{}", ...)`). -/
def mdDateSeg (mk : Char) : Option NaiveDate → Str
  | some d => ' ' :: mk :: formatDate d
  | none => []

/-- The tags segment of `Task::to_markdown` (`format!(" #{}", tag)` per
tag). -/
def mdTagsSeg (tags : List Str) : Str :=
  (tags.map (fun tg => ' ' :: '#' :: tg)).flatten

/-- The notes segment of `Task::to_markdown` (`format!(" //{}", notes)`). -/
def mdNotesSeg : Option Str → Str
  | some n => ' ' :: '/' :: '/' :: n
  | none => []

/-- The importance segment of `Task::to_markdown`
(`format!(" ${}", importance)`). -/
def mdImpSeg : Option Nat → Str
  | some i => ' ' :: '$' :: Nat.toDigits 10 i
  | none => []

/-- The task text of a markdown line after the checkbox prefix: the full
`to_markdown` output minus the leading `- [ ] ` / `- [x] `. -/
def taskLineText (t : Task) : Str :=
  (t.text ++ (" [id:".toList ++
    ((if t.id.length > 8 then t.id.take 8 else t.id) ++ [']']))) ++
  mdDateSeg '!' t.deadline ++ mdTagsSeg t.tags ++
  mdDateSeg '@' t.reminder ++ mdNotesSeg t.notes ++ mdImpSeg t.importance

/-- The residue an optional markdown segment leaves in the cleaned text
after its marker run is removed: just the separating space. -/
def optJunk {α : Type} : Option α → Str
  | some _ => [' ']
  | none => []

/-! ## Sideband metadata (src/todoist_types.rs) -/

/-- `struct YarmtlMetadata`. -/
structure YarmtlMetadata where
  id : Str
  deadline : Option Str
  reminder : Option Str
  notes : Option Str
  importance : Option Nat
deriving DecidableEq, Repr

/-- Matcher for `\[yarmtl:([a-f0-9-]+)\]`. -/
def yarmtlIdTry (c : Char) (cs : Str) : Option Nat :=
  if c = '[' then
    match cs with
    | 'y' :: 'a' :: 'r' :: 'm' :: 't' :: 'l' :: ':' :: rest =>
      let run := rest.takeWhile (fun c => isIdCh c)
      if run.length = 0 then none
      else match rest.drop run.length with
        | ']' :: _ => some (7 + run.length + 1)
        | _ => none
    | _ => none
  else none

/-- Matcher for `//([^$@!\[]+)` (the notes pattern of
`YarmtlMetadata::parse`; unlike the one in `Task::parse` it also stops at
`[` and does not stop at `#`). -/
def metaNotesTry (c : Char) (cs : Str) : Option Nat :=
  if c = '/' then
    match cs with
    | '/' :: rest =>
      let run := (rest.takeWhile (fun c =>
        !(c = '$' || c = '@' || c = '!' || c = '['))).length
      if run = 0 then none else some (1 + run)
    | _ => none
  else none

/-- `YarmtlMetadata::encode` (src/todoist_types.rs lines 59-86). -/
def YarmtlMetadata.encode (m : YarmtlMetadata) : Str :=
  let p1 := match m.deadline with
    | some d => '!' :: (d ++ [' '])
    | none => []
  let p2 := match m.reminder with
    | some r => '@' :: (r ++ [' '])
    | none => []
  let p3 := match m.importance with
    | some i => '$' :: (Nat.toDigits 10 i ++ [' '])
    | none => []
  let p4 := match m.notes with
    | some n => '/' :: '/' :: (n ++ [' '])
    | none => []
  rustTrim (p1 ++ p2 ++ p3 ++ p4 ++ ("[yarmtl:".toList ++ m.id ++ [']']))

/-- `YarmtlMetadata::parse` (src/todoist_types.rs lines 88-126).  Capture
groups are recovered from the whole match by dropping the fixed literal
parts of each pattern. -/
def YarmtlMetadata.parse (description : Str) : Option YarmtlMetadata :=
  match (findFirst yarmtlIdTry description).map
    (fun m => (m.drop 8).dropLast) with
  | none => none
  | some id =>
    let deadline := (findFirst deadlineTry description).map (fun m => m.drop 1)
    let reminder := (findFirst reminderTry description).map (fun m => m.drop 1)
    let importance := (findFirst importanceTry description).bind
      (fun m => rustParseUInt 255 (m.drop 1))
    let notes := (findFirst metaNotesTry description).map
      (fun m => rustTrim (m.drop 2))
    some { id := id, deadline := deadline, reminder := reminder,
           notes := notes, importance := importance }

/-- The deadline/reminder segment of `YarmtlMetadata::encode`
(`format!("!{} ", deadline)` / `format!("@{} ", reminder)`). -/
def dateSeg (mk : Char) : Option Str → Str
  | some d => mk :: (d ++ [' '])
  | none => []

/-- The importance segment of `YarmtlMetadata::encode`
(`format!("${} ", importance)`). -/
def impSeg : Option Nat → Str
  | some i => '$' :: (Nat.toDigits 10 i ++ [' '])
  | none => []

/-- The notes segment of `YarmtlMetadata::encode`
(`format!("//{} ", notes)`). -/
def notesSeg : Option Str → Str
  | some n => '/' :: '/' :: (n ++ [' '])
  | none => []

/-- The concatenated body of `YarmtlMetadata::encode` before the final
trim. -/
def encodeBody (m : YarmtlMetadata) : Str :=
  dateSeg '!' m.deadline ++ dateSeg '@' m.reminder ++ impSeg m.importance ++
  notesSeg m.notes ++ ("[yarmtl:".toList ++ m.id ++ [']'])

/-! ## Remote task representation (src/todoist_types.rs) -/

/-- `struct TodoistDue`. -/
structure TodoistDue where
  date : Str
  datetime : Option Str
  timezone : Option Str
deriving DecidableEq, Repr

/-- `struct TodoistTask`. -/
structure TodoistTask where
  id : Option Str
  content : Str
  description : Option Str
  due : Option TodoistDue
  due_date : Option Str
  labels : Option (List Str)
  priority : Option Nat
  is_completed : Option Bool
  project_id : Option Str
deriving DecidableEq, Repr

/-- `struct TodoistProject` (color omitted from the claims' scope but kept
for fidelity). -/
structure TodoistProject where
  id : Str
  name : Str
  color : Option Str
deriving DecidableEq, Repr

/-! ## Remote client error taxonomy (src/todoist_client.rs) -/

/-- `enum TodoistError`.  `NetworkError` and `SerializationError` wrap
external library errors raised outside the HTTP status mapping and carry no
payload relevant to the claims. -/
inductive TodoistError where
  | AuthError : Str → TodoistError
  | NetworkError : TodoistError
  | RateLimitExceeded : (retry_after : Nat) → TodoistError
  | TaskNotFound : Str → TodoistError
  | ApiError : (status : Nat) → (message : Str) → TodoistError
  | SerializationError : TodoistError
deriving DecidableEq, Repr

/-- The HTTP-status classification of `TodoistClient::make_request`
(src/todoist_client.rs lines 63-92): `none` for a 2xx success, otherwise
the mapped error.  `retryAfterHeader` is the `Retry-After` header value
when present and readable as a string (a missing header and an unreadable
header byte sequence both model as `none`); `endpoint` and `body` feed the
not-found and generic errors. -/
def makeRequestOutcome (status : Nat) (retryAfterHeader : Option Str)
    (endpoint : Str) (body : Str) : Option TodoistError :=
  if 200 ≤ status ∧ status ≤ 299 then none
  else if status = 429 then
    some (.RateLimitExceeded
      ((retryAfterHeader.bind (rustParseUInt (2 ^ 64 - 1))).getD 60))
  else if status = 401 then some (.AuthError "Invalid API token".toList)
  else if status = 404 then some (.TaskNotFound endpoint)
  else some (.ApiError status body)

/-! ## Sync metadata store (src/sync_metadata.rs)

`task_mappings` is a Rust `HashMap<String, TaskSyncInfo>`, modelled as an
association list with unique keys; `insert` replaces the value in place,
and the unspecified `HashMap` iteration order behind `get_yarmtl_id`
becomes list order.  `DateTime<Utc>` timestamps are modelled as `Nat`. -/

/-- `struct TaskSyncInfo`. -/
structure TaskSyncInfo where
  todoist_id : Str
  last_modified : Nat
  last_sync_hash : Str
deriving DecidableEq, Repr

/-- `struct SyncMetadata`. -/
structure SyncMetadata where
  last_sync : Nat
  task_mappings : List (Str × TaskSyncInfo)
deriving DecidableEq, Repr

/-- `HashMap::insert`: replace the value at the key when present, else add
the entry. -/
def assocInsert (k : Str) (v : TaskSyncInfo) :
    List (Str × TaskSyncInfo) → List (Str × TaskSyncInfo)
  | [] => [(k, v)]
  | (k', v') :: rest =>
    if k' = k then (k, v) :: rest else (k', v') :: assocInsert k v rest

/-- `SyncMetadata::get_todoist_id`. -/
def SyncMetadata.get_todoist_id (m : SyncMetadata) (yarmtl_id : Str) :
    Option Str :=
  (m.task_mappings.lookup yarmtl_id).map (fun info => info.todoist_id)

/-- `SyncMetadata::get_yarmtl_id` (reverse scan). -/
def SyncMetadata.get_yarmtl_id (m : SyncMetadata) (todoist_id : Str) :
    Option Str :=
  (m.task_mappings.find? (fun p => p.2.todoist_id = todoist_id)).map
    (fun p => p.1)

/-- `SyncMetadata::update_mapping`. -/
def SyncMetadata.update_mapping (m : SyncMetadata) (yarmtl_id : Str)
    (info : TaskSyncInfo) : SyncMetadata :=
  { m with task_mappings := assocInsert yarmtl_id info m.task_mappings }

/-- `SyncMetadata::remove_mapping`. -/
def SyncMetadata.remove_mapping (m : SyncMetadata) (yarmtl_id : Str) :
    SyncMetadata :=
  { m with task_mappings := m.task_mappings.filter (fun p => p.1 ≠ yarmtl_id) }

/-- `SyncMetadata::get_hash`. -/
def SyncMetadata.get_hash (m : SyncMetadata) (yarmtl_id : Str) : Option Str :=
  (m.task_mappings.lookup yarmtl_id).map (fun info => info.last_sync_hash)

/-! ## The content fingerprint (`TodoistSync::compute_task_hash`)

`DefaultHasher::new()` is SipHash-1-3 with both keys fixed to zero, so the
fingerprint is a deterministic function of the byte stream written to the
hasher.  The stream is assembled exactly as in the source: `String::hash`
writes the UTF-8 bytes followed by a `0xFF` terminator; `bool::hash` and
`u8::hash` write one byte; a derived `Option` hash writes its discriminant
as a little-endian machine word followed by the payload; `NaiveDate`'s
derived hash writes its packed internal `i32`, modelled as an injective
four-byte little-endian packing of (year, month, day).  The tag vector is
hashed element-wise (no length prefix), and `notes` is hashed without its
`Option` discriminant — both quirks copied from the source. -/

/-- 64-bit truncation. -/
def m64 (n : Nat) : Nat := n % (2 ^ 64)

/-- 64-bit wrapping addition. -/
def add64 (a b : Nat) : Nat := (a + b) % (2 ^ 64)

/-- 64-bit left rotation. -/
def rotl64 (x r : Nat) : Nat :=
  ((x % 2 ^ (64 - r)) * 2 ^ r) + (x / 2 ^ (64 - r))

/-- SipHash internal state. -/
structure SipState where
  v0 : Nat
  v1 : Nat
  v2 : Nat
  v3 : Nat

/-- One SipHash round. -/
def sipRound (s : SipState) : SipState :=
  let v0 := add64 s.v0 s.v1
  let v1 := rotl64 (m64 s.v1) 13
  let v1 := v1 ^^^ v0
  let v0 := rotl64 v0 32
  let v2 := add64 s.v2 s.v3
  let v3 := rotl64 (m64 s.v3) 16
  let v3 := v3 ^^^ v2
  let v0 := add64 v0 v3
  let v3 := rotl64 v3 21
  let v3 := v3 ^^^ v0
  let v2 := add64 v2 v1
  let v1 := rotl64 v1 17
  let v1 := v1 ^^^ v2
  let v2 := rotl64 v2 32
  ⟨v0, v1, v2, v3⟩

/-- Absorb one eight-byte message word (one compression round: SipHash-1-3). -/
def sipBlock (s : SipState) (msg : Nat) : SipState :=
  let s := { s with v3 := s.v3 ^^^ msg }
  let s := sipRound s
  { s with v0 := s.v0 ^^^ msg }

/-- Little-endian value of a byte list. -/
def leVal (bytes : List Nat) : Nat :=
  bytes.foldr (fun b acc => b + acc * 256) 0

/-- Consume the byte stream in eight-byte blocks, then the padded final
block carrying the length, and finalize with three rounds. -/
def sipRun (s : SipState) (len : Nat) : List Nat → Nat
  | b1 :: b2 :: b3 :: b4 :: b5 :: b6 :: b7 :: b8 :: rest =>
    sipRun (sipBlock s (leVal [b1, b2, b3, b4, b5, b6, b7, b8])) len rest
  | tail =>
    let finalWord := leVal tail + (len % 256) * 2 ^ 56
    let s := sipBlock s finalWord
    let s := { s with v2 := s.v2 ^^^ 0xFF }
    let s := sipRound (sipRound (sipRound s))
    s.v0 ^^^ s.v1 ^^^ s.v2 ^^^ s.v3

/-- `DefaultHasher::new()` initial state (SipHash keys `(0, 0)`). -/
def sipInit : SipState :=
  ⟨0x736f6d6570736575, 0x646f72616e646f6d,
   0x6c7967656e657261, 0x7465646279746573⟩

/-- The full SipHash-1-3 of a byte stream with zero keys:
`DefaultHasher::finish` over the written bytes. -/
def sipHash13 (bytes : List Nat) : Nat := sipRun sipInit bytes.length bytes

/-- UTF-8 encoding of one character. -/
def utf8Char (c : Char) : List Nat :=
  let n := c.toNat
  if n < 0x80 then [n]
  else if n < 0x800 then [0xC0 + n / 64, 0x80 + n % 64]
  else if n < 0x10000 then
    [0xE0 + n / 4096, 0x80 + n / 64 % 64, 0x80 + n % 64]
  else
    [0xF0 + n / 262144, 0x80 + n / 4096 % 64, 0x80 + n / 64 % 64,
     0x80 + n % 64]

/-- UTF-8 bytes of a string. -/
def utf8Str (s : Str) : List Nat := (s.map utf8Char).flatten

/-- `String::hash`: UTF-8 bytes then the `0xFF` terminator byte. -/
def strHashBytes (s : Str) : List Nat := utf8Str s ++ [0xFF]

/-- Little-endian bytes of a value, `w` bytes wide. -/
def leBytes (w n : Nat) : List Nat :=
  match w with
  | 0 => []
  | w + 1 => n % 256 :: leBytes w (n / 256)

/-- Injective packing of a calendar date into a machine word (model of
chrono's internal packed `i32`). -/
def dateCode (dt : NaiveDate) : Nat := (dt.y * 16 + dt.m) * 32 + dt.d

/-- Derived `Option<NaiveDate>` hash bytes: discriminant word then payload. -/
def optionDateBytes : Option NaiveDate → List Nat
  | none => leBytes 8 0
  | some d => leBytes 8 1 ++ leBytes 4 (dateCode d)

/-- The byte stream `compute_task_hash` feeds to the hasher
(src/todoist_sync.rs lines 525-534), in source order: text, deadline, each
tag, reminder, completion flag, notes (only when present, without a
discriminant — the source's `if let` quirk), importance. -/
def hashStream (t : Task) : List Nat :=
  strHashBytes t.text ++ optionDateBytes t.deadline ++
  (t.tags.map strHashBytes).flatten ++ optionDateBytes t.reminder ++
  [if t.completed then 1 else 0] ++
  (match t.notes with
    | some n => strHashBytes n
    | none => []) ++
  (match t.importance with
    | none => leBytes 8 0
    | some i => leBytes 8 1 ++ [i % 256])

/-- Lowercase-hex rendering of `format!("{:x}", hasher.finish())`. -/
def toHexStr (n : Nat) : Str := Nat.toDigits 16 n

/-- `TodoistSync::compute_task_hash` (src/todoist_sync.rs lines 521-537). -/
def computeTaskHash (t : Task) : Str := toHexStr (sipHash13 (hashStream t))

/-! ## The reconciliation engine (src/todoist_sync.rs) -/

/-- `enum SyncAction`. -/
inductive SyncAction where
  | CreateInTodoist : Task → SyncAction
  | CreateInYarmtl : TodoistTask → SyncAction
  | UpdateTodoist : (yarmtl_id : Str) → Task → SyncAction
  | UpdateYarmtl : (todoist_id : Str) → TodoistTask → SyncAction
  | DeleteFromTodoist : (todoist_id : Str) → SyncAction
  | DeleteFromYarmtl : (yarmtl_id : Str) → SyncAction
deriving DecidableEq, Repr

/-- `TodoistSync::convert_yarmtl_to_todoist` (src/todoist_sync.rs lines
400-452), parameterized by the engine's project cache
(`project name → project id`).  The source initializer omits `due_date`,
modelled as `none`. -/
def convert_yarmtl_to_todoist (projects : List (Str × Str)) (task : Task) :
    TodoistTask :=
  let due := task.deadline.map (fun d =>
    TodoistDue.mk (formatDate d) none none)
  let pl : Option Str × Option (List Str) :=
    match task.tags with
    | [] => (none, none)
    | projectName :: rest =>
      (projects.lookup projectName,
       if rest.length ≥ 1 then some rest else none)
  let priority := task.importance.map (fun i =>
    if i = 1 then 4 else if i = 2 then 3 else if i = 3 then 2 else 1)
  let metadata : YarmtlMetadata :=
    { id := task.id
      deadline := task.deadline.map formatDate
      reminder := task.reminder.map formatDate
      notes := task.notes
      importance := task.importance }
  { id := none
    content := task.text
    description := some metadata.encode
    due := due
    due_date := none
    labels := pl.2
    priority := priority
    is_completed := none
    project_id := pl.1 }

/-- `TodoistSync::convert_todoist_to_yarmtl` (src/todoist_sync.rs lines
454-512).  `freshId` models the random UUID fragment generated when the
remote task carries no sideband identity. -/
def convert_todoist_to_yarmtl (projects : List (Str × Str)) (freshId : Str)
    (todoist_task : TodoistTask) : Task :=
  let metadata := todoist_task.description.bind
    (fun d => YarmtlMetadata.parse d)
  let id := (metadata.map (fun m => m.id)).getD freshId
  let deadline := ((todoist_task.due.bind
      (fun d => parseDateStr d.date)).orElse
    (fun _ => (metadata.bind (fun m => m.deadline)).bind
      (fun d => parseDateStr d)))
  let projTags : List Str :=
    match todoist_task.project_id with
    | none => []
    | some pid =>
      match projects.find? (fun p => p.2 = pid) with
      | some p => [p.1]
      | none => []
  let tags := projTags ++ (todoist_task.labels.getD [])
  let reminder := (metadata.bind (fun m => m.reminder)).bind
    (fun r => parseDateStr r)
  let notes := metadata.bind (fun m => m.notes)
  let importance := metadata.bind (fun m => m.importance)
  { id := id
    text := todoist_task.content
    deadline := deadline
    tags := tags
    reminder := reminder
    completed := todoist_task.is_completed.getD false
    notes := notes
    importance := importance }

/-- `TodoistSync::extract_yarmtl_metadata` (src/todoist_sync.rs lines
514-519). -/
def extract_yarmtl_metadata (todoist_task : TodoistTask) :
    Option YarmtlMetadata :=
  todoist_task.description.bind (fun d => YarmtlMetadata.parse d)

/-- The per-local-task branch of `TodoistSync::detect_changes`
(src/todoist_sync.rs lines 193-237).  `todoistIds` is the fetched remote
id set; `today` models `Local::now().date_naive()`. -/
def localDiff (meta : SyncMetadata) (todoistIds : List Str)
    (today : NaiveDate) (t : Task) : List SyncAction :=
  match meta.get_todoist_id t.id with
  | some rid =>
    if todoistIds.contains rid then
      let localHash := computeTaskHash t
      match meta.get_hash t.id with
      | some h => if h ≠ localHash then [.UpdateTodoist t.id t] else []
      | none => [.UpdateTodoist t.id t]
    else [.DeleteFromYarmtl t.id]
  | none =>
    if t.completed then
      let shouldSkip :=
        match t.deadline with
        | some deadline => decide (dayNumber deadline + 30 < dayNumber today)
        | none => true
      if shouldSkip then [] else [.CreateInTodoist t]
    else [.CreateInTodoist t]

/-- The skip test of the unmapped-local branch of `detect_changes`: a
completed task whose deadline is absent or more than thirty days old. -/
def staleDone (today : NaiveDate) (t : Task) : Bool :=
  t.completed && (match t.deadline with
    | some d => decide (dayNumber d + 30 < dayNumber today)
    | none => true)

/-- The per-remote-task branch of `TodoistSync::detect_changes`
(src/todoist_sync.rs lines 240-270). -/
def remoteDiff (meta : SyncMetadata) (localIds : List Str)
    (r : TodoistTask) : List SyncAction :=
  match r.id with
  | none => []
  | some rid =>
    match meta.get_yarmtl_id rid with
    | some yarmtl_id =>
      if ¬ localIds.contains yarmtl_id then [.DeleteFromTodoist rid] else []
    | none =>
      match extract_yarmtl_metadata r with
      | some m =>
        if localIds.contains m.id then [.UpdateYarmtl rid r]
        else [.CreateInYarmtl r]
      | none => [.CreateInYarmtl r]

/-- `TodoistSync::detect_changes` (src/todoist_sync.rs lines 176-273):
the local-task loop followed by the remote-task loop. -/
def detect_changes (meta : SyncMetadata) (local_tasks : List Task)
    (todoist_tasks : List TodoistTask) (today : NaiveDate) :
    List SyncAction :=
  let todoistIds := todoist_tasks.filterMap (fun t => t.id)
  let localIds := local_tasks.map (fun t => t.id)
  (local_tasks.map (fun t => localDiff meta todoistIds today t)).flatten ++
  (todoist_tasks.map (fun r => remoteDiff meta localIds r)).flatten

/-- The mutable state of one `TodoistSync` pass together with a model of
the remote store: the in-memory local list, the metadata store, the remote
task list (as held by the service), the project cache, a stream of fresh
identifiers (modelling both the service's id assignment and local UUID
generation), and the wall clock (`Utc::now`, constant within a pass). -/
structure SyncState where
  local_tasks : List Task
  metadata : SyncMetadata
  remote : List TodoistTask
  projects : List (Str × Str)
  supply : Nat → Str
  supplyIdx : Nat
  now : Nat

/-- Draw the next fresh identifier from the supply. -/
def popFresh (s : SyncState) : Str × SyncState :=
  (s.supply s.supplyIdx, { s with supplyIdx := s.supplyIdx + 1 })

/-- `TodoistSync::get_or_create_project` (src/todoist_sync.rs lines
381-398): cache hit returns the cached id; otherwise the project is created
remotely (modelled as drawing a fresh id) and cached.  A creation failure is
swallowed by the source, so the model lets creation succeed. -/
def get_or_create_project (s : SyncState) (project_name : Str) : SyncState :=
  match s.projects.lookup project_name with
  | some _ => s
  | none =>
    let (pid, s') := popFresh s
    { s' with projects := s'.projects ++ [(project_name, pid)] }

/-- Replace the first local task carrying the given id (the
`iter_mut().find` assignment of the `UpdateYarmtl` branch). -/
def replaceFirstTask (id : Str) (y : Task) : List Task → List Task
  | [] => []
  | t :: ts => if t.id = id then y :: ts else t :: replaceFirstTask id y ts

/-- Remote `POST /tasks/{id}` (`update_task`): replace the stored content
fields of the task with the given id, keeping its id and completion
state; fails (404) when the id is absent. -/
def remoteUpdate (rid : Str) (conv : TodoistTask) :
    List TodoistTask → Option (List TodoistTask)
  | [] => none
  | r :: rs =>
    if r.id = some rid then
      some ({ conv with id := r.id, is_completed := r.is_completed } :: rs)
    else (remoteUpdate rid conv rs).map (fun rs' => r :: rs')

/-- Remote `POST /tasks/{id}/close` / `reopen`: set the completion state of
the task when present (the engine ignores the outcome). -/
def remoteSetCompleted (rid : Str) (v : Bool) (rs : List TodoistTask) :
    List TodoistTask :=
  rs.map (fun r => if r.id = some rid then { r with is_completed := some v }
    else r)

/-- Remote `DELETE /tasks/{id}`: fails (404) when the id is absent. -/
def remoteDelete (rid : Str) : List TodoistTask → Option (List TodoistTask)
  | [] => none
  | r :: rs =>
    if r.id = some rid then some rs
    else (remoteDelete rid rs).map (fun rs' => r :: rs')

/-- `TodoistSync::apply_action` (src/todoist_sync.rs lines 275-379) as a
state transformer; `none` models a propagated remote error (the `?`
operator), while the ignored `close_task` / `reopen_task` results are
applied unconditionally.  Remote task creation always succeeds and assigns
a fresh id. -/
def apply_action (s : SyncState) : SyncAction → Option SyncState
  | .CreateInTodoist task =>
    let s :=
      match task.tags with
      | [] => s
      | tg :: _ => get_or_create_project s tg
    let todoist_task := convert_yarmtl_to_todoist s.projects task
    let (rid, s) := popFresh s
    let created := { todoist_task with id := some rid }
    let remote := s.remote ++ [created]
    let remote := if task.completed then remoteSetCompleted rid true remote
      else remote
    let info : TaskSyncInfo :=
      ⟨rid, s.now, computeTaskHash task⟩
    some { s with remote := remote
                  metadata := s.metadata.update_mapping task.id info }
  | .CreateInYarmtl todoist_task =>
    let hasMetaId := (extract_yarmtl_metadata todoist_task).isSome
    let (fid, s) := if hasMetaId then ("".toList, s) else popFresh s
    let yarmtl_task := convert_todoist_to_yarmtl s.projects fid todoist_task
    let metadata :=
      match todoist_task.id with
      | some rid =>
        s.metadata.update_mapping yarmtl_task.id
          ⟨rid, s.now, computeTaskHash yarmtl_task⟩
      | none => s.metadata
    some { s with metadata := metadata
                  local_tasks := s.local_tasks ++ [yarmtl_task] }
  | .UpdateTodoist yarmtl_id task =>
    match s.metadata.get_todoist_id yarmtl_id with
    | none => some s
    | some rid =>
      let s :=
        match task.tags with
        | [] => s
        | tg :: _ => get_or_create_project s tg
      let todoist_task := convert_yarmtl_to_todoist s.projects task
      match remoteUpdate rid todoist_task s.remote with
      | none => none
      | some remote =>
        let remote := remoteSetCompleted rid task.completed remote
        let info : TaskSyncInfo := ⟨rid, s.now, computeTaskHash task⟩
        some { s with remote := remote
                      metadata := s.metadata.update_mapping yarmtl_id info }
  | .UpdateYarmtl todoist_id task =>
    let hasMetaId := (extract_yarmtl_metadata task).isSome
    let (fid, s) := if hasMetaId then ("".toList, s) else popFresh s
    let yarmtl_task := convert_todoist_to_yarmtl s.projects fid task
    let info : TaskSyncInfo :=
      ⟨todoist_id, s.now, computeTaskHash yarmtl_task⟩
    some { s with
      local_tasks := replaceFirstTask yarmtl_task.id yarmtl_task s.local_tasks
      metadata := s.metadata.update_mapping yarmtl_task.id info }
  | .DeleteFromTodoist todoist_id =>
    (remoteDelete todoist_id s.remote).map
      (fun remote => { s with remote := remote })
  | .DeleteFromYarmtl yarmtl_id =>
    some { s with
      local_tasks := s.local_tasks.filter (fun t => t.id ≠ yarmtl_id)
      metadata := s.metadata.remove_mapping yarmtl_id }

/-- Apply a list of actions in order, requiring every one to succeed. -/
def applyAll (s : SyncState) : List SyncAction → Option SyncState
  | [] => some s
  | a :: rest => (apply_action s a).bind (fun s' => applyAll s' rest)

/-- One reconciliation pass from an already-fetched, already-loaded state:
diff then apply (`TodoistSync::sync`, src/todoist_sync.rs lines 99-121),
under the claim's assumption that every action succeeds. -/
def runSyncPass (today : NaiveDate) (s : SyncState) : Option SyncState :=
  applyAll s (detect_changes s.metadata s.local_tasks s.remote today)

/-! ## The apply loop of `TodoistSync::sync` (src/todoist_sync.rs lines
102-121), at outcome granularity.

Each list element is the result `apply_action` returned for one action in
order.  The loop matches on the result: a success bumps the corresponding
report counter, a failure of any kind is printed and the loop moves on to
the next action — there is no early exit. -/

/-- `enum ActionType`. -/
inductive ActionType where
  | CreatedInTodoist | CreatedInYarmtl
  | UpdatedInTodoist | UpdatedInYarmtl
  | DeletedFromTodoist | DeletedFromYarmtl
deriving DecidableEq, Repr

/-- `struct SyncReport`. -/
structure SyncReport where
  created_in_todoist : Nat
  created_in_yarmtl : Nat
  updated_in_todoist : Nat
  updated_in_yarmtl : Nat
  deleted_in_todoist : Nat
  deleted_in_yarmtl : Nat
  conflicts_resolved : Nat
deriving DecidableEq, Repr

/-- `SyncReport::new`. -/
def SyncReport.new : SyncReport := ⟨0, 0, 0, 0, 0, 0, 0⟩

/-- The per-success counter bump of the apply loop. -/
def bumpReport (rep : SyncReport) : ActionType → SyncReport
  | .CreatedInTodoist => { rep with created_in_todoist := rep.created_in_todoist + 1 }
  | .CreatedInYarmtl => { rep with created_in_yarmtl := rep.created_in_yarmtl + 1 }
  | .UpdatedInTodoist => { rep with updated_in_todoist := rep.updated_in_todoist + 1 }
  | .UpdatedInYarmtl => { rep with updated_in_yarmtl := rep.updated_in_yarmtl + 1 }
  | .DeletedFromTodoist => { rep with deleted_in_todoist := rep.deleted_in_todoist + 1 }
  | .DeletedFromYarmtl => { rep with deleted_in_yarmtl := rep.deleted_in_yarmtl + 1 }

/-- The apply loop, folding over the per-action outcomes.  Besides the
report it returns the number of actions attempted (each attempt issues the
action's remote calls through `apply_action`). -/
def applyLoop (rep : SyncReport) : List (Except TodoistError ActionType) →
    SyncReport × Nat
  | [] => (rep, 0)
  | Except.ok k :: rest =>
    let (r, n) := applyLoop (bumpReport rep k) rest
    (r, n + 1)
  | Except.error _ :: rest =>
    let (r, n) := applyLoop rep rest
    (r, n + 1)

/-! ## Well-formedness predicates used by the amended claims -/

/-- A string neither starts nor ends with whitespace (so Rust `str::trim`
leaves it unchanged). -/
def TrimStable (s : Str) : Prop :=
  (∀ h, s.head? = some h → isWsCh h = false) ∧
  (∀ h, s.getLast? = some h → isWsCh h = false)

instance (s : Str) : Decidable (TrimStable s) := by
  unfold TrimStable; infer_instance

/-- Characters that may appear in a well-formed task description: everything
except the marker trigger characters `!`, `@`, `#`, `$`, `[`, `/` and line
breaks. -/
def textCharOK (c : Char) : Bool :=
  !(c = '!' || c = '@' || c = '#' || c = '$' || c = '[' || c = '/' ||
    c = '\n' || c = '\r')

/-- Characters that may appear in well-formed notes: everything except the
marker trigger characters `!`, `@`, `#`, `$` and line breaks. -/
def notesCharOK (c : Char) : Bool :=
  !(c = '!' || c = '@' || c = '#' || c = '$' || c = '\n' || c = '\r')

/-- Well-formedness of a task for the markdown round trip: an id of at most
eight characters over `[a-f0-9-]`, a trim-stable description free of marker
characters, non-empty tags over `[\w-]`, valid dates, trim-stable non-empty
notes free of marker characters and not starting with `//`, and an
importance in `1..=5`. -/
def WellFormedTask (t : Task) : Prop :=
  (t.id ≠ [] ∧ t.id.length ≤ 8 ∧ t.id.all (fun c => isIdCh c) = true) ∧
  (TrimStable t.text ∧ t.text.all textCharOK = true) ∧
  (∀ tg ∈ t.tags, tg ≠ [] ∧ tg.all (fun c => isTagCh c) = true) ∧
  (∀ d, t.deadline = some d → d.valid) ∧
  (∀ r, t.reminder = some r → r.valid) ∧
  (∀ n, t.notes = some n → n ≠ [] ∧ TrimStable n ∧ n.all notesCharOK = true ∧
    strStarts n ('/' :: '/' :: []) = false) ∧
  (∀ i, t.importance = some i → 1 ≤ i ∧ i ≤ 5)

/-- Well-formedness of a sideband metadata record for the encode/parse
round trip: a non-empty id over `[a-f0-9-]`, date fields in the exact
`dddd-dd-dd` digit shape, trim-stable notes free of `!`, `@`, `$`, `[`,
and an importance in `1..=5`. -/
def WellFormedMeta (m : YarmtlMetadata) : Prop :=
  (m.id ≠ [] ∧ m.id.all (fun c => isIdCh c) = true) ∧
  (∀ d, m.deadline = some d → d.length = 10 ∧ dateShape d = true) ∧
  (∀ r, m.reminder = some r → r.length = 10 ∧ dateShape r = true) ∧
  (∀ n, m.notes = some n → TrimStable n ∧
    n.all (fun c => !(c = '!' || c = '@' || c = '$' || c = '[')) = true) ∧
  (∀ i, m.importance = some i → 1 ≤ i ∧ i ≤ 5)

/-- Injectivity of the metadata map on remote ids: no two entries share a
`todoist_id`. -/
def MappingsInjective (l : List (Str × TaskSyncInfo)) : Prop :=
  ∀ p ∈ l, ∀ q ∈ l, p.2.todoist_id = q.2.todoist_id → p.1 = q.1

instance (l : List (Str × TaskSyncInfo)) : Decidable (MappingsInjective l) := by
  unfold MappingsInjective; infer_instance

/-- A fixed parse environment for concrete evaluations: a wall clock at
2026-01-01, a natural-language parser that recognises nothing, and a fixed
fresh-id fragment. -/
def envC1 : ParseEnv := ⟨⟨2026, 1, 1⟩, fun _ => none, "ffffffff".toList⟩

/-- A concrete well-formed task exercising every optional field. -/
def tC1 : Task :=
  { id := "ab12".toList
    text := "buy milk".toList
    deadline := some ⟨2026, 3, 10⟩
    tags := ["home".toList, "errand".toList]
    reminder := some ⟨2026, 3, 8⟩
    completed := true
    notes := some "get oat".toList
    importance := some 2 }

/-- A concrete task whose nine-character id exceeds `to_markdown`'s
eight-character display cut. -/
def tC1long : Task :=
  { id := "abcd12345".toList
    text := "call mom".toList
    deadline := none
    tags := []
    reminder := none
    completed := false
    notes := none
    importance := none }

/-- A completed, deadline-free local task (never pushed by the diff). -/
def tC2 : Task :=
  ⟨"aa".toList, "t".toList, none, [], none, true, none, none⟩

/-- The sideband description both duplicate remote tasks carry: the
encoding of the local identity `aa`. -/
def descC2 : Str := YarmtlMetadata.encode ⟨"aa".toList, none, none, none, none⟩

/-- First remote task claiming local identity `aa`. -/
def rC2a : TodoistTask :=
  { id := some "r1".toList, content := "x".toList,
    description := some descC2, due := none, due_date := none,
    labels := none, priority := none, is_completed := none,
    project_id := none }

/-- Second remote task claiming the same local identity `aa`. -/
def rC2b : TodoistTask :=
  { id := some "r2".toList, content := "y".toList,
    description := some descC2, due := none, due_date := none,
    labels := none, priority := none, is_completed := none,
    project_id := none }

/-- A state with two remote tasks carrying the same sideband identity:
each pass rebinds the single mapping to the task seen last. -/
def sC2 : SyncState :=
  { local_tasks := [tC2], metadata := ⟨0, []⟩, remote := [rC2a, rC2b],
    projects := [], supply := fun _ => [], supplyIdx := 0, now := 0 }

/-- A state whose metadata store already carries two entries with the same
remote id; the empty pass leaves both in place. -/
def sC4 : SyncState :=
  { local_tasks := []
    metadata := ⟨0, [("a".toList, ⟨"r1".toList, 0, []⟩),
                    ("b".toList, ⟨"r1".toList, 0, []⟩)]⟩
    remote := [], projects := [], supply := fun _ => [], supplyIdx := 0,
    now := 0 }

/-- A fresh workspace: two local tasks (one tagged and active, one
completed without deadline), no metadata, no remote tasks, and an
injective id supply. -/
def sW : SyncState :=
  { local_tasks :=
      [⟨"a1".toList, "alpha".toList, none, ["work".toList], none, false,
        none, none⟩,
       ⟨"b2".toList, "beta".toList, none, [], none, true, none, none⟩]
    metadata := ⟨0, []⟩
    remote := []
    projects := []
    supply := fun n => List.replicate (n + 1) 'r'
    supplyIdx := 0
    now := 0 }

/-- The wall-clock date used by the concrete sync evaluations. -/
def dayC2 : NaiveDate := ⟨2026, 1, 1⟩

end Yarmtl

namespace Yarmtl

/-! # Lemmas about the scanning combinators -/

theorem findFirst_append_none {tryM : Char → Str → Option Nat} {P R : Str}
    (h : ∀ c ∈ P, ∀ cs, tryM c cs = none) :
    findFirst tryM (P ++ R) = findFirst tryM R := by
  induction P with
  | nil => rfl
  | cons c P ih =>
    simp only [List.cons_append, findFirst, h c (by simp)]
    exact ih (fun c hc cs => h c (by simp [hc]) cs)

theorem findFirst_none {tryM : Char → Str → Option Nat} {S : Str}
    (h : ∀ c ∈ S, ∀ cs, tryM c cs = none) :
    findFirst tryM S = none := by
  have := findFirst_append_none (R := []) h
  simpa using this

theorem replaceAll_append_none {tryM : Char → Str → Option Nat} {P R : Str}
    (h : ∀ c ∈ P, ∀ cs, tryM c cs = none) :
    replaceAll tryM (P ++ R) = P ++ replaceAll tryM R := by
  induction P with
  | nil => rfl
  | cons c P ih =>
    simp only [List.cons_append, replaceAll, h c (by simp)]
    rw [ih (fun c hc cs => h c (by simp [hc]) cs)]

theorem replaceAll_id_of_none {tryM : Char → Str → Option Nat} {S : Str}
    (h : ∀ c ∈ S, ∀ cs, tryM c cs = none) :
    replaceAll tryM S = S := by
  have := replaceAll_append_none (R := []) h
  simpa [replaceAll] using this

theorem findIter_append_none {tryM : Char → Str → Option Nat} {P R : Str}
    (h : ∀ c ∈ P, ∀ cs, tryM c cs = none) :
    findIter tryM (P ++ R) = findIter tryM R := by
  induction P with
  | nil => rfl
  | cons c P ih =>
    rw [List.cons_append, findIter, h c (by simp)]
    exact ih (fun c hc cs => h c (by simp [hc]) cs)

theorem findIter_nil_of_none {tryM : Char → Str → Option Nat} {S : Str}
    (h : ∀ c ∈ S, ∀ cs, tryM c cs = none) :
    findIter tryM S = [] := by
  have := findIter_append_none (R := []) h
  simpa [findIter] using this

theorem findCharIdx_none {p : Char → Bool} {S : Str}
    (h : ∀ c ∈ S, p c = false) : findCharIdx p S = none := by
  induction S with
  | nil => rfl
  | cons c S ih =>
    simp only [findCharIdx, h c (by simp)]
    simp [ih (fun c hc => h c (by simp [hc]))]

/-! # Lemmas about trimming -/

theorem dropWhile_append_all {p : Char → Bool} {A B : Str}
    (h : ∀ a ∈ A, p a = true) :
    (A ++ B).dropWhile p = B.dropWhile p := by
  induction A with
  | nil => rfl
  | cons a A ih =>
    simp only [List.cons_append, List.dropWhile_cons, h a (by simp)]
    simp only [if_true]
    exact ih (fun a ha => h a (by simp [ha]))

theorem dropWhile_of_head_false {p : Char → Bool} {c : Char} {S : Str}
    (h : p c = false) : (c :: S).dropWhile p = c :: S := by
  simp [List.dropWhile_cons, h]

theorem takeWhile_append_stop {p : Char → Bool} {A : Str} {b : Char} {R : Str}
    (hA : ∀ a ∈ A, p a = true) (hb : p b = false) :
    (A ++ b :: R).takeWhile p = A := by
  induction A with
  | nil => simp [List.takeWhile_cons, hb]
  | cons a A ih =>
    simp only [List.cons_append, List.takeWhile_cons, hA a (by simp)]
    simp only [if_true, List.cons.injEq, true_and]
    exact ih (fun a ha => hA a (by simp [ha]))

theorem takeWhile_all {p : Char → Bool} {A : Str}
    (hA : ∀ a ∈ A, p a = true) : A.takeWhile p = A := by
  induction A with
  | nil => rfl
  | cons a A ih =>
    simp only [List.takeWhile_cons, hA a (by simp), if_true,
      List.cons.injEq, true_and]
    exact ih (fun a ha => hA a (by simp [ha]))

/-- Trimming a trim-stable string appended with trailing whitespace
returns the string itself. -/
theorem rustTrim_append_ws {T J : Str} (hT : TrimStable T)
    (hJ : ∀ c ∈ J, isWsCh c = true) : rustTrim (T ++ J) = T := by
  rcases T with _ | ⟨c, T⟩
  · simp only [List.nil_append]
    have h1 : trimStart J = [] := by
      simp only [trimStart]
      induction J with
      | nil => rfl
      | cons a J ih =>
        simp [List.dropWhile_cons, hJ a (by simp),
          ih (fun a ha => hJ a (by simp [ha]))]
    rw [rustTrim, h1]; rfl
  · have hc : isWsCh c = false := hT.1 c rfl
    have hstep : trimStart ((c :: T) ++ J) = (c :: T) ++ J := by
      simp [trimStart, List.cons_append, List.dropWhile_cons, hc]
    rw [rustTrim, hstep]
    simp only [trimEnd, trimStart, List.reverse_append]
    rw [dropWhile_append_all (fun a ha => hJ a (List.mem_reverse.mp ha))]
    have hlast : ∀ h, (c :: T).getLast? = some h → isWsCh h = false := hT.2
    have : ((c :: T).reverse).dropWhile (fun c => isWsCh c) = (c :: T).reverse := by
      rcases hrev : (c :: T).reverse with _ | ⟨d, D⟩
      · simp at hrev
      · have : (c :: T).getLast? = some d := by
          rw [← List.head?_reverse, hrev]; rfl
        rw [dropWhile_of_head_false (hlast d this)]
    rw [this, List.reverse_reverse]

/-- A trim-stable string is unchanged by `rustTrim`. -/
theorem rustTrim_of_trimStable {T : Str} (hT : TrimStable T) :
    rustTrim T = T := by
  have := rustTrim_append_ws (J := []) hT (by simp)
  simpa using this

/-! # Lemmas about digits and dates -/

theorem isDigitCh_digitChar {k : Nat} (h : k < 10) :
    isDigitCh (Nat.digitChar k) = true := by
  interval_cases k <;> decide

theorem digitVal_digitChar {k : Nat} (h : k < 10) :
    digitVal (Nat.digitChar k) = k := by
  interval_cases k <;> decide

theorem dateShape_format {dt : NaiveDate} {R : Str} :
    dateShape (formatDate dt ++ R) = true := by
  simp only [formatDate, pad4, pad2, List.cons_append, List.append_assoc,
    List.nil_append, dateShape]
  simp [isDigitCh_digitChar (Nat.mod_lt _ (by norm_num))]

theorem parseDateStr_format {dt : NaiveDate} (h : dt.valid) :
    parseDateStr (formatDate dt) = some dt := by
  obtain ⟨hy, hm1, hm2, hd1, hd2⟩ := h
  have hm99 : dt.m ≤ 99 := le_trans hm2 (by norm_num)
  have hd99 : dt.d ≤ 99 := by
    have : daysInMonth dt.y dt.m ≤ 31 := by
      unfold daysInMonth
      split
      · split <;> norm_num
      · split <;> norm_num
    omega
  simp only [formatDate, pad4, pad2, List.cons_append, List.append_assoc,
    List.nil_append, parseDateStr]
  simp only [isDigitCh_digitChar (Nat.mod_lt _ (by norm_num)),
    Bool.and_self, if_true]
  have hv : ∀ k : Nat, digitVal (Nat.digitChar (k % 10)) = k % 10 :=
    fun k => digitVal_digitChar (Nat.mod_lt _ (by norm_num))
  simp only [hv]
  have ey : dt.y / 1000 % 10 * 1000 + dt.y / 100 % 10 * 100 +
      dt.y / 10 % 10 * 10 + dt.y % 10 = dt.y := by omega
  have em : dt.m / 10 % 10 * 10 + dt.m % 10 = dt.m := by omega
  have ed : dt.d / 10 % 10 * 10 + dt.d % 10 = dt.d := by omega
  rw [ey, em, ed]
  have : NaiveDate.valid ⟨dt.y, dt.m, dt.d⟩ := ⟨hy, hm1, hm2, hd1, hd2⟩
  simp [this]

/-! # Trigger-character lemmas for the matchers -/

theorem deadlineTry_ne {c : Char} {cs : Str} (h : c ≠ '!') :
    deadlineTry c cs = none := by simp [deadlineTry, h]

theorem reminderTry_ne {c : Char} {cs : Str} (h : c ≠ '@') :
    reminderTry c cs = none := by simp [reminderTry, h]

theorem tagTry_ne {c : Char} {cs : Str} (h : c ≠ '#') :
    tagTry c cs = none := by simp [tagTry, h]

theorem importanceTry_ne {c : Char} {cs : Str} (h : c ≠ '$') :
    importanceTry c cs = none := by simp [importanceTry, h]

theorem idTry_ne {c : Char} {cs : Str} (h : c ≠ '[') :
    idTry c cs = none := by simp [idTry, h]

theorem yarmtlIdTry_ne {c : Char} {cs : Str} (h : c ≠ '[') :
    yarmtlIdTry c cs = none := by simp [yarmtlIdTry, h]

theorem notesTry_ne {c : Char} {cs : Str} (h : c ≠ '/') :
    notesTry c cs = none := by simp [notesTry, h]

theorem metaNotesTry_ne {c : Char} {cs : Str} (h : c ≠ '/') :
    metaNotesTry c cs = none := by simp [metaNotesTry, h]

/-! # Character-class facts -/

/-- Characters allowed in a `dddd-dd-dd` date string. -/
def dateOkCh (c : Char) : Bool := isDigitCh c || c = '-'

theorem isWsCh_cases {c : Char} (h : isWsCh c = true) :
    c = ' ' ∨ c = '\t' ∨ c = '\n' ∨ c = '\r' ∨ c = Char.ofNat 11 ∨
    c = Char.ofNat 12 := by
  simpa [isWsCh, Bool.or_eq_true, decide_eq_true_iff, or_assoc] using h

theorem not_ws_of_class {cls : Char → Bool} {c : Char} (h : cls c = true)
    (hsp : cls ' ' = false) (htab : cls '\t' = false)
    (hnl : cls '\n' = false) (hcr : cls '\r' = false)
    (hvt : cls (Char.ofNat 11) = false) (hff : cls (Char.ofNat 12) = false) :
    isWsCh c = false := by
  cases hw : isWsCh c
  · rfl
  · exfalso
    rcases isWsCh_cases hw with rfl | rfl | rfl | rfl | rfl | rfl <;>
      simp_all

theorem dateOkCh_not_marker {c : Char} (h : dateOkCh c = true) :
    c ≠ '!' ∧ c ≠ '@' ∧ c ≠ '#' ∧ c ≠ '$' ∧ c ≠ '/' ∧ c ≠ '[' ∧
    isWsCh c = false :=
  ⟨fun hc => by subst hc; revert h; decide,
   fun hc => by subst hc; revert h; decide,
   fun hc => by subst hc; revert h; decide,
   fun hc => by subst hc; revert h; decide,
   fun hc => by subst hc; revert h; decide,
   fun hc => by subst hc; revert h; decide,
   not_ws_of_class h (by decide) (by decide) (by decide) (by decide)
     (by decide) (by decide)⟩

theorem isIdCh_not_marker {c : Char} (h : isIdCh c = true) :
    c ≠ '!' ∧ c ≠ '@' ∧ c ≠ '#' ∧ c ≠ '$' ∧ c ≠ '/' ∧ c ≠ '[' ∧ c ≠ ']' ∧
    c ≠ '+' ∧ isWsCh c = false :=
  ⟨fun hc => by subst hc; revert h; decide,
   fun hc => by subst hc; revert h; decide,
   fun hc => by subst hc; revert h; decide,
   fun hc => by subst hc; revert h; decide,
   fun hc => by subst hc; revert h; decide,
   fun hc => by subst hc; revert h; decide,
   fun hc => by subst hc; revert h; decide,
   fun hc => by subst hc; revert h; decide,
   not_ws_of_class h (by decide) (by decide) (by decide) (by decide)
     (by decide) (by decide)⟩

theorem c6NotesCh_not_marker {c : Char}
    (h : (!(c = '$' || c = '@' || c = '!' || c = '[')) = true) :
    c ≠ '!' ∧ c ≠ '@' ∧ c ≠ '$' ∧ c ≠ '[' := by
  refine ⟨?_, ?_, ?_, ?_⟩ <;> (intro hc; subst hc; revert h; decide)

/-! # Shape lemmas for date strings -/

theorem eq_ten_of_length {d : Str} (hd : d.length = 10) :
    ∃ a b c e f g h i j k, d = [a, b, c, e, f, g, h, i, j, k] := by
  rcases d with _ | ⟨a, d⟩; · simp at hd
  rcases d with _ | ⟨b, d⟩; · simp at hd
  rcases d with _ | ⟨c, d⟩; · simp at hd
  rcases d with _ | ⟨e, d⟩; · simp at hd
  rcases d with _ | ⟨f, d⟩; · simp at hd
  rcases d with _ | ⟨g, d⟩; · simp at hd
  rcases d with _ | ⟨h, d⟩; · simp at hd
  rcases d with _ | ⟨i, d⟩; · simp at hd
  rcases d with _ | ⟨j, d⟩; · simp at hd
  rcases d with _ | ⟨k, d⟩; · simp at hd
  rcases d with _ | ⟨l, d⟩
  · exact ⟨a, b, c, e, f, g, h, i, j, k, rfl⟩
  · exfalso
    simp only [List.length_cons] at hd
    omega

theorem dateShape_append {d R : Str} (hlen : d.length = 10)
    (hs : dateShape d = true) : dateShape (d ++ R) = true := by
  obtain ⟨a, b, c, e, f, g, h, i, j, k, rfl⟩ := eq_ten_of_length hlen
  simpa [dateShape] using hs

theorem dateShape_chars {d : Str} (hlen : d.length = 10)
    (hs : dateShape d = true) : ∀ c ∈ d, dateOkCh c = true := by
  obtain ⟨a, b, c, e, f, g, h, i, j, k, rfl⟩ := eq_ten_of_length hlen
  simp only [dateShape, Bool.and_eq_true, decide_eq_true_iff] at hs
  intro x hx
  simp only [List.mem_cons, List.not_mem_nil, or_false] at hx
  unfold dateOkCh
  rcases hx with rfl | rfl | rfl | rfl | rfl | rfl | rfl | rfl | rfl | rfl <;>
    simp_all

/-! # Positive-match lemmas for the field extractors -/

theorem findFirst_cons_of_some {tryM : Char → Str → Option Nat} {c : Char}
    {cs : Str} {n : Nat} (h : tryM c cs = some n) :
    findFirst tryM (c :: cs) = some (c :: cs.take n) := by
  rw [findFirst, h]

/-- Leftmost `!date` match on a string whose prefix has no `!` and whose
marker is followed by a well-shaped date. -/
theorem findFirst_deadline {P d R : Str} (hP : ∀ c ∈ P, c ≠ '!')
    (hlen : d.length = 10) (hs : dateShape d = true) :
    findFirst deadlineTry (P ++ '!' :: (d ++ R)) = some ('!' :: d) := by
  rw [findFirst_append_none (fun c hc cs => deadlineTry_ne (hP c hc))]
  have hm : deadlineTry '!' (d ++ R) = some 10 := by
    simp [deadlineTry, dateShape_append hlen hs]
  rw [findFirst_cons_of_some hm, List.take_left' hlen]

/-- Leftmost `@date` match, as for `findFirst_deadline`. -/
theorem findFirst_reminder {P d R : Str} (hP : ∀ c ∈ P, c ≠ '@')
    (hlen : d.length = 10) (hs : dateShape d = true) :
    findFirst reminderTry (P ++ '@' :: (d ++ R)) = some ('@' :: d) := by
  rw [findFirst_append_none (fun c hc cs => reminderTry_ne (hP c hc))]
  have hm : reminderTry '@' (d ++ R) = some 10 := by
    simp [reminderTry, dateShape_append hlen hs]
  rw [findFirst_cons_of_some hm, List.take_left' hlen]

theorem toDigits_single {i : Nat} (h1 : 1 ≤ i) (h5 : i ≤ 5) :
    Nat.toDigits 10 i = [Nat.digitChar i] := by
  interval_cases i <;> rfl

theorem digitChar_one_to_five {i : Nat} (h1 : 1 ≤ i) (h5 : i ≤ 5) :
    ('1' ≤ Nat.digitChar i && Nat.digitChar i ≤ '5') = true := by
  interval_cases i <;> decide

theorem rustParseUInt_digit {i : Nat} (h1 : 1 ≤ i) (h5 : i ≤ 5) :
    rustParseUInt 255 [Nat.digitChar i] = some i := by
  interval_cases i <;> decide

/-- Leftmost `$[1-5]` match on a string whose prefix has no `$`. -/
theorem findFirst_importance {P R : Str} {i : Nat} (hP : ∀ c ∈ P, c ≠ '$')
    (h1 : 1 ≤ i) (h5 : i ≤ 5) :
    findFirst importanceTry (P ++ '$' :: (Nat.digitChar i :: R)) =
      some ['$', Nat.digitChar i] := by
  rw [findFirst_append_none (fun c hc cs => importanceTry_ne (hP c hc))]
  have hm : importanceTry '$' (Nat.digitChar i :: R) = some 1 := by
    simp [importanceTry, digitChar_one_to_five h1 h5]
  rw [findFirst_cons_of_some hm]
  rfl

/-- Leftmost `\[yarmtl:...\]` match on a string whose prefix has no `[`. -/
theorem findFirst_yarmtlId {P id R : Str} (hP : ∀ c ∈ P, c ≠ '[')
    (h1 : id ≠ []) (h2 : id.all (fun c => isIdCh c) = true) :
    findFirst yarmtlIdTry
      (P ++ '[' :: 'y' :: 'a' :: 'r' :: 'm' :: 't' :: 'l' :: ':' ::
        (id ++ ']' :: R)) =
    some ('[' :: 'y' :: 'a' :: 'r' :: 'm' :: 't' :: 'l' :: ':' ::
      (id ++ [']'])) := by
  rw [findFirst_append_none (fun c hc cs => yarmtlIdTry_ne (hP c hc))]
  have hrun : (id ++ ']' :: R).takeWhile (fun c => isIdCh c) = id :=
    takeWhile_append_stop (fun a ha => (List.all_eq_true.mp h2) a ha)
      (by decide)
  have hlen : id.length ≠ 0 := by
    simpa [List.length_eq_zero] using h1
  have hm : yarmtlIdTry '['
      ('y' :: 'a' :: 'r' :: 'm' :: 't' :: 'l' :: ':' :: (id ++ ']' :: R)) =
      some (7 + id.length + 1) := by
    simp only [yarmtlIdTry, if_pos rfl]
    rw [hrun]  -- (zeta-reduced let)
    simp [hlen, List.drop_left]
  rw [findFirst_cons_of_some hm]
  have htake : ('y' :: 'a' :: 'r' :: 'm' :: 't' :: 'l' :: ':' ::
      (id ++ ']' :: R)).take (7 + id.length + 1) =
      'y' :: 'a' :: 'r' :: 'm' :: 't' :: 'l' :: ':' :: (id ++ [']']) := by
    have hsplit : 'y' :: 'a' :: 'r' :: 'm' :: 't' :: 'l' :: ':' ::
        (id ++ ']' :: R) =
        (['y', 'a', 'r', 'm', 't', 'l', ':'] ++ (id ++ ']' :: R)) := rfl
    rw [hsplit,
      show 7 + id.length + 1 =
        (['y', 'a', 'r', 'm', 't', 'l', ':'] : Str).length + (id.length + 1) by
          simp; omega,
      List.take_append,
      show (']' :: R) = [']'] ++ R from rfl, ← List.append_assoc,
      List.take_left' (by simp)]
    rfl
  rw [htake]

/-- Leftmost `//notes` match for the metadata notes class: the capture runs
through the notes and the following space, stopping at the `[` of the id
marker. -/
theorem findFirst_metaNotes {P n T : Str} (hP : ∀ c ∈ P, c ≠ '/')
    (hn : n.all (fun c => !(c = '$' || c = '@' || c = '!' || c = '[')) = true) :
    findFirst metaNotesTry (P ++ '/' :: '/' :: (n ++ ' ' :: '[' :: T)) =
      some ('/' :: '/' :: (n ++ [' '])) := by
  rw [findFirst_append_none (fun c hc cs => metaNotesTry_ne (hP c hc))]
  have hrun : (n ++ ' ' :: '[' :: T).takeWhile
      (fun c => !(c = '$' || c = '@' || c = '!' || c = '[')) = n ++ [' '] := by
    rw [show (n ++ ' ' :: '[' :: T) = ((n ++ [' ']) ++ '[' :: T) by simp]
    refine takeWhile_append_stop ?_ (by decide)
    intro a ha
    rcases List.mem_append.mp ha with h | h
    · exact (List.all_eq_true.mp hn) a h
    · simp only [List.mem_singleton] at h
      subst h; decide
  have hm : metaNotesTry '/' ('/' :: (n ++ ' ' :: '[' :: T)) =
      some (1 + (n.length + 1)) := by
    simp only [metaNotesTry, if_pos rfl]
    rw [hrun]
    simp
  rw [findFirst_cons_of_some hm]
  have htake : ('/' :: (n ++ ' ' :: '[' :: T)).take (1 + (n.length + 1)) =
      '/' :: (n ++ [' ']) := by
    rw [show ('/' :: (n ++ ' ' :: '[' :: T)) =
      (['/'] ++ ((n ++ [' ']) ++ '[' :: T)) by simp,
      show 1 + (n.length + 1) = (['/'] : Str).length + (n.length + 1) by simp,
      List.take_append, List.take_left' (by simp)]
    rfl
  rw [htake]

/-! # Segment character lemmas for the metadata encoding -/

theorem encode_eq_trim (m : YarmtlMetadata) :
    m.encode = rustTrim (encodeBody m) := rfl

theorem dateSeg_none {mk : Char} : dateSeg mk none = [] := rfl

theorem dateSeg_some {mk : Char} {d : Str} :
    dateSeg mk (some d) = mk :: (d ++ [' ']) := rfl

theorem impSeg_none : impSeg none = [] := rfl

theorem notesSeg_none : notesSeg none = [] := rfl

theorem notesSeg_some {n : Str} :
    notesSeg (some n) = '/' :: '/' :: (n ++ [' ']) := rfl

theorem mem_dateSeg {mk : Char} {o : Option Str}
    (ho : ∀ d, o = some d → d.length = 10 ∧ dateShape d = true) :
    ∀ c ∈ dateSeg mk o, c = mk ∨ dateOkCh c = true ∨ c = ' ' := by
  rcases o with _ | d
  · simp [dateSeg]
  · obtain ⟨hlen, hs⟩ := ho d rfl
    intro c hc
    simp only [dateSeg, List.mem_cons, List.mem_append, List.not_mem_nil,
      or_false] at hc
    rcases hc with rfl | hc | rfl
    · exact Or.inl rfl
    · exact Or.inr (Or.inl (dateShape_chars hlen hs c hc))
    · exact Or.inr (Or.inr rfl)

theorem mem_impSeg {o : Option Nat} (ho : ∀ i, o = some i → 1 ≤ i ∧ i ≤ 5) :
    ∀ c ∈ impSeg o, c = '$' ∨ isDigitCh c = true ∨ c = ' ' := by
  rcases o with _ | i
  · simp [impSeg]
  · obtain ⟨h1, h5⟩ := ho i rfl
    rw [impSeg, toDigits_single h1 h5]
    intro c hc
    simp only [List.mem_cons, List.mem_append, List.mem_singleton,
      List.not_mem_nil, or_false] at hc
    rcases hc with rfl | rfl | rfl
    · exact Or.inl rfl
    · exact Or.inr (Or.inl (isDigitCh_digitChar (by omega)))
    · exact Or.inr (Or.inr rfl)

theorem mem_notesSeg {o : Option Str}
    (ho : ∀ n, o = some n →
      n.all (fun c => !(c = '$' || c = '@' || c = '!' || c = '[')) = true) :
    ∀ c ∈ notesSeg o, c = '/' ∨
      (!(c = '$' || c = '@' || c = '!' || c = '[')) = true ∨ c = ' ' := by
  rcases o with _ | n
  · simp [notesSeg]
  · have hn := ho n rfl
    intro c hc
    simp only [notesSeg, List.mem_cons, List.mem_append, List.not_mem_nil,
      or_false] at hc
    rcases hc with rfl | rfl | hc | rfl
    · exact Or.inl rfl
    · exact Or.inl rfl
    · exact Or.inr (Or.inl ((List.all_eq_true.mp hn) c hc))
    · exact Or.inr (Or.inr rfl)

theorem mem_yarmtlTail {id : Str} (hid : id.all (fun c => isIdCh c) = true) :
    ∀ c ∈ ("[yarmtl:".toList ++ (id ++ [']'])),
      c = '[' ∨ c = 'y' ∨ c = 'a' ∨ c = 'r' ∨ c = 'm' ∨ c = 't' ∨ c = 'l' ∨
      c = ':' ∨ isIdCh c = true ∨ c = ']' := by
  intro c hc
  simp only [List.append_assoc, List.mem_append, List.mem_singleton] at hc
  rcases hc with hc | hc | rfl
  · have : c ∈ (['[', 'y', 'a', 'r', 'm', 't', 'l', ':'] : Str) := hc
    simp only [List.mem_cons, List.not_mem_nil, or_false] at this
    tauto
  · exact Or.inr (Or.inr (Or.inr (Or.inr (Or.inr (Or.inr (Or.inr (Or.inr
      (Or.inl ((List.all_eq_true.mp hid) c hc)))))))))
  · tauto

/-! # Claim C6: sideband metadata round trip -/

/-- C6 counterexample: a metadata value whose id contains a character
outside `[a-f0-9-]` does not round-trip — `parse (encode m)` is `none`,
not `some m`. -/
theorem c6_counterexample :
    YarmtlMetadata.parse
      (YarmtlMetadata.encode
        { id := "z".toList, deadline := none, reminder := none,
          notes := none, importance := none }) = none := by
  decide

/-- C6 amended: the sideband encoding round-trips for every well-formed
metadata value: a non-empty id over `[a-f0-9-]`, date strings in the exact
`dddd-dd-dd` shape, trim-stable notes free of `!`, `@`, `$`, `[`, and an
importance in `1..=5`; `parse (encode m)` then returns `some m`
field-for-field. -/
theorem c6_meta_roundtrip (m : YarmtlMetadata) (hW : WellFormedMeta m) :
    YarmtlMetadata.parse m.encode = some m := by
  obtain ⟨⟨hid1, hid2⟩, hdl, hrm, hnt, himp⟩ := hW
  have hnt' : ∀ n, m.notes = some n →
      n.all (fun c => !(c = '$' || c = '@' || c = '!' || c = '[')) = true := by
    intro n hn
    have := (hnt n hn).2
    rw [List.all_eq_true] at this ⊢
    intro c hc
    have h4 := this c hc
    obtain ⟨e1, e2, e3, e4⟩ := c6NotesCh_not_marker (by
      simp only [Bool.not_eq_eq_eq_not, Bool.not_true, Bool.or_eq_false_iff,
        decide_eq_false_iff_not]
      simp only [notesCharOK, Bool.not_eq_eq_eq_not, Bool.not_true,
        Bool.or_eq_false_iff, decide_eq_false_iff_not] at h4
      tauto)
    simp [e1, e2, e3, e4]
  -- the body is trim-stable: it starts with a marker and ends with `]`
  have htl : ("[yarmtl:".toList : Str) =
      '[' :: 'y' :: 'a' :: 'r' :: 'm' :: 't' :: 'l' :: ':' :: [] := rfl
  have hbody : rustTrim (encodeBody m) = encodeBody m := by
    apply rustTrim_of_trimStable
    constructor
    · show ∀ h, (encodeBody m).head? = some h → isWsCh h = false
      unfold encodeBody
      rcases m.deadline with _ | d <;> rcases m.reminder with _ | r <;>
        rcases m.importance with _ | i <;> rcases m.notes with _ | n <;>
        simp only [dateSeg, impSeg, notesSeg, htl, List.nil_append,
          List.cons_append, List.append_assoc, List.head?_cons,
          Option.some.injEq] <;>
        (intro h hh; subst hh; decide)
    · show ∀ h, (encodeBody m).getLast? = some h → isWsCh h = false
      have hgl : (encodeBody m).getLast? = some ']' := by
        unfold encodeBody
        simp only [List.getLast?_append]
        rfl
      intro h hh
      rw [hgl] at hh
      simp only [Option.some.injEq] at hh
      subst hh; decide
  rw [encode_eq_trim, hbody]
  -- the five field extractions
  have hidx : findFirst yarmtlIdTry (encodeBody m) =
      some ('[' :: 'y' :: 'a' :: 'r' :: 'm' :: 't' :: 'l' :: ':' ::
        (m.id ++ [']'])) := by
    have hP : ∀ c ∈ (dateSeg '!' m.deadline ++ (dateSeg '@' m.reminder ++
        (impSeg m.importance ++ notesSeg m.notes))), c ≠ '[' := by
      intro c hc
      simp only [List.mem_append] at hc
      rcases hc with hc | hc | hc | hc
      · rcases mem_dateSeg hdl c hc with rfl | h | rfl
        · decide
        · exact (dateOkCh_not_marker h).2.2.2.2.2.1
        · decide
      · rcases mem_dateSeg hrm c hc with rfl | h | rfl
        · decide
        · exact (dateOkCh_not_marker h).2.2.2.2.2.1
        · decide
      · rcases mem_impSeg himp c hc with rfl | h | rfl
        · decide
        · exact (dateOkCh_not_marker (by simp [dateOkCh, h])).2.2.2.2.2.1
        · decide
      · rcases mem_notesSeg hnt' c hc with rfl | h | rfl
        · decide
        · exact (c6NotesCh_not_marker h).2.2.2
        · decide
    have hshape : encodeBody m =
        (dateSeg '!' m.deadline ++ (dateSeg '@' m.reminder ++
          (impSeg m.importance ++ notesSeg m.notes))) ++
        '[' :: 'y' :: 'a' :: 'r' :: 'm' :: 't' :: 'l' :: ':' ::
          (m.id ++ ']' :: []) := by
      unfold encodeBody
      simp [List.append_assoc]
    rw [hshape]
    exact findFirst_yarmtlId hP hid1 hid2
  have hdlx : findFirst deadlineTry (encodeBody m) =
      m.deadline.map (fun d => '!' :: d) := by
    rcases hdc : m.deadline with _ | d
    · apply findFirst_none
      intro c hc cs
      apply deadlineTry_ne
      unfold encodeBody at hc
      rw [hdc] at hc
      simp only [dateSeg_none, List.nil_append, List.append_assoc,
        List.mem_append] at hc
      rcases hc with hc | hc | hc | hc
      · rcases mem_dateSeg hrm c hc with rfl | h | rfl
        · decide
        · exact (dateOkCh_not_marker h).1
        · decide
      · rcases mem_impSeg himp c hc with rfl | h | rfl
        · decide
        · exact (dateOkCh_not_marker (by simp [dateOkCh, h])).1
        · decide
      · rcases mem_notesSeg hnt' c hc with rfl | h | rfl
        · decide
        · exact (c6NotesCh_not_marker h).1
        · decide
      · rcases hc with hc | hc | hc
        · rw [htl] at hc
          fin_cases hc <;> decide
        · exact (isIdCh_not_marker ((List.all_eq_true.mp hid2) c hc)).1
        · simp only [List.mem_singleton] at hc
          subst hc; decide
    · obtain ⟨hlen, hs⟩ := hdl d hdc
      have hshape : encodeBody m = [] ++ '!' :: (d ++
          ([' '] ++ (dateSeg '@' m.reminder ++ (impSeg m.importance ++
            (notesSeg m.notes ++
              ("[yarmtl:".toList ++ m.id ++ [']'])))))) := by
        unfold encodeBody
        rw [hdc]
        simp [dateSeg, List.append_assoc]
      rw [hshape, findFirst_deadline (by simp) hlen hs]
      rfl
  have hrmx : findFirst reminderTry (encodeBody m) =
      m.reminder.map (fun r => '@' :: r) := by
    rcases hrc : m.reminder with _ | r
    · apply findFirst_none
      intro c hc cs
      apply reminderTry_ne
      unfold encodeBody at hc
      rw [hrc] at hc
      simp only [dateSeg_none, List.nil_append, List.append_nil,
        List.append_assoc, List.mem_append] at hc
      rcases hc with hc | hc | hc | hc
      · rcases mem_dateSeg hdl c hc with rfl | h | rfl
        · decide
        · exact (dateOkCh_not_marker h).2.1
        · decide
      · rcases mem_impSeg himp c hc with rfl | h | rfl
        · decide
        · exact (dateOkCh_not_marker (by simp [dateOkCh, h])).2.1
        · decide
      · rcases mem_notesSeg hnt' c hc with rfl | h | rfl
        · decide
        · exact (c6NotesCh_not_marker h).2.1
        · decide
      · rcases hc with hc | hc | hc
        · rw [htl] at hc
          fin_cases hc <;> decide
        · exact (isIdCh_not_marker ((List.all_eq_true.mp hid2) c hc)).2.1
        · simp only [List.mem_singleton] at hc
          subst hc; decide
    · obtain ⟨hlen, hs⟩ := hrm r hrc
      have hP : ∀ c ∈ dateSeg '!' m.deadline, c ≠ '@' := by
        intro c hc
        rcases mem_dateSeg hdl c hc with rfl | h | rfl
        · decide
        · exact (dateOkCh_not_marker h).2.1
        · decide
      have hshape : encodeBody m = dateSeg '!' m.deadline ++ '@' :: (r ++
          ([' '] ++ (impSeg m.importance ++ (notesSeg m.notes ++
              ("[yarmtl:".toList ++ m.id ++ [']']))))) := by
        unfold encodeBody
        rw [hrc]
        simp [dateSeg, List.append_assoc]
      rw [hshape, findFirst_reminder hP hlen hs]
      rfl
  have himpx : findFirst importanceTry (encodeBody m) =
      m.importance.map (fun i => ['$', Nat.digitChar i]) := by
    rcases hic : m.importance with _ | i
    · apply findFirst_none
      intro c hc cs
      apply importanceTry_ne
      unfold encodeBody at hc
      rw [hic] at hc
      simp only [impSeg_none, List.nil_append, List.append_nil,
        List.append_assoc, List.mem_append] at hc
      rcases hc with hc | hc | hc | hc
      · rcases mem_dateSeg hdl c hc with rfl | h | rfl
        · decide
        · exact (dateOkCh_not_marker h).2.2.2.1
        · decide
      · rcases mem_dateSeg hrm c hc with rfl | h | rfl
        · decide
        · exact (dateOkCh_not_marker h).2.2.2.1
        · decide
      · rcases mem_notesSeg hnt' c hc with rfl | h | rfl
        · decide
        · exact (c6NotesCh_not_marker h).2.2.1
        · decide
      · rcases hc with hc | hc | hc
        · rw [htl] at hc
          fin_cases hc <;> decide
        · exact (isIdCh_not_marker ((List.all_eq_true.mp hid2) c hc)).2.2.2.1
        · simp only [List.mem_singleton] at hc
          subst hc; decide
    · obtain ⟨h1, h5⟩ := himp i hic
      have hP : ∀ c ∈ (dateSeg '!' m.deadline ++ dateSeg '@' m.reminder),
          c ≠ '$' := by
        intro c hc
        rcases List.mem_append.mp hc with hc | hc
        · rcases mem_dateSeg hdl c hc with rfl | h | rfl
          · decide
          · exact (dateOkCh_not_marker h).2.2.2.1
          · decide
        · rcases mem_dateSeg hrm c hc with rfl | h | rfl
          · decide
          · exact (dateOkCh_not_marker h).2.2.2.1
          · decide
      have hshape : encodeBody m =
          (dateSeg '!' m.deadline ++ dateSeg '@' m.reminder) ++
          '$' :: (Nat.digitChar i :: (' ' :: (notesSeg m.notes ++
            ("[yarmtl:".toList ++ m.id ++ [']'])))) := by
        unfold encodeBody
        rw [hic, impSeg, toDigits_single h1 h5]
        simp [List.append_assoc]
      rw [hshape, findFirst_importance hP h1 h5]
      rfl
  have hntx : findFirst metaNotesTry (encodeBody m) =
      m.notes.map (fun n => '/' :: '/' :: (n ++ [' '])) := by
    rcases hnc : m.notes with _ | n
    · apply findFirst_none
      intro c hc cs
      apply metaNotesTry_ne
      unfold encodeBody at hc
      rw [hnc] at hc
      simp only [notesSeg_none, List.nil_append, List.append_nil,
        List.append_assoc, List.mem_append] at hc
      rcases hc with hc | hc | hc | hc
      · rcases mem_dateSeg hdl c hc with rfl | h | rfl
        · decide
        · exact (dateOkCh_not_marker h).2.2.2.2.1
        · decide
      · rcases mem_dateSeg hrm c hc with rfl | h | rfl
        · decide
        · exact (dateOkCh_not_marker h).2.2.2.2.1
        · decide
      · rcases mem_impSeg himp c hc with rfl | h | rfl
        · decide
        · exact (dateOkCh_not_marker (by simp [dateOkCh, h])).2.2.2.2.1
        · decide
      · rcases hc with hc | hc | hc
        · rw [htl] at hc
          fin_cases hc <;> decide
        · exact (isIdCh_not_marker ((List.all_eq_true.mp hid2) c hc)).2.2.2.2.1
        · simp only [List.mem_singleton] at hc
          subst hc; decide
    · have hclass := hnt' n hnc
      have hP : ∀ c ∈ (dateSeg '!' m.deadline ++ (dateSeg '@' m.reminder ++
          impSeg m.importance)), c ≠ '/' := by
        intro c hc
        simp only [List.mem_append] at hc
        rcases hc with hc | hc | hc
        · rcases mem_dateSeg hdl c hc with rfl | h | rfl
          · decide
          · exact (dateOkCh_not_marker h).2.2.2.2.1
          · decide
        · rcases mem_dateSeg hrm c hc with rfl | h | rfl
          · decide
          · exact (dateOkCh_not_marker h).2.2.2.2.1
          · decide
        · rcases mem_impSeg himp c hc with rfl | h | rfl
          · decide
          · exact (dateOkCh_not_marker (by simp [dateOkCh, h])).2.2.2.2.1
          · decide
      have hshape : encodeBody m =
          (dateSeg '!' m.deadline ++ (dateSeg '@' m.reminder ++
            impSeg m.importance)) ++
          '/' :: '/' :: (n ++ ' ' :: '[' ::
            ('y' :: 'a' :: 'r' :: 'm' :: 't' :: 'l' :: ':' ::
              (m.id ++ [']']))) := by
        unfold encodeBody
        rw [hnc, notesSeg_some, htl]
        simp [List.append_assoc]
      rw [hshape, findFirst_metaNotes hP hclass]
      rfl
  -- assemble the parsed record
  have e0 : ((('[' :: 'y' :: 'a' :: 'r' :: 'm' :: 't' :: 'l' :: ':' ::
      (m.id ++ [']'])) : Str).drop 8).dropLast = m.id := by
    rw [show ('[' :: 'y' :: 'a' :: 'r' :: 'm' :: 't' :: 'l' :: ':' ::
      (m.id ++ [']']) : Str) =
      ['[', 'y', 'a', 'r', 'm', 't', 'l', ':'] ++ (m.id ++ [']']) from rfl,
      List.drop_left' (by simp), List.dropLast_concat]
  have e1 : ((m.deadline.map (fun d => '!' :: d)).map
      (fun x => x.drop 1)) = m.deadline := by
    rcases m.deadline <;> rfl
  have e2 : ((m.reminder.map (fun r => '@' :: r)).map
      (fun x => x.drop 1)) = m.reminder := by
    rcases m.reminder <;> rfl
  have e3 : ((m.importance.map (fun i => ['$', Nat.digitChar i])).bind
      (fun x => rustParseUInt 255 (x.drop 1))) = m.importance := by
    rcases hic : m.importance with _ | i
    · rfl
    · obtain ⟨h1, h5⟩ := himp i hic
      simp only [Option.map_some', Option.bind_some, Option.some_bind,
        List.drop_succ_cons, List.drop_zero]
      exact rustParseUInt_digit h1 h5
  have e4 : ((m.notes.map (fun n => '/' :: '/' :: (n ++ [' ']))).map
      (fun x => rustTrim (x.drop 2))) = m.notes := by
    rcases hnc : m.notes with _ | n
    · rfl
    · simp only [Option.map_some', Option.some.injEq, List.drop_succ_cons,
        List.drop_zero]
      exact rustTrim_append_ws (hnt n hnc).1 (by decide)
  rw [YarmtlMetadata.parse.eq_def, hidx]
  simp only [Option.map_some', e0, hdlx, hrmx, himpx, hntx, e1, e2, e3, e4]

/-- Witness for C6's amended statement at a concrete well-formed metadata
value carrying all five fields. -/
theorem c6_meta_roundtrip_witness :
    YarmtlMetadata.parse
      (YarmtlMetadata.encode
        { id := "abc12345".toList, deadline := some "2026-01-30".toList,
          reminder := some "2026-01-28".toList,
          notes := some "Important task".toList, importance := some 3 }) =
    some
      { id := "abc12345".toList, deadline := some "2026-01-30".toList,
        reminder := some "2026-01-28".toList,
        notes := some "Important task".toList, importance := some 3 } :=
  c6_meta_roundtrip _
    ⟨⟨by decide, by decide⟩,
     fun d hd => by cases hd; exact ⟨by decide, by decide⟩,
     fun r hr => by cases hr; exact ⟨by decide, by decide⟩,
     fun n hn => by cases hn; exact ⟨by decide, by decide⟩,
     fun i hi => by cases hi; exact ⟨by decide, by decide⟩⟩

/-! # Claim C10: 429 response mapping -/

/-- C10: every HTTP response with status 429 maps to `RateLimitExceeded`
whose `retry_after` is the parsed `Retry-After` header value, and is `60`
whenever the header is missing or does not parse as an unsigned integer. -/
theorem c10_rate_limit_mapping (h : Option Str) (endpoint body : Str) :
    makeRequestOutcome 429 h endpoint body =
      some (.RateLimitExceeded ((h.bind (rustParseUInt (2 ^ 64 - 1))).getD 60)) ∧
    (h.bind (rustParseUInt (2 ^ 64 - 1)) = none →
      makeRequestOutcome 429 h endpoint body =
        some (.RateLimitExceeded 60)) ∧
    (∀ n, h.bind (rustParseUInt (2 ^ 64 - 1)) = some n →
      makeRequestOutcome 429 h endpoint body =
        some (.RateLimitExceeded n)) := by
  have base : makeRequestOutcome 429 h endpoint body =
      some (.RateLimitExceeded
        ((h.bind (rustParseUInt (2 ^ 64 - 1))).getD 60)) := by
    norm_num [makeRequestOutcome]
  refine ⟨base, ?_, ?_⟩
  · intro hn
    rw [base, hn]; rfl
  · intro n hn
    rw [base, hn]; rfl

/-- Witness for C10 at concrete headers: a parseable value is used, a
missing header and a malformed header both fall back to 60. -/
theorem c10_rate_limit_mapping_witness :
    makeRequestOutcome 429 (some "12".toList) [] [] =
      some (.RateLimitExceeded 12) ∧
    makeRequestOutcome 429 none [] [] = some (.RateLimitExceeded 60) ∧
    makeRequestOutcome 429 (some "soon".toList) [] [] =
      some (.RateLimitExceeded 60) :=
  ⟨(c10_rate_limit_mapping (some "12".toList) [] []).2.2 12 (by decide),
   (c10_rate_limit_mapping none [] []).2.1 (by decide),
   (c10_rate_limit_mapping (some "soon".toList) [] []).2.1 (by decide)⟩

/-! # Claim C9: fingerprint determinism -/

/-- C9: the fingerprint is a deterministic function of exactly the seven
fields (text, deadline, tags, reminder, completed, notes, importance):
two tasks agreeing on those fields — in particular tasks differing only in
their id — always hash to the same string, in any two invocations
(`DefaultHasher::new` has fixed keys, so the value is also stable across
process runs of the same build). -/
theorem c9_hash_deterministic (t1 t2 : Task)
    (h1 : t1.text = t2.text) (h2 : t1.deadline = t2.deadline)
    (h3 : t1.tags = t2.tags) (h4 : t1.reminder = t2.reminder)
    (h5 : t1.completed = t2.completed) (h6 : t1.notes = t2.notes)
    (h7 : t1.importance = t2.importance) :
    computeTaskHash t1 = computeTaskHash t2 := by
  simp only [computeTaskHash, hashStream, h1, h2, h3, h4, h5, h6, h7]

/-- Witness for C9: two concrete tasks that differ only in their id have
the same fingerprint. -/
theorem c9_hash_deterministic_witness :
    computeTaskHash
      { id := "aa".toList, text := "call bob".toList,
        deadline := some ⟨2026, 2, 3⟩, tags := ["work".toList],
        reminder := none, completed := false,
        notes := some "soon".toList, importance := some 1 } =
    computeTaskHash
      { id := "bb".toList, text := "call bob".toList,
        deadline := some ⟨2026, 2, 3⟩, tags := ["work".toList],
        reminder := none, completed := false,
        notes := some "soon".toList, importance := some 1 } :=
  c9_hash_deterministic _ _ rfl rfl rfl rfl rfl rfl rfl

/-! # Claim C8: field translation of `convert_yarmtl_to_todoist` -/

/-- C8: the conversion maps the first tag (when present) to the remote
project via the project cache, the remaining tags to labels (absent when
there are fewer than two tags), and importance to priority by the inverted
table 1→4, 2→3, 3→2, other→1 (absent when importance is absent). -/
theorem c8_field_translation (projects : List (Str × Str)) (t : Task) :
    (convert_yarmtl_to_todoist projects t).project_id =
      t.tags.head?.bind (fun tg => projects.lookup tg) ∧
    (convert_yarmtl_to_todoist projects t).labels =
      (if 2 ≤ t.tags.length then some t.tags.tail else none) ∧
    (convert_yarmtl_to_todoist projects t).priority =
      t.importance.map (fun i =>
        if i = 1 then 4 else if i = 2 then 3 else if i = 3 then 2 else 1) := by
  refine ⟨?_, ?_, ?_⟩
  · rcases htags : t.tags with _ | ⟨tg, rest⟩ <;>
      simp [convert_yarmtl_to_todoist, htags]
  · rcases htags : t.tags with _ | ⟨tg, rest⟩
    · simp [convert_yarmtl_to_todoist, htags]
    · simp only [convert_yarmtl_to_todoist, htags, List.length_cons,
        List.tail_cons]
      rcases rest with _ | ⟨r2, rest⟩ <;> simp
  · simp [convert_yarmtl_to_todoist]

/-! # Claim C7: completed unmapped tasks in the diff phase -/

/-- C7: a completed local task with no metadata mapping is skipped by the
diff when it has no deadline or its deadline is more than 30 days before
today, and otherwise produces exactly one create-remote action; in
particular a completed, deadline-free, unmapped task contributes zero
actions to `detect_changes`. -/
theorem c7_completed_unmapped_diff (meta : SyncMetadata)
    (todoistIds : List Str) (today : NaiveDate) (t : Task)
    (hc : t.completed = true) (hm : meta.get_todoist_id t.id = none) :
    (localDiff meta todoistIds today t =
      match t.deadline with
      | none => []
      | some d =>
        if dayNumber d + 30 < dayNumber today then []
        else [SyncAction.CreateInTodoist t]) ∧
    (t.deadline = none → detect_changes meta [t] [] today = []) := by
  constructor
  · rw [localDiff, hm]
    simp only [hc, if_true]
    rcases hd : t.deadline with _ | d
    · simp
    · by_cases h30 : dayNumber d + 30 < dayNumber today <;> simp [h30]
  · intro hd
    simp [detect_changes, localDiff, hm, hc, hd]

/-- Witness for C7: a concrete completed unmapped task with no deadline
yields zero actions; with a deadline 31 days old it is skipped; with a
deadline 30 days old it is pushed. -/
theorem c7_completed_unmapped_diff_witness :
    (detect_changes ⟨0, []⟩
      [{ id := "aa".toList, text := "old".toList, deadline := none,
         tags := [], reminder := none, completed := true, notes := none,
         importance := none }] [] ⟨2026, 3, 15⟩ = []) ∧
    (localDiff ⟨0, []⟩ [] ⟨2026, 3, 15⟩
      { id := "aa".toList, text := "old".toList,
        deadline := some ⟨2026, 2, 12⟩, tags := [], reminder := none,
        completed := true, notes := none, importance := none } = []) ∧
    (localDiff ⟨0, []⟩ [] ⟨2026, 3, 15⟩
      { id := "aa".toList, text := "old".toList,
        deadline := some ⟨2026, 2, 13⟩, tags := [], reminder := none,
        completed := true, notes := none, importance := none } =
      [SyncAction.CreateInTodoist
        { id := "aa".toList, text := "old".toList,
          deadline := some ⟨2026, 2, 13⟩, tags := [], reminder := none,
          completed := true, notes := none, importance := none }]) := by
  refine ⟨(c7_completed_unmapped_diff ⟨0, []⟩ [] ⟨2026, 3, 15⟩ _ rfl rfl).2 rfl,
    ?_, ?_⟩
  · rw [(c7_completed_unmapped_diff ⟨0, []⟩ [] ⟨2026, 3, 15⟩ _ rfl rfl).1]
    decide
  · rw [(c7_completed_unmapped_diff ⟨0, []⟩ [] ⟨2026, 3, 15⟩ _ rfl rfl).1]
    decide

/-! # Claim C3: error handling of the apply loop -/

/-- C3 counterexample: an action that fails with a rate-limit error does
not stop the pass — the following action is still attempted and applied
(the report counts its success and both actions were attempted), contrary
to the claim that no further remote calls are issued. -/
theorem c3_counterexample :
    (applyLoop SyncReport.new
      [Except.error (TodoistError.RateLimitExceeded 60),
       Except.ok ActionType.CreatedInTodoist]).1.created_in_todoist = 1 ∧
    (applyLoop SyncReport.new
      [Except.error (TodoistError.RateLimitExceeded 60),
       Except.ok ActionType.CreatedInTodoist]).2 = 2 ∧
    (applyLoop SyncReport.new
      [Except.error (TodoistError.AuthError "Invalid API token".toList),
       Except.ok ActionType.DeletedFromTodoist]).1.deleted_in_todoist = 1 := by
  decide

/-- C3 amended: a failed action of any kind — authentication, rate-limit,
not-found or generic alike — is skipped without affecting the report, and
every remaining action of the pass is still attempted; the loop always
attempts all actions. -/
theorem c3_failures_skipped_pass_continues (err : TodoistError)
    (rest : List (Except TodoistError ActionType)) (rep : SyncReport) :
    applyLoop rep (Except.error err :: rest) =
      ((applyLoop rep rest).1, (applyLoop rep rest).2 + 1) ∧
    ∀ outcomes : List (Except TodoistError ActionType),
      (applyLoop rep outcomes).2 = outcomes.length := by
  constructor
  · rfl
  · intro outcomes
    induction outcomes generalizing rep with
    | nil => rfl
    | cons o rest ih =>
      rcases o with e | k
      · simpa [applyLoop] using ih rep
      · simpa [applyLoop] using ih (bumpReport rep k)

/-! # Claim C5: metadata removal on delete actions -/

theorem lookup_filter_ne (yid : Str) (l : List (Str × TaskSyncInfo)) :
    (l.filter (fun p => p.1 ≠ yid)).lookup yid = none := by
  induction l with
  | nil => rfl
  | cons p l ih =>
    obtain ⟨k, v⟩ := p
    rw [List.filter_cons]
    by_cases h : k = yid
    · have hd : (decide ((k, v).1 ≠ yid)) = false := by simp [h]
      rw [hd, if_neg (by simp)]
      exact ih
    · have hd : (decide ((k, v).1 ≠ yid)) = true := by simp [h]
      rw [hd, if_pos rfl, List.lookup_cons]
      have hne : (yid == k) = false := by
        simp [Ne.symm h]
      rw [hne]
      exact ih

/-- C5 counterexample: a successfully applied `DeleteFromTodoist` leaves
the metadata entry that still refers to the deleted remote task — the
claim that both delete directions remove the mapping is false. -/
theorem c5_counterexample :
    ((apply_action
        { local_tasks := []
          metadata := ⟨0, [("aa".toList, ⟨"r1".toList, 0, []⟩)]⟩
          remote := [{ id := some "r1".toList, content := []
                       description := none, due := none, due_date := none
                       labels := none, priority := none, is_completed := none
                       project_id := none }]
          projects := [], supply := fun _ => [], supplyIdx := 0, now := 0 }
        (SyncAction.DeleteFromTodoist "r1".toList)).map
      (fun s' => s'.metadata.get_yarmtl_id "r1".toList)) =
      some (some "aa".toList) := by
  decide

/-- C5 amended: applying `DeleteFromYarmtl` removes the corresponding
metadata entry, but a successfully applied `DeleteFromTodoist` leaves the
whole metadata store — including any mapping to the deleted remote task —
unchanged. -/
theorem c5_delete_metadata (s : SyncState) (yid rid : Str) :
    (∀ s', apply_action s (SyncAction.DeleteFromYarmtl yid) = some s' →
      s'.metadata.get_todoist_id yid = none ∧
      s'.metadata = s.metadata.remove_mapping yid) ∧
    (∀ s', apply_action s (SyncAction.DeleteFromTodoist rid) = some s' →
      s'.metadata = s.metadata) := by
  constructor
  · intro s' hs
    simp only [apply_action, Option.some.injEq] at hs
    subst hs
    refine ⟨?_, rfl⟩
    simp only [SyncMetadata.get_todoist_id, SyncMetadata.remove_mapping]
    rw [lookup_filter_ne]
    rfl
  · intro s' hs
    simp only [apply_action] at hs
    rcases hdel : remoteDelete rid s.remote with _ | remote'
    · rw [hdel] at hs; simp at hs
    · rw [hdel] at hs
      have hs' : { s with remote := remote' } = s' := by
        simpa using hs
      rw [← hs']

/-! # Generic single-match lemmas -/

theorem findFirst_single {tryM : Char → Str → Option Nat} {A mid B : Str}
    {c0 : Char} {n : Nat} (hA : ∀ c ∈ A, ∀ cs, tryM c cs = none)
    (hm : tryM c0 (mid ++ B) = some n) (hmid : mid.length = n) :
    findFirst tryM (A ++ c0 :: (mid ++ B)) = some (c0 :: mid) := by
  rw [findFirst_append_none hA, findFirst_cons_of_some hm,
    List.take_left' hmid]

theorem replaceAll_single {tryM : Char → Str → Option Nat} {A mid B : Str}
    {c0 : Char} {n : Nat} (hA : ∀ c ∈ A, ∀ cs, tryM c cs = none)
    (hB : ∀ c ∈ B, ∀ cs, tryM c cs = none)
    (hm : tryM c0 (mid ++ B) = some n) (hmid : mid.length = n) :
    replaceAll tryM (A ++ c0 :: (mid ++ B)) = A ++ B := by
  have hstep : replaceAll tryM (c0 :: (mid ++ B)) =
      replaceAll tryM ((mid ++ B).drop n) := by
    rw [replaceAll, hm]
  rw [replaceAll_append_none hA, hstep, List.drop_left' hmid,
    replaceAll_id_of_none hB]

/-! # Matcher computations at their markers -/

theorem formatDate_len {dt : NaiveDate} : (formatDate dt).length = 10 := by
  simp [formatDate, pad4, pad2]

theorem formatDate_chars {dt : NaiveDate} :
    ∀ c ∈ formatDate dt, dateOkCh c = true := by
  intro c hc
  simp only [formatDate, pad4, pad2, List.cons_append, List.nil_append,
    List.mem_cons, List.not_mem_nil, or_false] at hc
  rcases hc with rfl | rfl | rfl | rfl | rfl | rfl | rfl | rfl | rfl | rfl <;>
    simp [dateOkCh, isDigitCh_digitChar (Nat.mod_lt _ (by norm_num))]

theorem digitChar_not_marker {k : Nat} (h : k < 10) :
    Nat.digitChar k ≠ '!' ∧ Nat.digitChar k ≠ '@' ∧ Nat.digitChar k ≠ '#' ∧
    Nat.digitChar k ≠ '$' ∧ Nat.digitChar k ≠ '/' ∧ Nat.digitChar k ≠ '[' := by
  interval_cases k <;> exact ⟨by decide, by decide, by decide, by decide,
    by decide, by decide⟩

theorem deadlineTry_at {dt : NaiveDate} {R : Str} :
    deadlineTry '!' (formatDate dt ++ R) = some 10 := by
  simp [deadlineTry, dateShape_append formatDate_len
    (by simpa using @dateShape_format dt [])]

theorem reminderTry_at {dt : NaiveDate} {R : Str} :
    reminderTry '@' (formatDate dt ++ R) = some 10 := by
  simp [reminderTry, dateShape_append formatDate_len
    (by simpa using @dateShape_format dt [])]

theorem idTry_at {idStr R : Str} (h1 : idStr ≠ [])
    (h2 : idStr.all (fun c => isIdCh c) = true) :
    idTry '[' ('i' :: 'd' :: ':' :: (idStr ++ ']' :: R)) =
      some (3 + idStr.length + 1) := by
  have hrun : (idStr ++ ']' :: R).takeWhile (fun c => isIdCh c) = idStr :=
    takeWhile_append_stop (fun a ha => (List.all_eq_true.mp h2) a ha)
      (by decide)
  have hlen : idStr.length ≠ 0 := by simpa [List.length_eq_zero] using h1
  simp only [idTry, if_pos rfl]
  rw [hrun]
  simp [hlen, List.drop_left]

theorem importanceTry_at {i : Nat} {R : Str} (h1 : 1 ≤ i) (h5 : i ≤ 5) :
    importanceTry '$' (Nat.digitChar i :: R) = some 1 := by
  simp [importanceTry, digitChar_one_to_five h1 h5]

theorem notesCharOK_implies_class {c : Char} (h : notesCharOK c = true) :
    (!(c = '!' || c = '@' || c = '#' || c = '$')) = true := by
  simp only [notesCharOK, Bool.not_eq_eq_eq_not, Bool.not_true,
    Bool.or_eq_false_iff, decide_eq_false_iff_not] at h ⊢
  tauto

theorem notesTry_at_end {n : Str} (h1 : n ≠ [])
    (hn : n.all notesCharOK = true) :
    notesTry '/' ('/' :: n) = some (1 + n.length) := by
  have hrun : n.takeWhile
      (fun c => !(c = '!' || c = '@' || c = '#' || c = '$')) = n :=
    takeWhile_all (fun a ha =>
      notesCharOK_implies_class ((List.all_eq_true.mp hn) a ha))
  have hlen : n.length ≠ 0 := by simpa [List.length_eq_zero] using h1
  simp only [notesTry, if_pos rfl]
  rw [hrun]
  simp [hlen]

theorem notesTry_at_imp {n T : Str} (hn : n.all notesCharOK = true) :
    notesTry '/' ('/' :: (n ++ ' ' :: '$' :: T)) = some (1 + (n.length + 1)) := by
  have hrun : (n ++ ' ' :: '$' :: T).takeWhile
      (fun c => !(c = '!' || c = '@' || c = '#' || c = '$')) = n ++ [' '] := by
    rw [show (n ++ ' ' :: '$' :: T) = ((n ++ [' ']) ++ '$' :: T) by simp]
    refine takeWhile_append_stop ?_ (by decide)
    intro a ha
    rcases List.mem_append.mp ha with h | h
    · exact notesCharOK_implies_class ((List.all_eq_true.mp hn) a h)
    · simp only [List.mem_singleton] at h
      subst h; decide
  simp only [notesTry, if_pos rfl]
  rw [hrun]
  simp

theorem tagTry_at {tg X : Str} (h1 : tg ≠ [])
    (h2 : tg.all (fun c => isTagCh c) = true)
    (hX : ∀ c, X.head? = some c → isTagCh c = false) :
    tagTry '#' (tg ++ X) = some tg.length := by
  have hrun : (tg ++ X).takeWhile (fun c => isTagCh c) = tg := by
    rcases X with _ | ⟨x, xs⟩
    · rw [List.append_nil]
      exact takeWhile_all (fun a ha => (List.all_eq_true.mp h2) a ha)
    · exact takeWhile_append_stop (fun a ha => (List.all_eq_true.mp h2) a ha)
        (hX x rfl)
  have hlen : tg.length ≠ 0 := by simpa [List.length_eq_zero] using h1
  simp only [tagTry, if_pos rfl]
  rw [hrun]
  simp [hlen]

/-! # Character facts for the markdown segments -/

theorem textCharOK_not {c : Char} (h : textCharOK c = true) :
    c ≠ '!' ∧ c ≠ '@' ∧ c ≠ '#' ∧ c ≠ '$' ∧ c ≠ '[' ∧ c ≠ '/' := by
  refine ⟨?_, ?_, ?_, ?_, ?_, ?_⟩ <;> (intro hc; subst hc; revert h; decide)

theorem isTagCh_not {c : Char} (h : isTagCh c = true) :
    c ≠ '!' ∧ c ≠ '@' ∧ c ≠ '#' ∧ c ≠ '$' ∧ c ≠ '[' ∧ c ≠ '/' ∧
    isWsCh c = false := by
  refine ⟨?_, ?_, ?_, ?_, ?_, ?_, ?_⟩
  case _ => intro hc; subst hc; revert h; decide
  case _ => intro hc; subst hc; revert h; decide
  case _ => intro hc; subst hc; revert h; decide
  case _ => intro hc; subst hc; revert h; decide
  case _ => intro hc; subst hc; revert h; decide
  case _ => intro hc; subst hc; revert h; decide
  case _ =>
    exact not_ws_of_class h (by decide) (by decide) (by decide) (by decide)
      (by decide) (by decide)

theorem notesCharOK_not {c : Char} (h : notesCharOK c = true) :
    c ≠ '!' ∧ c ≠ '@' ∧ c ≠ '#' ∧ c ≠ '$' := by
  refine ⟨?_, ?_, ?_, ?_⟩ <;> (intro hc; subst hc; revert h; decide)

/-! # Small evaluation lemmas used by the round trip -/

theorem removeNatural_no_marker {mk s1 s2 : Char} {s : Str}
    (h : ∀ c ∈ s, c ≠ mk) : removeNatural mk s1 s2 s = s := by
  rw [removeNatural, findCharIdx_none (fun c hc => by
    simpa using h c hc)]

theorem extractNaturalDate_no_marker {env : ParseEnv} {mk s1 s2 : Char}
    {s : Str} (h : ∀ c ∈ s, c ≠ mk) :
    extractNaturalDate env mk s1 s2 s = none := by
  rw [extractNaturalDate, naturalSegment, findCharIdx_none (fun c hc => by
    simpa using h c hc)]

theorem dropLeadingIdMarks_of_ne {c : Char} {s : Str} (h : c ≠ '[') :
    dropLeadingIdMarks (c :: s) = c :: s := by
  rw [dropLeadingIdMarks.eq_def]
  split
  · rename_i rest heq
    injection heq with h1 _
    exact absurd h1 h
  · rfl

theorem dropTrailingBrackets_concat {s : Str} (h : ∀ c ∈ s, c ≠ ']') :
    dropTrailingBrackets (s ++ [']']) = s := by
  unfold dropTrailingBrackets
  rw [List.reverse_append,
    show ([']'] : Str).reverse ++ s.reverse = ']' :: s.reverse by simp]
  have hdw : List.dropWhile (fun c => c = ']') (']' :: s.reverse) =
      List.dropWhile (fun c => c = ']') s.reverse := by
    simp [List.dropWhile_cons]
  rw [hdw]
  rcases hrev : s.reverse with _ | ⟨x, xs⟩
  · have : s = [] := by simpa using congrArg List.reverse hrev
    simp [this]
  · have hx : x ∈ s := by
      have : x ∈ s.reverse := by rw [hrev]; simp
      exact List.mem_reverse.mp this
    rw [dropWhile_of_head_false (by simpa using h x hx), ← hrev,
      List.reverse_reverse]

theorem dropLeadingSlashPairsStep {s : Str} :
    dropLeadingSlashPairs ('/' :: '/' :: s) = dropLeadingSlashPairs s := rfl

theorem dropLeadingSlashPairs_no {s : Str}
    (h : strStarts s ('/' :: '/' :: []) = false) :
    dropLeadingSlashPairs s = s := by
  rw [dropLeadingSlashPairs.eq_def]
  split
  · simp [strStarts] at h
  · rfl

theorem strStarts_slash_pad {n : Str} (h1 : n ≠ [])
    (h : strStarts n ('/' :: '/' :: []) = false) :
    strStarts (n ++ [' ']) ('/' :: '/' :: []) = false := by
  rcases n with _ | ⟨c1, n⟩
  · exact absurd rfl h1
  rcases n with _ | ⟨c2, n⟩
  · simp [strStarts]
  · simpa [strStarts] using h

/-! # Iteration lemmas for the tag segment -/

theorem findIter_cons_none {tryM : Char → Str → Option Nat} {c : Char}
    {cs : Str} (h : tryM c cs = none) :
    findIter tryM (c :: cs) = findIter tryM cs := by
  rw [findIter, h]

theorem findIter_cons_some {tryM : Char → Str → Option Nat} {c : Char}
    {cs : Str} {n : Nat} (h : tryM c cs = some n) :
    findIter tryM (c :: cs) = (c :: cs.take n) :: findIter tryM (cs.drop n) := by
  rw [findIter, h]

theorem replaceAll_cons_none {tryM : Char → Str → Option Nat} {c : Char}
    {cs : Str} (h : tryM c cs = none) :
    replaceAll tryM (c :: cs) = c :: replaceAll tryM cs := by
  rw [replaceAll, h]

theorem replaceAll_cons_some {tryM : Char → Str → Option Nat} {c : Char}
    {cs : Str} {n : Nat} (h : tryM c cs = some n) :
    replaceAll tryM (c :: cs) = replaceAll tryM (cs.drop n) := by
  rw [replaceAll, h]

theorem mdTagsSeg_nil : mdTagsSeg [] = [] := rfl

theorem mdTagsSeg_cons {tg : Str} {rest : List Str} :
    mdTagsSeg (tg :: rest) = ' ' :: '#' :: (tg ++ mdTagsSeg rest) := by
  simp [mdTagsSeg]

theorem findIter_tagsSeg {tags : List Str} {R : Str}
    (htags : ∀ tg ∈ tags, tg ≠ [] ∧ tg.all (fun c => isTagCh c) = true)
    (hR : ∀ c ∈ R, ∀ cs, tagTry c cs = none)
    (hRh : ∀ c, R.head? = some c → isTagCh c = false) :
    findIter tagTry (mdTagsSeg tags ++ R) = tags.map (fun tg => '#' :: tg) := by
  induction tags with
  | nil => simpa [mdTagsSeg_nil] using findIter_nil_of_none hR
  | cons tg rest ih =>
    obtain ⟨h1, h2⟩ := htags tg (by simp)
    have hX : ∀ c, (mdTagsSeg rest ++ R).head? = some c →
        isTagCh c = false := by
      rcases rest with _ | ⟨tg2, rest2⟩
      · simpa [mdTagsSeg_nil] using hRh
      · intro c hc
        rw [mdTagsSeg_cons, List.cons_append, List.head?_cons] at hc
        cases hc
        decide
    have hstep : mdTagsSeg (tg :: rest) ++ R =
        ' ' :: '#' :: (tg ++ (mdTagsSeg rest ++ R)) := by
      rw [mdTagsSeg_cons]
      simp [List.append_assoc]
    rw [hstep, findIter_cons_none (tagTry_ne (by decide)),
      findIter_cons_some (tagTry_at h1 h2 hX), List.take_left,
      List.drop_left, ih (fun tg htg => htags tg (by simp [htg])), List.map_cons]

theorem replaceAll_tagsSeg {tags : List Str} {R : Str}
    (htags : ∀ tg ∈ tags, tg ≠ [] ∧ tg.all (fun c => isTagCh c) = true)
    (hR : ∀ c ∈ R, ∀ cs, tagTry c cs = none)
    (hRh : ∀ c, R.head? = some c → isTagCh c = false) :
    replaceAll tagTry (mdTagsSeg tags ++ R) =
      List.replicate tags.length ' ' ++ R := by
  induction tags with
  | nil => simpa [mdTagsSeg_nil] using replaceAll_id_of_none hR
  | cons tg rest ih =>
    obtain ⟨h1, h2⟩ := htags tg (by simp)
    have hX : ∀ c, (mdTagsSeg rest ++ R).head? = some c →
        isTagCh c = false := by
      rcases rest with _ | ⟨tg2, rest2⟩
      · simpa [mdTagsSeg_nil] using hRh
      · intro c hc
        rw [mdTagsSeg_cons, List.cons_append, List.head?_cons] at hc
        cases hc
        decide
    have hstep : mdTagsSeg (tg :: rest) ++ R =
        ' ' :: '#' :: (tg ++ (mdTagsSeg rest ++ R)) := by
      rw [mdTagsSeg_cons]
      simp [List.append_assoc]
    rw [hstep, replaceAll_cons_none (tagTry_ne (by decide)),
      replaceAll_cons_some (tagTry_at h1 h2 hX), List.drop_left,
      ih (fun tg htg => htags tg (by simp [htg]))]
    simp [List.replicate_succ]

theorem tags_strip {tags : List Str}
    (htags : ∀ tg ∈ tags, tg ≠ [] ∧ tg.all (fun c => isTagCh c) = true) :
    (tags.map (fun tg => '#' :: tg)).map
      (fun m => m.dropWhile (fun c => c = '#')) = tags := by
  induction tags with
  | nil => rfl
  | cons tg rest ih =>
    obtain ⟨h1, h2⟩ := htags tg (by simp)
    rw [List.map_cons, List.map_cons,
      ih (fun tg htg => htags tg (by simp [htg]))]
    congr 1
    rw [List.dropWhile_cons]
    simp only [decide_True, if_true]
    rcases tg with _ | ⟨c, rest'⟩
    · exact absurd rfl h1
    · have hc : isTagCh c = true := (List.all_eq_true.mp h2) c (by simp)
      exact dropWhile_of_head_false (by
        simpa using (isTagCh_not hc).2.2.1)

/-! # Membership lemmas for the markdown segments -/

theorem mem_mdDateSeg {mk : Char} {o : Option NaiveDate} :
    ∀ c ∈ mdDateSeg mk o, c = ' ' ∨ c = mk ∨ dateOkCh c = true := by
  rcases o with _ | d
  · simp [mdDateSeg]
  · intro c hc
    simp only [mdDateSeg, List.mem_cons] at hc
    rcases hc with rfl | rfl | hc
    · exact Or.inl rfl
    · exact Or.inr (Or.inl rfl)
    · exact Or.inr (Or.inr (formatDate_chars c hc))

theorem mem_mdTagsSeg {tags : List Str}
    (htags : ∀ tg ∈ tags, tg ≠ [] ∧ tg.all (fun c => isTagCh c) = true) :
    ∀ c ∈ mdTagsSeg tags, c = ' ' ∨ c = '#' ∨ isTagCh c = true := by
  intro c hc
  simp only [mdTagsSeg, List.mem_flatten, List.mem_map] at hc
  obtain ⟨l, ⟨tg, htg, rfl⟩, hcl⟩ := hc
  simp only [List.mem_cons] at hcl
  rcases hcl with rfl | rfl | hcl
  · exact Or.inl rfl
  · exact Or.inr (Or.inl rfl)
  · exact Or.inr (Or.inr ((List.all_eq_true.mp (htags tg htg).2) c hcl))

theorem mem_mdNotesSeg {o : Option Str}
    (ho : ∀ n, o = some n → n.all notesCharOK = true) :
    ∀ c ∈ mdNotesSeg o, c = ' ' ∨ c = '/' ∨ notesCharOK c = true := by
  rcases o with _ | n
  · simp [mdNotesSeg]
  · intro c hc
    simp only [mdNotesSeg, List.mem_cons] at hc
    rcases hc with rfl | rfl | rfl | hc
    · exact Or.inl rfl
    · exact Or.inr (Or.inl rfl)
    · exact Or.inr (Or.inl rfl)
    · exact Or.inr (Or.inr ((List.all_eq_true.mp (ho n rfl)) c hc))

theorem mem_mdImpSeg {o : Option Nat}
    (ho : ∀ i, o = some i → 1 ≤ i ∧ i ≤ 5) :
    ∀ c ∈ mdImpSeg o, c = ' ' ∨ c = '$' ∨ isDigitCh c = true := by
  rcases o with _ | i
  · simp [mdImpSeg]
  · obtain ⟨h1, h5⟩ := ho i rfl
    rw [mdImpSeg, toDigits_single h1 h5]
    intro c hc
    simp only [List.mem_cons, List.not_mem_nil, or_false] at hc
    rcases hc with rfl | rfl | rfl
    · exact Or.inl rfl
    · exact Or.inr (Or.inl rfl)
    · exact Or.inr (Or.inr (isDigitCh_digitChar (by omega)))

theorem mem_idPart {idD : Str} (hid : idD.all (fun c => isIdCh c) = true) :
    ∀ c ∈ (" [id:".toList ++ (idD ++ [']'])),
      c = ' ' ∨ c = '[' ∨ c = 'i' ∨ c = 'd' ∨ c = ':' ∨ isIdCh c = true ∨
      c = ']' := by
  intro c hc
  rw [show (" [id:".toList : Str) = [' ', '[', 'i', 'd', ':'] from rfl] at hc
  simp only [List.mem_append, List.mem_cons, List.not_mem_nil, or_false,
    List.mem_singleton] at hc
  rcases hc with (rfl | rfl | rfl | rfl | rfl) | hc | rfl
  · exact Or.inl rfl
  · exact Or.inr (Or.inl rfl)
  · exact Or.inr (Or.inr (Or.inl rfl))
  · exact Or.inr (Or.inr (Or.inr (Or.inl rfl)))
  · exact Or.inr (Or.inr (Or.inr (Or.inr (Or.inl rfl))))
  · exact Or.inr (Or.inr (Or.inr (Or.inr (Or.inr (Or.inl
      ((List.all_eq_true.mp hid) c hc))))))
  · exact Or.inr (Or.inr (Or.inr (Or.inr (Or.inr (Or.inr rfl)))))

/-- Witness for C5's amended statement at a concrete store: the
DeleteFromYarmtl branch drops the entry, the DeleteFromTodoist branch
keeps the store. -/
theorem c5_delete_metadata_witness :
    (∃ s', apply_action
        { local_tasks := []
          metadata := ⟨0, [("bb".toList, ⟨"r2".toList, 0, []⟩)]⟩
          remote := [{ id := some "r2".toList, content := []
                       description := none, due := none, due_date := none
                       labels := none, priority := none, is_completed := none
                       project_id := none }]
          projects := [], supply := fun _ => [], supplyIdx := 0, now := 0 }
        (SyncAction.DeleteFromYarmtl "bb".toList) = some s' ∧
      s'.metadata.get_todoist_id "bb".toList = none) := by
  refine ⟨_, rfl, ?_⟩
  exact ((c5_delete_metadata _ "bb".toList "r2".toList).1 _ rfl).1

/-! # The markdown line: shape, trim stability, checkbox stripping -/

theorem some_or_eq {α : Type} (a : α) (o : Option α) : (some a).or o = some a :=
  rfl

theorem strStarts_nil (s : Str) : strStarts s [] = true := by
  cases s <;> rfl

theorem dropStart_nil (s : Str) : dropStart s [] = some s := by
  cases s <;> rfl

theorem strStarts_append_self (p s : Str) : strStarts (p ++ s) p = true := by
  induction p with
  | nil => exact strStarts_nil s
  | cons c ps ih => simp [strStarts, ih]

theorem dropStart_append_self (p s : Str) : dropStart (p ++ s) p = some s := by
  induction p with
  | nil => exact dropStart_nil s
  | cons c ps ih => simp [dropStart, ih]

theorem mdDateSeg_none {mk : Char} : mdDateSeg mk none = [] := rfl

theorem mdNotesSeg_none : mdNotesSeg none = [] := rfl

theorem mdImpSeg_none : mdImpSeg none = [] := rfl

theorem mdTagsSeg_getLast {tags : List Str}
    (htags : ∀ tg ∈ tags, tg ≠ [] ∧ tg.all (fun c => isTagCh c) = true) :
    tags = [] ∨
      ∃ x, (mdTagsSeg tags).getLast? = some x ∧ isWsCh x = false := by
  induction tags with
  | nil => exact Or.inl rfl
  | cons tg rest ih =>
    right
    obtain ⟨h1, h2⟩ := htags tg (by simp)
    rw [mdTagsSeg_cons]
    have hsh : (' ' :: '#' :: (tg ++ mdTagsSeg rest) : Str) =
        [' ', '#'] ++ (tg ++ mdTagsSeg rest) := rfl
    rw [hsh, List.getLast?_append, List.getLast?_append]
    rcases ih (fun tg htg => htags tg (by simp [htg])) with hnil | ⟨x, hx, hxw⟩
    · rw [hnil, mdTagsSeg_nil, List.getLast?_nil, Option.none_or]
      rcases hgl : tg.getLast? with _ | x
      · exact absurd (List.getLast?_eq_none_iff.mp hgl) h1
      · rw [some_or_eq]
        have hxm : x ∈ tg := List.mem_of_mem_getLast? hgl
        exact ⟨x, rfl, (isTagCh_not ((List.all_eq_true.mp h2) x hxm)).2.2.2.2.2.2⟩
    · rw [hx, some_or_eq, some_or_eq]
      exact ⟨x, rfl, hxw⟩

theorem taskLineText_getLast (t : Task) (hW : WellFormedTask t) :
    ∃ x, (taskLineText t).getLast? = some x ∧ isWsCh x = false := by
  obtain ⟨-, -, htags, -, -, hnt, himp⟩ := hW
  rw [taskLineText]
  simp only [List.getLast?_append, List.getLast?_singleton, some_or_eq]
  rcases himpc : t.importance with _ | i
  · simp only [mdImpSeg_none, List.getLast?_nil, Option.none_or]
    rcases hntc : t.notes with _ | n
    · simp only [mdNotesSeg_none, List.getLast?_nil, Option.none_or]
      rcases hrmc : t.reminder with _ | r
      · simp only [mdDateSeg_none, List.getLast?_nil, Option.none_or]
        rcases htagsc : t.tags with _ | ⟨tg0, trest⟩
        · simp only [mdTagsSeg_nil, List.getLast?_nil, Option.none_or]
          rcases hdlc : t.deadline with _ | d
          · simp only [mdDateSeg_none, List.getLast?_nil, Option.none_or]
            exact ⟨']', rfl, by decide⟩
          · have he : (mdDateSeg '!' (some d)).getLast? =
                some (Nat.digitChar (d.d % 10)) := rfl
            rw [he, some_or_eq]
            exact ⟨_, rfl, not_ws_of_class (isDigitCh_digitChar
              (Nat.mod_lt _ (by norm_num))) (by decide) (by decide)
              (by decide) (by decide) (by decide) (by decide)⟩
        · rcases @mdTagsSeg_getLast (tg0 :: trest)
              (by rw [← htagsc]; exact htags) with hnil | ⟨x, hx, hxw⟩
          · exact absurd hnil (by simp)
          · rw [hx, some_or_eq]
            exact ⟨x, rfl, hxw⟩
      · have he : (mdDateSeg '@' (some r)).getLast? =
            some (Nat.digitChar (r.d % 10)) := rfl
        rw [he, some_or_eq]
        exact ⟨_, rfl, not_ws_of_class (isDigitCh_digitChar
          (Nat.mod_lt _ (by norm_num))) (by decide) (by decide)
          (by decide) (by decide) (by decide) (by decide)⟩
    · obtain ⟨hn1, hnT, -, -⟩ := hnt n hntc
      have hsh : mdNotesSeg (some n) = [' ', '/', '/'] ++ n := rfl
      rw [hsh, List.getLast?_append]
      rcases hgl : n.getLast? with _ | x
      · exact absurd (List.getLast?_eq_none_iff.mp hgl) hn1
      · rw [some_or_eq, some_or_eq]
        exact ⟨x, rfl, hnT.2 x hgl⟩
  · obtain ⟨h1, h5⟩ := himp i himpc
    have he : (mdImpSeg (some i)).getLast? = some (Nat.digitChar i) := by
      rw [mdImpSeg, toDigits_single h1 h5]
      rfl
    rw [he, some_or_eq]
    exact ⟨_, rfl, not_ws_of_class (isDigitCh_digitChar (by omega))
      (by decide) (by decide) (by decide) (by decide) (by decide)
      (by decide)⟩

theorem toMarkdown_decomp (t : Task) :
    t.toMarkdown = '-' :: ' ' ::
      ((if t.completed then "[x]".toList else "[ ]".toList) ++
        ' ' :: taskLineText t) := by
  rcases hdl : t.deadline with _ | d <;>
  rcases hrm : t.reminder with _ | r <;>
  rcases hnt : t.notes with _ | n <;>
  rcases himp : t.importance with _ | i <;>
    simp [Task.toMarkdown, taskLineText, mdDateSeg, mdTagsSeg, mdNotesSeg,
      mdImpSeg, hdl, hrm, hnt, himp, List.append_assoc]

theorem toMarkdown_trimStable (t : Task) (hW : WellFormedTask t) :
    rustTrim t.toMarkdown = t.toMarkdown := by
  apply rustTrim_of_trimStable
  constructor
  · intro h hh
    rw [toMarkdown_decomp, List.head?_cons] at hh
    cases hh
    decide
  · intro h hh
    rw [toMarkdown_decomp] at hh
    obtain ⟨x, hx, hxw⟩ := taskLineText_getLast t hW
    have hsh : ('-' :: ' ' ::
        ((if t.completed then "[x]".toList else "[ ]".toList) ++
          ' ' :: taskLineText t) : Str) =
      ['-', ' '] ++ ((if t.completed then "[x]".toList else "[ ]".toList) ++
        ([' '] ++ taskLineText t)) := by simp
    rw [hsh, List.getLast?_append, List.getLast?_append,
      List.getLast?_append, hx, some_or_eq, some_or_eq, some_or_eq] at hh
    cases hh
    exact hxw

theorem loadTaskLine_toMarkdown (env : ParseEnv) (t : Task)
    (hW : WellFormedTask t) :
    loadTaskLine env t.toMarkdown =
      some { Task.parse env (taskLineText t) with completed := t.completed } := by
  have htrim := toMarkdown_trimStable t hW
  rcases hc : t.completed
  · have hline : t.toMarkdown = "- [ ] ".toList ++ taskLineText t := by
      rw [toMarkdown_decomp, hc]; rfl
    have hs1 : strStarts t.toMarkdown "- [ ]".toList = true := by
      rw [hline,
        show ("- [ ] ".toList ++ taskLineText t : Str) =
          "- [ ]".toList ++ (' ' :: taskLineText t) from rfl]
      exact strStarts_append_self _ _
    have hs2 : strStarts t.toMarkdown "- [x]".toList = false := by
      rw [hline]; rfl
    have hd1 : dropStart t.toMarkdown "- [ ] ".toList =
        some (taskLineText t) := by
      rw [hline]; exact dropStart_append_self _ _
    simp only [loadTaskLine, htrim, hs1, hs2, hd1, Bool.true_or, if_true]
    rfl
  · have hline : t.toMarkdown = "- [x] ".toList ++ taskLineText t := by
      rw [toMarkdown_decomp, hc]; rfl
    have hs1 : strStarts t.toMarkdown "- [ ]".toList = false := by
      rw [hline]; rfl
    have hs2 : strStarts t.toMarkdown "- [x]".toList = true := by
      rw [hline,
        show ("- [x] ".toList ++ taskLineText t : Str) =
          "- [x]".toList ++ (' ' :: taskLineText t) from rfl]
      exact strStarts_append_self _ _
    have hd0 : dropStart t.toMarkdown "- [ ] ".toList = none := by
      rw [hline]; rfl
    have hd2 : dropStart t.toMarkdown "- [x] ".toList =
        some (taskLineText t) := by
      rw [hline]; exact dropStart_append_self _ _
    simp only [loadTaskLine, htrim, hs1, hs2, hd0, hd2, Bool.false_or, if_true]
    rfl

/-! # Character taxonomy of the markdown segments -/

theorem mem_optJunk {α : Type} {o : Option α} : ∀ c ∈ optJunk o, c = ' ' := by
  rcases o with _ | a <;> simp [optJunk]

theorem isDigitCh_not {c : Char} (h : isDigitCh c = true) :
    c ≠ '!' ∧ c ≠ '@' ∧ c ≠ '#' ∧ c ≠ '$' ∧ c ≠ '/' ∧ c ≠ '[' ∧
    isWsCh c = false :=
  dateOkCh_not_marker (by simp [dateOkCh, h])

theorem mem_mdDateSeg_ne {mk : Char} {o : Option NaiveDate} :
    ∀ c ∈ mdDateSeg mk o, c = ' ' ∨ c = mk ∨
      (c ≠ '!' ∧ c ≠ '@' ∧ c ≠ '#' ∧ c ≠ '$' ∧ c ≠ '/' ∧ c ≠ '[' ∧
        isWsCh c = false) := by
  intro c hc
  rcases mem_mdDateSeg c hc with rfl | rfl | hcc
  · exact Or.inl rfl
  · exact Or.inr (Or.inl rfl)
  · exact Or.inr (Or.inr (dateOkCh_not_marker hcc))

theorem mem_mdTagsSeg_ne {tags : List Str}
    (htags : ∀ tg ∈ tags, tg ≠ [] ∧ tg.all (fun c => isTagCh c) = true) :
    ∀ c ∈ mdTagsSeg tags, c = ' ' ∨ c = '#' ∨
      (c ≠ '!' ∧ c ≠ '@' ∧ c ≠ '#' ∧ c ≠ '$' ∧ c ≠ '[' ∧ c ≠ '/' ∧
        isWsCh c = false) := by
  intro c hc
  rcases mem_mdTagsSeg htags c hc with rfl | rfl | hcc
  · exact Or.inl rfl
  · exact Or.inr (Or.inl rfl)
  · obtain ⟨h1, h2, h3, h4, h5, h6, h7⟩ := isTagCh_not hcc
    exact Or.inr (Or.inr ⟨h1, h2, h3, h4, h5, h6, h7⟩)

theorem mem_mdNotesSeg_ne {o : Option Str}
    (ho : ∀ n, o = some n → n.all notesCharOK = true) :
    ∀ c ∈ mdNotesSeg o, c = ' ' ∨ c = '/' ∨
      (c ≠ '!' ∧ c ≠ '@' ∧ c ≠ '#' ∧ c ≠ '$') := by
  intro c hc
  rcases mem_mdNotesSeg ho c hc with rfl | rfl | hcc
  · exact Or.inl rfl
  · exact Or.inr (Or.inl rfl)
  · exact Or.inr (Or.inr (notesCharOK_not hcc))

theorem mem_mdImpSeg_ne {o : Option Nat}
    (ho : ∀ i, o = some i → 1 ≤ i ∧ i ≤ 5) :
    ∀ c ∈ mdImpSeg o, c = ' ' ∨ c = '$' ∨
      (c ≠ '!' ∧ c ≠ '@' ∧ c ≠ '#' ∧ c ≠ '$' ∧ c ≠ '/' ∧ c ≠ '[' ∧
        isWsCh c = false) := by
  intro c hc
  rcases mem_mdImpSeg ho c hc with rfl | rfl | hcc
  · exact Or.inl rfl
  · exact Or.inr (Or.inl rfl)
  · exact Or.inr (Or.inr (isDigitCh_not hcc))

/-- Every character of the description-plus-id part of the markdown line is
distinct from the four field markers and from `/`. -/
theorem tip_chars {t : Task} (hW : WellFormedTask t) :
    ∀ c ∈ (t.text ++ (" [id:".toList ++ (t.id ++ [']']))),
      c ≠ '!' ∧ c ≠ '@' ∧ c ≠ '#' ∧ c ≠ '$' ∧ c ≠ '/' := by
  obtain ⟨⟨-, -, hid3⟩, ⟨-, htextOK⟩, -⟩ := hW
  intro c hc
  rcases List.mem_append.mp hc with h | h
  · obtain ⟨h1, h2, h3, h4, -, h6⟩ :=
      textCharOK_not ((List.all_eq_true.mp htextOK) c h)
    exact ⟨h1, h2, h3, h4, h6⟩
  · rcases mem_idPart hid3 c h with rfl | rfl | rfl | rfl | rfl | hcc | rfl
    · exact ⟨by decide, by decide, by decide, by decide, by decide⟩
    · exact ⟨by decide, by decide, by decide, by decide, by decide⟩
    · exact ⟨by decide, by decide, by decide, by decide, by decide⟩
    · exact ⟨by decide, by decide, by decide, by decide, by decide⟩
    · exact ⟨by decide, by decide, by decide, by decide, by decide⟩
    · obtain ⟨h1, h2, h3, h4, h5, -⟩ := isIdCh_not_marker hcc
      exact ⟨h1, h2, h3, h4, h5⟩
    · exact ⟨by decide, by decide, by decide, by decide, by decide⟩

/-! # Stage lemmas for the cleaned-text chain of `Task::parse` -/

theorem replaceAll_dateSeg_deadline {A B : Str} {o : Option NaiveDate}
    (hA : ∀ c ∈ A, c ≠ '!') (hB : ∀ c ∈ B, c ≠ '!') :
    replaceAll deadlineTry (A ++ (mdDateSeg '!' o ++ B)) =
      A ++ (optJunk o ++ B) := by
  rcases o with _ | d
  · rw [mdDateSeg_none, show optJunk (none : Option NaiveDate) = [] from rfl]
    exact replaceAll_id_of_none (fun c hc cs => deadlineTry_ne (by
      simp only [List.nil_append] at hc
      rcases List.mem_append.mp hc with h | h
      exacts [hA c h, hB c h]))
  · rw [show mdDateSeg '!' (some d) = [' '] ++ '!' :: formatDate d from rfl,
      show optJunk (some d) = [' '] from rfl]
    have hA' : ∀ c ∈ A ++ [' '], ∀ cs, deadlineTry c cs = none := by
      intro c hc cs
      rcases List.mem_append.mp hc with h | h
      · exact deadlineTry_ne (hA c h)
      · simp only [List.mem_singleton] at h
        subst h
        exact deadlineTry_ne (by decide)
    have hB' : ∀ c ∈ B, ∀ cs, deadlineTry c cs = none :=
      fun c hc cs => deadlineTry_ne (hB c hc)
    have hsh : A ++ (([' '] ++ '!' :: formatDate d) ++ B) =
        (A ++ [' ']) ++ '!' :: (formatDate d ++ B) := by
      simp [List.append_assoc]
    rw [hsh, replaceAll_single hA' hB' deadlineTry_at formatDate_len]
    simp [List.append_assoc]

theorem replaceAll_dateSeg_reminder {A B : Str} {o : Option NaiveDate}
    (hA : ∀ c ∈ A, c ≠ '@') (hB : ∀ c ∈ B, c ≠ '@') :
    replaceAll reminderTry (A ++ (mdDateSeg '@' o ++ B)) =
      A ++ (optJunk o ++ B) := by
  rcases o with _ | d
  · rw [mdDateSeg_none, show optJunk (none : Option NaiveDate) = [] from rfl]
    exact replaceAll_id_of_none (fun c hc cs => reminderTry_ne (by
      simp only [List.nil_append] at hc
      rcases List.mem_append.mp hc with h | h
      exacts [hA c h, hB c h]))
  · rw [show mdDateSeg '@' (some d) = [' '] ++ '@' :: formatDate d from rfl,
      show optJunk (some d) = [' '] from rfl]
    have hA' : ∀ c ∈ A ++ [' '], ∀ cs, reminderTry c cs = none := by
      intro c hc cs
      rcases List.mem_append.mp hc with h | h
      · exact reminderTry_ne (hA c h)
      · simp only [List.mem_singleton] at h
        subst h
        exact reminderTry_ne (by decide)
    have hB' : ∀ c ∈ B, ∀ cs, reminderTry c cs = none :=
      fun c hc cs => reminderTry_ne (hB c hc)
    have hsh : A ++ (([' '] ++ '@' :: formatDate d) ++ B) =
        (A ++ [' ']) ++ '@' :: (formatDate d ++ B) := by
      simp [List.append_assoc]
    rw [hsh, replaceAll_single hA' hB' reminderTry_at formatDate_len]
    simp [List.append_assoc]

theorem rustTrim_text_junk {T J : Str} (hT : TrimStable T)
    (hJ : ∀ c ∈ J, c = ' ') : rustTrim (T ++ J) = T :=
  rustTrim_append_ws hT (fun c hc => by rw [hJ c hc]; decide)

/-- The eight-stage marker-removal chain of `Task::parse`, evaluated on the
markdown line of a well-formed task: every marker run is replaced by
whitespace residue and the final trim recovers the original description. -/
theorem cleanChain (t : Task) (hW : WellFormedTask t) :
    rustTrim (replaceAll importanceTry (replaceAll idTry (replaceAll notesTry
      (removeNatural '@' '#' '!' (replaceAll reminderTry (replaceAll tagTry
        (removeNatural '!' '#' '@' (replaceAll deadlineTry
          (taskLineText t))))))))) = t.text := by
  have hTIP := tip_chars hW
  obtain ⟨⟨hid1, hid2, hid3⟩, ⟨htextT, htextOK⟩, htags, hdl, hrm, hnt, himp⟩ :=
    hW
  have hidD : (if t.id.length > 8 then t.id.take 8 else t.id) = t.id :=
    if_neg (by omega)
  have hD := @mem_mdDateSeg_ne '!' t.deadline
  have hR := @mem_mdDateSeg_ne '@' t.reminder
  have hT := mem_mdTagsSeg_ne htags
  have hN := mem_mdNotesSeg_ne (fun n hn => (hnt n hn).2.2.1)
  have hI := mem_mdImpSeg_ne himp
  have hTxt : ∀ c ∈ t.text,
      c ≠ '!' ∧ c ≠ '@' ∧ c ≠ '#' ∧ c ≠ '$' ∧ c ≠ '[' ∧ c ≠ '/' :=
    fun c hc => textCharOK_not ((List.all_eq_true.mp htextOK) c hc)
  have hrest1 : ∀ c ∈ (mdTagsSeg t.tags ++ (mdDateSeg '@' t.reminder ++
      (mdNotesSeg t.notes ++ mdImpSeg t.importance))), c ≠ '!' := by
    intro c hc
    rcases List.mem_append.mp hc with h | hc
    · rcases hT c h with rfl | rfl | hcc
      · decide
      · decide
      · exact hcc.1
    rcases List.mem_append.mp hc with h | hc
    · rcases hR c h with rfl | rfl | hcc
      · decide
      · decide
      · exact hcc.1
    rcases List.mem_append.mp hc with h | h
    · rcases hN c h with rfl | rfl | hcc
      · decide
      · decide
      · exact hcc.1
    · rcases hI c h with rfl | rfl | hcc
      · decide
      · decide
      · exact hcc.1
  have h1 : replaceAll deadlineTry (taskLineText t) =
      (t.text ++ (" [id:".toList ++ (t.id ++ [']']))) ++
        (optJunk t.deadline ++ (mdTagsSeg t.tags ++
          (mdDateSeg '@' t.reminder ++
            (mdNotesSeg t.notes ++ mdImpSeg t.importance)))) := by
    rw [show taskLineText t =
        (t.text ++ (" [id:".toList ++ (t.id ++ [']']))) ++
          (mdDateSeg '!' t.deadline ++ (mdTagsSeg t.tags ++
            (mdDateSeg '@' t.reminder ++
              (mdNotesSeg t.notes ++ mdImpSeg t.importance)))) by
      rw [taskLineText, hidD]
      simp [List.append_assoc]]
    exact replaceAll_dateSeg_deadline (fun c hc => (hTIP c hc).1) hrest1
  have h2 : removeNatural '!' '#' '@'
      ((t.text ++ (" [id:".toList ++ (t.id ++ [']']))) ++
        (optJunk t.deadline ++ (mdTagsSeg t.tags ++
          (mdDateSeg '@' t.reminder ++
            (mdNotesSeg t.notes ++ mdImpSeg t.importance))))) =
      (t.text ++ (" [id:".toList ++ (t.id ++ [']']))) ++
        (optJunk t.deadline ++ (mdTagsSeg t.tags ++
          (mdDateSeg '@' t.reminder ++
            (mdNotesSeg t.notes ++ mdImpSeg t.importance)))) := by
    apply removeNatural_no_marker
    intro c hc
    rcases List.mem_append.mp hc with h | hc
    · exact (hTIP c h).1
    rcases List.mem_append.mp hc with h | h
    · rw [mem_optJunk c h]; decide
    · exact hrest1 c h
  have hRRh : ∀ c, (mdDateSeg '@' t.reminder ++
      (mdNotesSeg t.notes ++ mdImpSeg t.importance)).head? = some c →
      isTagCh c = false := by
    rcases hrmc : t.reminder with _ | r
    · rw [mdDateSeg_none, List.nil_append]
      rcases hntc : t.notes with _ | n
      · rw [mdNotesSeg_none, List.nil_append]
        rcases himpc : t.importance with _ | i
        · rw [mdImpSeg_none]
          intro c hc
          simp at hc
        · intro c hc
          rw [show mdImpSeg (some i) = ' ' :: ('$' :: Nat.toDigits 10 i)
            from rfl, List.head?_cons] at hc
          cases hc
          decide
      · intro c hc
        rw [show mdNotesSeg (some n) = ' ' :: ('/' :: '/' :: n) from rfl,
          List.cons_append, List.head?_cons] at hc
        cases hc
        decide
    · intro c hc
      rw [show mdDateSeg '@' (some r) = ' ' :: ('@' :: formatDate r) from rfl,
        List.cons_append, List.head?_cons] at hc
      cases hc
      decide
  have h3 : replaceAll tagTry
      ((t.text ++ (" [id:".toList ++ (t.id ++ [']']))) ++
        (optJunk t.deadline ++ (mdTagsSeg t.tags ++
          (mdDateSeg '@' t.reminder ++
            (mdNotesSeg t.notes ++ mdImpSeg t.importance))))) =
      (t.text ++ (" [id:".toList ++ (t.id ++ [']']))) ++
        (optJunk t.deadline ++ (List.replicate t.tags.length ' ' ++
          (mdDateSeg '@' t.reminder ++
            (mdNotesSeg t.notes ++ mdImpSeg t.importance)))) := by
    rw [show (t.text ++ (" [id:".toList ++ (t.id ++ [']']))) ++
        (optJunk t.deadline ++ (mdTagsSeg t.tags ++
          (mdDateSeg '@' t.reminder ++
            (mdNotesSeg t.notes ++ mdImpSeg t.importance)))) =
      ((t.text ++ (" [id:".toList ++ (t.id ++ [']']))) ++
        optJunk t.deadline) ++ (mdTagsSeg t.tags ++
          (mdDateSeg '@' t.reminder ++
            (mdNotesSeg t.notes ++ mdImpSeg t.importance))) by
      simp [List.append_assoc]]
    rw [replaceAll_append_none (fun c hc cs => tagTry_ne (by
      rcases List.mem_append.mp hc with h | h
      · exact (hTIP c h).2.2.1
      · rw [mem_optJunk c h]; decide))]
    rw [replaceAll_tagsSeg htags (fun c hc cs => tagTry_ne (by
      rcases List.mem_append.mp hc with h | hc
      · rcases hR c h with rfl | rfl | hcc
        · decide
        · decide
        · exact hcc.2.2.1
      rcases List.mem_append.mp hc with h | h
      · rcases hN c h with rfl | rfl | hcc
        · decide
        · decide
        · exact hcc.2.2.1
      · rcases hI c h with rfl | rfl | hcc
        · decide
        · decide
        · exact hcc.2.2.1)) hRRh]
    simp [List.append_assoc]
  have h4 : replaceAll reminderTry
      ((t.text ++ (" [id:".toList ++ (t.id ++ [']']))) ++
        (optJunk t.deadline ++ (List.replicate t.tags.length ' ' ++
          (mdDateSeg '@' t.reminder ++
            (mdNotesSeg t.notes ++ mdImpSeg t.importance))))) =
      (t.text ++ (" [id:".toList ++ (t.id ++ [']']))) ++
        (optJunk t.deadline ++ (List.replicate t.tags.length ' ' ++
          (optJunk t.reminder ++
            (mdNotesSeg t.notes ++ mdImpSeg t.importance)))) := by
    rw [show (t.text ++ (" [id:".toList ++ (t.id ++ [']']))) ++
        (optJunk t.deadline ++ (List.replicate t.tags.length ' ' ++
          (mdDateSeg '@' t.reminder ++
            (mdNotesSeg t.notes ++ mdImpSeg t.importance)))) =
      (((t.text ++ (" [id:".toList ++ (t.id ++ [']']))) ++
        optJunk t.deadline) ++ List.replicate t.tags.length ' ') ++
          (mdDateSeg '@' t.reminder ++
            (mdNotesSeg t.notes ++ mdImpSeg t.importance)) by
      simp [List.append_assoc]]
    rw [replaceAll_dateSeg_reminder (fun c hc => by
        rcases List.mem_append.mp hc with hc | h
        · rcases List.mem_append.mp hc with h | h
          · exact (hTIP c h).2.1
          · rw [mem_optJunk c h]; decide
        · rw [(List.mem_replicate.mp h).2]; decide)
      (fun c hc => by
        rcases List.mem_append.mp hc with h | h
        · rcases hN c h with rfl | rfl | hcc
          · decide
          · decide
          · exact hcc.2.1
        · rcases hI c h with rfl | rfl | hcc
          · decide
          · decide
          · exact hcc.2.1)]
    simp [List.append_assoc]
  have h5 : removeNatural '@' '#' '!'
      ((t.text ++ (" [id:".toList ++ (t.id ++ [']']))) ++
        (optJunk t.deadline ++ (List.replicate t.tags.length ' ' ++
          (optJunk t.reminder ++
            (mdNotesSeg t.notes ++ mdImpSeg t.importance))))) =
      (t.text ++ (" [id:".toList ++ (t.id ++ [']']))) ++
        (optJunk t.deadline ++ (List.replicate t.tags.length ' ' ++
          (optJunk t.reminder ++
            (mdNotesSeg t.notes ++ mdImpSeg t.importance)))) := by
    apply removeNatural_no_marker
    intro c hc
    rcases List.mem_append.mp hc with h | hc
    · exact (hTIP c h).2.1
    rcases List.mem_append.mp hc with h | hc
    · rw [mem_optJunk c h]; decide
    rcases List.mem_append.mp hc with h | hc
    · rw [(List.mem_replicate.mp h).2]; decide
    rcases List.mem_append.mp hc with h | hc
    · rw [mem_optJunk c h]; decide
    rcases List.mem_append.mp hc with h | h
    · rcases hN c h with rfl | rfl | hcc
      · decide
      · decide
      · exact hcc.2.1
    · rcases hI c h with rfl | rfl | hcc
      · decide
      · decide
      · exact hcc.2.1
  rw [h1, h2, h3, h4, h5]
  rcases hntc : t.notes with _ | n
  · rw [mdNotesSeg_none, List.nil_append]
    have h7 : replaceAll idTry
        ((t.text ++ (" [id:".toList ++ (t.id ++ [']']))) ++
          (optJunk t.deadline ++ (List.replicate t.tags.length ' ' ++
            (optJunk t.reminder ++ mdImpSeg t.importance)))) =
        (t.text ++ [' ']) ++
          (optJunk t.deadline ++ (List.replicate t.tags.length ' ' ++
            (optJunk t.reminder ++ mdImpSeg t.importance))) := by
      rw [show (t.text ++ (" [id:".toList ++ (t.id ++ [']']))) ++
          (optJunk t.deadline ++ (List.replicate t.tags.length ' ' ++
            (optJunk t.reminder ++ mdImpSeg t.importance))) =
        (t.text ++ [' ']) ++ '[' ::
          (('i' :: 'd' :: ':' :: (t.id ++ [']'])) ++
            (optJunk t.deadline ++ (List.replicate t.tags.length ' ' ++
              (optJunk t.reminder ++ mdImpSeg t.importance)))) by
        rw [show (" [id:".toList : Str) = [' ', '[', 'i', 'd', ':'] from rfl]
        simp [List.append_assoc]]
      rw [replaceAll_single (fun c hc cs => idTry_ne (by
          rcases List.mem_append.mp hc with h | h
          · exact (hTxt c h).2.2.2.2.1
          · simp only [List.mem_singleton] at h
            subst h; decide))
        (fun c hc cs => idTry_ne (by
          rcases List.mem_append.mp hc with h | hc
          · rw [mem_optJunk c h]; decide
          rcases List.mem_append.mp hc with h | hc
          · rw [(List.mem_replicate.mp h).2]; decide
          rcases List.mem_append.mp hc with h | h
          · rw [mem_optJunk c h]; decide
          · rcases hI c h with rfl | rfl | hcc
            · decide
            · decide
            · exact hcc.2.2.2.2.2.1))
        (by
          rw [show ('i' :: 'd' :: ':' :: (t.id ++ [']'])) ++
              (optJunk t.deadline ++ (List.replicate t.tags.length ' ' ++
                (optJunk t.reminder ++ mdImpSeg t.importance))) =
            'i' :: 'd' :: ':' :: (t.id ++ ']' ::
              (optJunk t.deadline ++ (List.replicate t.tags.length ' ' ++
                (optJunk t.reminder ++ mdImpSeg t.importance)))) by
            simp [List.append_assoc]]
          exact idTry_at hid1 hid3)
        (by
          simp only [List.length_cons, List.length_append,
            List.length_singleton, List.length_nil]
          omega)]
    have h6 : replaceAll notesTry
        ((t.text ++ (" [id:".toList ++ (t.id ++ [']']))) ++
          (optJunk t.deadline ++ (List.replicate t.tags.length ' ' ++
            (optJunk t.reminder ++ mdImpSeg t.importance)))) =
        (t.text ++ (" [id:".toList ++ (t.id ++ [']']))) ++
          (optJunk t.deadline ++ (List.replicate t.tags.length ' ' ++
            (optJunk t.reminder ++ mdImpSeg t.importance))) := by
      apply replaceAll_id_of_none
      intro c hc cs
      refine notesTry_ne ?_
      rcases List.mem_append.mp hc with h | hc
      · exact (hTIP c h).2.2.2.2
      rcases List.mem_append.mp hc with h | hc
      · rw [mem_optJunk c h]; decide
      rcases List.mem_append.mp hc with h | hc
      · rw [(List.mem_replicate.mp h).2]; decide
      rcases List.mem_append.mp hc with h | h
      · rw [mem_optJunk c h]; decide
      · rcases hI c h with rfl | rfl | hcc
        · decide
        · decide
        · exact hcc.2.2.2.2.1
    rw [h6, h7]
    rcases himpc : t.importance with _ | i
    · rw [mdImpSeg_none]
      rw [replaceAll_id_of_none (fun c hc cs => importanceTry_ne (by
        rcases List.mem_append.mp hc with hc | hc
        · rcases List.mem_append.mp hc with h | h
          · exact (hTxt c h).2.2.2.1
          · simp only [List.mem_singleton] at h
            subst h; decide
        rcases List.mem_append.mp hc with h | hc
        · rw [mem_optJunk c h]; decide
        rcases List.mem_append.mp hc with h | h
        · rw [(List.mem_replicate.mp h).2]; decide
        · rw [show (optJunk t.reminder ++ [] : Str) = optJunk t.reminder
              by simp] at h
          rw [mem_optJunk c h]; decide))]
      rw [show (t.text ++ [' ']) ++
          (optJunk t.deadline ++ (List.replicate t.tags.length ' ' ++
            (optJunk t.reminder ++ []))) =
        t.text ++ ([' '] ++
          (optJunk t.deadline ++ (List.replicate t.tags.length ' ' ++
            (optJunk t.reminder ++ [])))) by simp [List.append_assoc]]
      apply rustTrim_text_junk htextT
      intro c hc
      rcases List.mem_append.mp hc with h | hc
      · simpa using h
      rcases List.mem_append.mp hc with h | hc
      · exact mem_optJunk c h
      rcases List.mem_append.mp hc with h | h
      · exact (List.mem_replicate.mp h).2
      · rw [show (optJunk t.reminder ++ [] : Str) = optJunk t.reminder
            by simp] at h
        exact mem_optJunk c h
    · obtain ⟨hi1, hi5⟩ := himp i himpc
      rw [show mdImpSeg (some i) = ' ' :: ('$' :: Nat.toDigits 10 i) from rfl,
        toDigits_single hi1 hi5]
      rw [show (t.text ++ [' ']) ++
          (optJunk t.deadline ++ (List.replicate t.tags.length ' ' ++
            (optJunk t.reminder ++ (' ' :: ('$' :: [Nat.digitChar i]))))) =
        ((t.text ++ [' ']) ++ (optJunk t.deadline ++
          (List.replicate t.tags.length ' ' ++
            (optJunk t.reminder ++ [' '])))) ++ '$' ::
              ([Nat.digitChar i] ++ []) by simp [List.append_assoc]]
      rw [replaceAll_single (fun c hc cs => importanceTry_ne (by
          rcases List.mem_append.mp hc with hc | hc
          · rcases List.mem_append.mp hc with h | h
            · exact (hTxt c h).2.2.2.1
            · simp only [List.mem_singleton] at h
              subst h; decide
          rcases List.mem_append.mp hc with h | hc
          · rw [mem_optJunk c h]; decide
          rcases List.mem_append.mp hc with h | hc
          · rw [(List.mem_replicate.mp h).2]; decide
          rcases List.mem_append.mp hc with h | h
          · rw [mem_optJunk c h]; decide
          · simp only [List.mem_singleton] at h
            subst h; decide))
        (fun c hc cs => by simp at hc)
        (by
          rw [show ([Nat.digitChar i] ++ [] : Str) = Nat.digitChar i :: []
            by simp]
          exact importanceTry_at hi1 hi5)
        rfl]
      rw [show ((t.text ++ [' ']) ++ (optJunk t.deadline ++
          (List.replicate t.tags.length ' ' ++
            (optJunk t.reminder ++ [' '])))) ++ [] =
        t.text ++ ([' '] ++ (optJunk t.deadline ++
          (List.replicate t.tags.length ' ' ++
            (optJunk t.reminder ++ [' '])))) by simp [List.append_assoc]]
      apply rustTrim_text_junk htextT
      intro c hc
      rcases List.mem_append.mp hc with h | hc
      · simpa using h
      rcases List.mem_append.mp hc with h | hc
      · exact mem_optJunk c h
      rcases List.mem_append.mp hc with h | h
      · exact (List.mem_replicate.mp h).2
      · rcases List.mem_append.mp h with h | h
        · exact mem_optJunk c h
        · simpa using h
  · obtain ⟨hn1, hnT, hnOK, hnSS⟩ := hnt n hntc
    rw [show mdNotesSeg (some n) = ' ' :: ('/' :: '/' :: n) from rfl]
    rcases himpc : t.importance with _ | i
    · rw [mdImpSeg_none]
      have h6 : replaceAll notesTry
          ((t.text ++ (" [id:".toList ++ (t.id ++ [']']))) ++
            (optJunk t.deadline ++ (List.replicate t.tags.length ' ' ++
              (optJunk t.reminder ++ ((' ' :: ('/' :: '/' :: n)) ++ []))))) =
          (t.text ++ (" [id:".toList ++ (t.id ++ [']']))) ++
            (optJunk t.deadline ++ (List.replicate t.tags.length ' ' ++
              (optJunk t.reminder ++ [' ']))) := by
        rw [show (t.text ++ (" [id:".toList ++ (t.id ++ [']']))) ++
            (optJunk t.deadline ++ (List.replicate t.tags.length ' ' ++
              (optJunk t.reminder ++ ((' ' :: ('/' :: '/' :: n)) ++ [])))) =
          ((t.text ++ (" [id:".toList ++ (t.id ++ [']']))) ++
            (optJunk t.deadline ++ (List.replicate t.tags.length ' ' ++
              (optJunk t.reminder ++ [' '])))) ++ '/' ::
                (('/' :: n) ++ []) by simp [List.append_assoc]]
        rw [replaceAll_single (fun c hc cs => notesTry_ne (by
            rcases List.mem_append.mp hc with h | hc
            · exact (hTIP c h).2.2.2.2
            rcases List.mem_append.mp hc with h | hc
            · rw [mem_optJunk c h]; decide
            rcases List.mem_append.mp hc with h | hc
            · rw [(List.mem_replicate.mp h).2]; decide
            rcases List.mem_append.mp hc with h | h
            · rw [mem_optJunk c h]; decide
            · simp only [List.mem_singleton] at h
              subst h; decide))
          (fun c hc cs => by simp at hc)
          (by
            rw [show (('/' :: n) ++ [] : Str) = '/' :: n by simp]
            exact notesTry_at_end hn1 hnOK)
          (by simp [Nat.add_comm])]
        simp
      rw [h6]
      have h7 : replaceAll idTry
          ((t.text ++ (" [id:".toList ++ (t.id ++ [']']))) ++
            (optJunk t.deadline ++ (List.replicate t.tags.length ' ' ++
              (optJunk t.reminder ++ [' '])))) =
          (t.text ++ [' ']) ++
            (optJunk t.deadline ++ (List.replicate t.tags.length ' ' ++
              (optJunk t.reminder ++ [' ']))) := by
        rw [show (t.text ++ (" [id:".toList ++ (t.id ++ [']']))) ++
            (optJunk t.deadline ++ (List.replicate t.tags.length ' ' ++
              (optJunk t.reminder ++ [' ']))) =
          (t.text ++ [' ']) ++ '[' ::
            (('i' :: 'd' :: ':' :: (t.id ++ [']'])) ++
              (optJunk t.deadline ++ (List.replicate t.tags.length ' ' ++
                (optJunk t.reminder ++ [' '])))) by
          rw [show (" [id:".toList : Str) = [' ', '[', 'i', 'd', ':']
            from rfl]
          simp [List.append_assoc]]
        rw [replaceAll_single (fun c hc cs => idTry_ne (by
            rcases List.mem_append.mp hc with h | h
            · exact (hTxt c h).2.2.2.2.1
            · simp only [List.mem_singleton] at h
              subst h; decide))
          (fun c hc cs => idTry_ne (by
            rcases List.mem_append.mp hc with h | hc
            · rw [mem_optJunk c h]; decide
            rcases List.mem_append.mp hc with h | hc
            · rw [(List.mem_replicate.mp h).2]; decide
            rcases List.mem_append.mp hc with h | h
            · rw [mem_optJunk c h]; decide
            · simp only [List.mem_singleton] at h
              subst h; decide))
          (by
            rw [show ('i' :: 'd' :: ':' :: (t.id ++ [']'])) ++
                (optJunk t.deadline ++ (List.replicate t.tags.length ' ' ++
                  (optJunk t.reminder ++ [' ']))) =
              'i' :: 'd' :: ':' :: (t.id ++ ']' ::
                (optJunk t.deadline ++ (List.replicate t.tags.length ' ' ++
                  (optJunk t.reminder ++ [' '])))) by
              simp [List.append_assoc]]
            exact idTry_at hid1 hid3)
          (by
            simp only [List.length_cons, List.length_append,
              List.length_singleton, List.length_nil]
            omega)]
      rw [h7]
      rw [replaceAll_id_of_none (fun c hc cs => importanceTry_ne (by
        rcases List.mem_append.mp hc with hc | hc
        · rcases List.mem_append.mp hc with h | h
          · exact (hTxt c h).2.2.2.1
          · simp only [List.mem_singleton] at h
            subst h; decide
        rcases List.mem_append.mp hc with h | hc
        · rw [mem_optJunk c h]; decide
        rcases List.mem_append.mp hc with h | hc
        · rw [(List.mem_replicate.mp h).2]; decide
        rcases List.mem_append.mp hc with h | h
        · rw [mem_optJunk c h]; decide
        · simp only [List.mem_singleton] at h
          subst h; decide))]
      rw [show (t.text ++ [' ']) ++
          (optJunk t.deadline ++ (List.replicate t.tags.length ' ' ++
            (optJunk t.reminder ++ [' ']))) =
        t.text ++ ([' '] ++
          (optJunk t.deadline ++ (List.replicate t.tags.length ' ' ++
            (optJunk t.reminder ++ [' '])))) by simp [List.append_assoc]]
      apply rustTrim_text_junk htextT
      intro c hc
      rcases List.mem_append.mp hc with h | hc
      · simpa using h
      rcases List.mem_append.mp hc with h | hc
      · exact mem_optJunk c h
      rcases List.mem_append.mp hc with h | h
      · exact (List.mem_replicate.mp h).2
      · rcases List.mem_append.mp h with h | h
        · exact mem_optJunk c h
        · simpa using h
    · obtain ⟨hi1, hi5⟩ := himp i himpc
      rw [show mdImpSeg (some i) = ' ' :: ('$' :: Nat.toDigits 10 i) from rfl,
        toDigits_single hi1 hi5]
      have h6 : replaceAll notesTry
          ((t.text ++ (" [id:".toList ++ (t.id ++ [']']))) ++
            (optJunk t.deadline ++ (List.replicate t.tags.length ' ' ++
              (optJunk t.reminder ++ ((' ' :: ('/' :: '/' :: n)) ++
                (' ' :: ('$' :: [Nat.digitChar i]))))))) =
          ((t.text ++ (" [id:".toList ++ (t.id ++ [']']))) ++
            (optJunk t.deadline ++ (List.replicate t.tags.length ' ' ++
              (optJunk t.reminder ++ [' '])))) ++
            '$' :: [Nat.digitChar i] := by
        rw [show (t.text ++ (" [id:".toList ++ (t.id ++ [']']))) ++
            (optJunk t.deadline ++ (List.replicate t.tags.length ' ' ++
              (optJunk t.reminder ++ ((' ' :: ('/' :: '/' :: n)) ++
                (' ' :: ('$' :: [Nat.digitChar i])))))) =
          ((t.text ++ (" [id:".toList ++ (t.id ++ [']']))) ++
            (optJunk t.deadline ++ (List.replicate t.tags.length ' ' ++
              (optJunk t.reminder ++ [' '])))) ++ '/' ::
                (('/' :: (n ++ [' '])) ++ ('$' :: [Nat.digitChar i]))
            by simp [List.append_assoc]]
        rw [replaceAll_single (fun c hc cs => notesTry_ne (by
            rcases List.mem_append.mp hc with h | hc
            · exact (hTIP c h).2.2.2.2
            rcases List.mem_append.mp hc with h | hc
            · rw [mem_optJunk c h]; decide
            rcases List.mem_append.mp hc with h | hc
            · rw [(List.mem_replicate.mp h).2]; decide
            rcases List.mem_append.mp hc with h | h
            · rw [mem_optJunk c h]; decide
            · simp only [List.mem_singleton] at h
              subst h; decide))
          (fun c hc cs => notesTry_ne (by
            simp only [List.mem_cons, List.mem_singleton,
              List.not_mem_nil, or_false] at hc
            rcases hc with rfl | rfl
            · decide
            · exact (digitChar_not_marker (by omega)).2.2.2.2.1))
          (by
            rw [show ('/' :: (n ++ [' '])) ++ ('$' :: [Nat.digitChar i]) =
              '/' :: (n ++ ' ' :: '$' :: [Nat.digitChar i]) by
                simp [List.append_assoc]]
            exact notesTry_at_imp hnOK)
          (by simp; omega)]
      rw [h6]
      have h7 : replaceAll idTry
          (((t.text ++ (" [id:".toList ++ (t.id ++ [']']))) ++
            (optJunk t.deadline ++ (List.replicate t.tags.length ' ' ++
              (optJunk t.reminder ++ [' '])))) ++
            '$' :: [Nat.digitChar i]) =
          ((t.text ++ [' ']) ++
            (optJunk t.deadline ++ (List.replicate t.tags.length ' ' ++
              (optJunk t.reminder ++ [' '])))) ++
            '$' :: [Nat.digitChar i] := by
        rw [show ((t.text ++ (" [id:".toList ++ (t.id ++ [']']))) ++
            (optJunk t.deadline ++ (List.replicate t.tags.length ' ' ++
              (optJunk t.reminder ++ [' '])))) ++
            '$' :: [Nat.digitChar i] =
          (t.text ++ [' ']) ++ '[' ::
            (('i' :: 'd' :: ':' :: (t.id ++ [']'])) ++
              (optJunk t.deadline ++ (List.replicate t.tags.length ' ' ++
                (optJunk t.reminder ++ (' ' :: ('$' ::
                  [Nat.digitChar i])))))) by
          rw [show (" [id:".toList : Str) = [' ', '[', 'i', 'd', ':']
            from rfl]
          simp [List.append_assoc]]
        rw [replaceAll_single (fun c hc cs => idTry_ne (by
            rcases List.mem_append.mp hc with h | h
            · exact (hTxt c h).2.2.2.2.1
            · simp only [List.mem_singleton] at h
              subst h; decide))
          (fun c hc cs => idTry_ne (by
            rcases List.mem_append.mp hc with h | hc
            · rw [mem_optJunk c h]; decide
            rcases List.mem_append.mp hc with h | hc
            · rw [(List.mem_replicate.mp h).2]; decide
            rcases List.mem_append.mp hc with h | h
            · rw [mem_optJunk c h]; decide
            · simp only [List.mem_cons, List.mem_singleton,
                List.not_mem_nil, or_false] at h
              rcases h with rfl | rfl | rfl
              · decide
              · decide
              · exact (digitChar_not_marker (by omega)).2.2.2.2.2))
          (by
            rw [show ('i' :: 'd' :: ':' :: (t.id ++ [']'])) ++
                (optJunk t.deadline ++ (List.replicate t.tags.length ' ' ++
                  (optJunk t.reminder ++ (' ' :: ('$' ::
                    [Nat.digitChar i]))))) =
              'i' :: 'd' :: ':' :: (t.id ++ ']' ::
                (optJunk t.deadline ++ (List.replicate t.tags.length ' ' ++
                  (optJunk t.reminder ++ (' ' :: ('$' ::
                    [Nat.digitChar i])))))) by
              simp [List.append_assoc]]
            exact idTry_at hid1 hid3)
          (by
            simp only [List.length_cons, List.length_append,
              List.length_singleton, List.length_nil]
            omega)]
        simp [List.append_assoc]
      rw [h7]
      rw [show ((t.text ++ [' ']) ++
          (optJunk t.deadline ++ (List.replicate t.tags.length ' ' ++
            (optJunk t.reminder ++ [' '])))) ++
          '$' :: [Nat.digitChar i] =
        ((t.text ++ [' ']) ++
          (optJunk t.deadline ++ (List.replicate t.tags.length ' ' ++
            (optJunk t.reminder ++ [' '])))) ++
          '$' :: ([Nat.digitChar i] ++ []) by simp]
      rw [replaceAll_single (fun c hc cs => importanceTry_ne (by
          rcases List.mem_append.mp hc with hc | hc
          · rcases List.mem_append.mp hc with h | h
            · exact (hTxt c h).2.2.2.1
            · simp only [List.mem_singleton] at h
              subst h; decide
          rcases List.mem_append.mp hc with h | hc
          · rw [mem_optJunk c h]; decide
          rcases List.mem_append.mp hc with h | hc
          · rw [(List.mem_replicate.mp h).2]; decide
          rcases List.mem_append.mp hc with h | h
          · rw [mem_optJunk c h]; decide
          · simp only [List.mem_singleton] at h
            subst h; decide))
        (fun c hc cs => by simp at hc)
        (by
          rw [show ([Nat.digitChar i] ++ [] : Str) = Nat.digitChar i :: []
            by simp]
          exact importanceTry_at hi1 hi5)
        rfl]
      rw [show ((t.text ++ [' ']) ++
          (optJunk t.deadline ++ (List.replicate t.tags.length ' ' ++
            (optJunk t.reminder ++ [' '])))) ++ [] =
        t.text ++ ([' '] ++
          (optJunk t.deadline ++ (List.replicate t.tags.length ' ' ++
            (optJunk t.reminder ++ [' '])))) by simp [List.append_assoc]]
      apply rustTrim_text_junk htextT
      intro c hc
      rcases List.mem_append.mp hc with h | hc
      · simpa using h
      rcases List.mem_append.mp hc with h | hc
      · exact mem_optJunk c h
      rcases List.mem_append.mp hc with h | h
      · exact (List.mem_replicate.mp h).2
      · rcases List.mem_append.mp h with h | h
        · exact mem_optJunk c h
        · simpa using h

/-- `Task::parse` inverts `Task::to_markdown` on the checkbox-stripped line
of a well-formed task: every field is recovered (the parser always returns
`completed := false`; the loader sets the flag from the checkbox). -/
theorem parse_taskLineText (env : ParseEnv) (t : Task)
    (hW : WellFormedTask t) :
    Task.parse env (taskLineText t) = { t with completed := false } := by
  have hTIP := tip_chars hW
  have hclean := cleanChain t hW
  obtain ⟨⟨hid1, hid2, hid3⟩, ⟨htextT, htextOK⟩, htags, hdl, hrm, hnt, himp⟩ :=
    hW
  have hidD : (if t.id.length > 8 then t.id.take 8 else t.id) = t.id :=
    if_neg (by omega)
  have hD := @mem_mdDateSeg_ne '!' t.deadline
  have hR := @mem_mdDateSeg_ne '@' t.reminder
  have hT := mem_mdTagsSeg_ne htags
  have hN := mem_mdNotesSeg_ne (fun n hn => (hnt n hn).2.2.1)
  have hI := mem_mdImpSeg_ne himp
  have hTxt : ∀ c ∈ t.text,
      c ≠ '!' ∧ c ≠ '@' ∧ c ≠ '#' ∧ c ≠ '$' ∧ c ≠ '[' ∧ c ≠ '/' :=
    fun c hc => textCharOK_not ((List.all_eq_true.mp htextOK) c hc)
  have hS : taskLineText t =
      (t.text ++ (" [id:".toList ++ (t.id ++ [']']))) ++
        (mdDateSeg '!' t.deadline ++ (mdTagsSeg t.tags ++
          (mdDateSeg '@' t.reminder ++
            (mdNotesSeg t.notes ++ mdImpSeg t.importance)))) := by
    rw [taskLineText, hidD]
    simp [List.append_assoc]
  have Eid : findFirst idTry (taskLineText t) =
      some ('[' :: ('i' :: 'd' :: ':' :: (t.id ++ [']']))) := by
    rw [show taskLineText t =
        (t.text ++ [' ']) ++ '[' ::
          (('i' :: 'd' :: ':' :: (t.id ++ [']'])) ++
            (mdDateSeg '!' t.deadline ++ (mdTagsSeg t.tags ++
              (mdDateSeg '@' t.reminder ++
                (mdNotesSeg t.notes ++ mdImpSeg t.importance))))) by
      rw [hS, show (" [id:".toList : Str) = [' ', '[', 'i', 'd', ':']
        from rfl]
      simp [List.append_assoc]]
    exact findFirst_single (fun c hc cs => idTry_ne (by
        rcases List.mem_append.mp hc with h | h
        · exact (hTxt c h).2.2.2.2.1
        · simp only [List.mem_singleton] at h
          subst h; decide))
      (by
        rw [show ('i' :: 'd' :: ':' :: (t.id ++ [']'])) ++
            (mdDateSeg '!' t.deadline ++ (mdTagsSeg t.tags ++
              (mdDateSeg '@' t.reminder ++
                (mdNotesSeg t.notes ++ mdImpSeg t.importance)))) =
          'i' :: 'd' :: ':' :: (t.id ++ ']' ::
            (mdDateSeg '!' t.deadline ++ (mdTagsSeg t.tags ++
              (mdDateSeg '@' t.reminder ++
                (mdNotesSeg t.notes ++ mdImpSeg t.importance))))) by
          simp [List.append_assoc]]
        exact idTry_at hid1 hid3)
      (by
        simp only [List.length_cons, List.length_append,
          List.length_singleton, List.length_nil]
        omega)
  have Hid : ((findFirst idTry (taskLineText t)).map
      (fun m => dropTrailingBrackets (dropLeadingIdMarks m))).getD
        env.freshId = t.id := by
    rw [Eid]
    show dropTrailingBrackets
      (dropLeadingIdMarks ('[' :: ('i' :: 'd' :: ':' :: (t.id ++ [']'])))) =
        t.id
    rw [show dropLeadingIdMarks
        ('[' :: ('i' :: 'd' :: ':' :: (t.id ++ [']']))) =
      dropLeadingIdMarks (t.id ++ [']']) from rfl]
    obtain ⟨c0, cs, hidc⟩ : ∃ c0 cs, t.id = c0 :: cs := by
      rcases hh : t.id with _ | ⟨c0, cs⟩
      · exact absurd hh hid1
      · exact ⟨c0, cs, rfl⟩
    have hcm : ∀ c ∈ t.id, isIdCh c = true := List.all_eq_true.mp hid3
    rw [hidc, List.cons_append,
      dropLeadingIdMarks_of_ne
        (isIdCh_not_marker (hcm c0 (by rw [hidc]; simp))).2.2.2.2.2.1,
      ← List.cons_append,
      dropTrailingBrackets_concat (fun c hc =>
        (isIdCh_not_marker (hcm c (by rw [hidc]; exact hc))).2.2.2.2.2.2.1)]
  have Hdl : ((findFirst deadlineTry (taskLineText t)).bind
      (fun m => parseDateStr (m.dropWhile (fun c => c = '!')))).orElse
      (fun _ => extractNaturalDate env '!' '#' '@' (taskLineText t)) =
      t.deadline := by
    rcases hdlc : t.deadline with _ | d
    · have hno : ∀ c ∈ taskLineText t, c ≠ '!' := by
        rw [hS, hdlc, mdDateSeg_none, List.nil_append]
        intro c hc
        rcases List.mem_append.mp hc with h | hc
        · exact (hTIP c h).1
        rcases List.mem_append.mp hc with h | hc
        · rcases hT c h with rfl | rfl | hcc
          · decide
          · decide
          · exact hcc.1
        rcases List.mem_append.mp hc with h | hc
        · rcases hR c h with rfl | rfl | hcc
          · decide
          · decide
          · exact hcc.1
        rcases List.mem_append.mp hc with h | h
        · rcases hN c h with rfl | rfl | hcc
          · decide
          · decide
          · exact hcc.1
        · rcases hI c h with rfl | rfl | hcc
          · decide
          · decide
          · exact hcc.1
      rw [findFirst_none (fun c hc cs => deadlineTry_ne (hno c hc))]
      show extractNaturalDate env '!' '#' '@' (taskLineText t) = none
      exact extractNaturalDate_no_marker hno
    · have Efd : findFirst deadlineTry (taskLineText t) =
          some ('!' :: formatDate d) := by
        rw [show taskLineText t =
            ((t.text ++ (" [id:".toList ++ (t.id ++ [']']))) ++ [' ']) ++
              '!' :: (formatDate d ++ (mdTagsSeg t.tags ++
                (mdDateSeg '@' t.reminder ++
                  (mdNotesSeg t.notes ++ mdImpSeg t.importance)))) by
          rw [hS, hdlc,
            show mdDateSeg '!' (some d) = ' ' :: ('!' :: formatDate d)
              from rfl]
          simp [List.append_assoc]]
        exact findFirst_single (fun c hc cs => deadlineTry_ne (by
            rcases List.mem_append.mp hc with h | h
            · exact (hTIP c h).1
            · simp only [List.mem_singleton] at h
              subst h; decide))
          deadlineTry_at formatDate_len
      rw [Efd]
      have hdw : ('!' :: formatDate d).dropWhile (fun c => c = '!') =
          formatDate d := by
        rw [List.dropWhile_cons]
        simp only [decide_True, if_true]
        rcases hfde : formatDate d with _ | ⟨f0, frest⟩
        · rfl
        · have hok := formatDate_chars f0 (by rw [hfde]; simp)
          exact dropWhile_of_head_false (by
            simp [(dateOkCh_not_marker hok).1])
      rw [show ((some ('!' :: formatDate d)).bind
          (fun m => parseDateStr (m.dropWhile (fun c => c = '!')))) =
        parseDateStr (('!' :: formatDate d).dropWhile (fun c => c = '!'))
          from rfl, hdw, parseDateStr_format (hdl d hdlc)]
      rfl
  have hRRh : ∀ c, (mdDateSeg '@' t.reminder ++
      (mdNotesSeg t.notes ++ mdImpSeg t.importance)).head? = some c →
      isTagCh c = false := by
    rcases hrmc : t.reminder with _ | r
    · rw [mdDateSeg_none, List.nil_append]
      rcases hntc : t.notes with _ | n
      · rw [mdNotesSeg_none, List.nil_append]
        rcases himpc : t.importance with _ | i
        · rw [mdImpSeg_none]
          intro c hc
          simp at hc
        · intro c hc
          rw [show mdImpSeg (some i) = ' ' :: ('$' :: Nat.toDigits 10 i)
            from rfl, List.head?_cons] at hc
          cases hc
          decide
      · intro c hc
        rw [show mdNotesSeg (some n) = ' ' :: ('/' :: '/' :: n) from rfl,
          List.cons_append, List.head?_cons] at hc
        cases hc
        decide
    · intro c hc
      rw [show mdDateSeg '@' (some r) = ' ' :: ('@' :: formatDate r) from rfl,
        List.cons_append, List.head?_cons] at hc
      cases hc
      decide
  have Etags : (findIter tagTry (taskLineText t)).map
      (fun m => m.dropWhile (fun c => c = '#')) = t.tags := by
    rw [show taskLineText t =
        ((t.text ++ (" [id:".toList ++ (t.id ++ [']']))) ++
          mdDateSeg '!' t.deadline) ++ (mdTagsSeg t.tags ++
            (mdDateSeg '@' t.reminder ++
              (mdNotesSeg t.notes ++ mdImpSeg t.importance))) by
      rw [hS]
      simp [List.append_assoc]]
    rw [findIter_append_none (fun c hc cs => tagTry_ne (by
        rcases List.mem_append.mp hc with h | h
        · exact (hTIP c h).2.2.1
        · rcases hD c h with rfl | rfl | hcc
          · decide
          · decide
          · exact hcc.2.2.1)),
      findIter_tagsSeg htags (fun c hc cs => tagTry_ne (by
        rcases List.mem_append.mp hc with h | hc
        · rcases hR c h with rfl | rfl | hcc
          · decide
          · decide
          · exact hcc.2.2.1
        rcases List.mem_append.mp hc with h | h
        · rcases hN c h with rfl | rfl | hcc
          · decide
          · decide
          · exact hcc.2.2.1
        · rcases hI c h with rfl | rfl | hcc
          · decide
          · decide
          · exact hcc.2.2.1)) hRRh]
    exact tags_strip htags
  have Hrm : ((findFirst reminderTry (taskLineText t)).bind
      (fun m => parseDateStr (m.dropWhile (fun c => c = '@')))).orElse
      (fun _ => extractNaturalDate env '@' '#' '!' (taskLineText t)) =
      t.reminder := by
    rcases hrmc : t.reminder with _ | r
    · have hno : ∀ c ∈ taskLineText t, c ≠ '@' := by
        rw [hS, hrmc, mdDateSeg_none, List.nil_append]
        intro c hc
        rcases List.mem_append.mp hc with h | hc
        · exact (hTIP c h).2.1
        rcases List.mem_append.mp hc with h | hc
        · rcases hD c h with rfl | rfl | hcc
          · decide
          · decide
          · exact hcc.2.1
        rcases List.mem_append.mp hc with h | hc
        · rcases hT c h with rfl | rfl | hcc
          · decide
          · decide
          · exact hcc.2.1
        rcases List.mem_append.mp hc with h | h
        · rcases hN c h with rfl | rfl | hcc
          · decide
          · decide
          · exact hcc.2.1
        · rcases hI c h with rfl | rfl | hcc
          · decide
          · decide
          · exact hcc.2.1
      rw [findFirst_none (fun c hc cs => reminderTry_ne (hno c hc))]
      show extractNaturalDate env '@' '#' '!' (taskLineText t) = none
      exact extractNaturalDate_no_marker hno
    · have Efr : findFirst reminderTry (taskLineText t) =
          some ('@' :: formatDate r) := by
        rw [show taskLineText t =
            (((t.text ++ (" [id:".toList ++ (t.id ++ [']']))) ++
              (mdDateSeg '!' t.deadline ++ mdTagsSeg t.tags)) ++ [' ']) ++
              '@' :: (formatDate r ++
                (mdNotesSeg t.notes ++ mdImpSeg t.importance)) by
          rw [hS, hrmc,
            show mdDateSeg '@' (some r) = ' ' :: ('@' :: formatDate r)
              from rfl]
          simp [List.append_assoc]]
        exact findFirst_single (fun c hc cs => reminderTry_ne (by
            rcases List.mem_append.mp hc with hc | h
            · rcases List.mem_append.mp hc with h | hc
              · exact (hTIP c h).2.1
              rcases List.mem_append.mp hc with h | h
              · rcases hD c h with rfl | rfl | hcc
                · decide
                · decide
                · exact hcc.2.1
              · rcases hT c h with rfl | rfl | hcc
                · decide
                · decide
                · exact hcc.2.1
            · simp only [List.mem_singleton] at h
              subst h; decide))
          reminderTry_at formatDate_len
      rw [Efr]
      have hdw : ('@' :: formatDate r).dropWhile (fun c => c = '@') =
          formatDate r := by
        rw [List.dropWhile_cons]
        simp only [decide_True, if_true]
        rcases hfde : formatDate r with _ | ⟨f0, frest⟩
        · rfl
        · have hok := formatDate_chars f0 (by rw [hfde]; simp)
          exact dropWhile_of_head_false (by
            simp [(dateOkCh_not_marker hok).2.1])
      rw [show ((some ('@' :: formatDate r)).bind
          (fun m => parseDateStr (m.dropWhile (fun c => c = '@')))) =
        parseDateStr (('@' :: formatDate r).dropWhile (fun c => c = '@'))
          from rfl, hdw, parseDateStr_format (hrm r hrmc)]
      rfl
  have Himp2 : (findFirst importanceTry (taskLineText t)).bind
      (fun m => rustParseUInt 255 (m.dropWhile (fun c => c = '$'))) =
      t.importance := by
    rcases himpc : t.importance with _ | i
    · have hno : ∀ c ∈ taskLineText t, c ≠ '$' := by
        rw [hS, himpc, mdImpSeg_none, List.append_nil]
        intro c hc
        rcases List.mem_append.mp hc with h | hc
        · exact (hTIP c h).2.2.2.1
        rcases List.mem_append.mp hc with h | hc
        · rcases hD c h with rfl | rfl | hcc
          · decide
          · decide
          · exact hcc.2.2.2.1
        rcases List.mem_append.mp hc with h | hc
        · rcases hT c h with rfl | rfl | hcc
          · decide
          · decide
          · exact hcc.2.2.2.1
        rcases List.mem_append.mp hc with h | h
        · rcases hR c h with rfl | rfl | hcc
          · decide
          · decide
          · exact hcc.2.2.2.1
        · rcases hN c h with rfl | rfl | hcc
          · decide
          · decide
          · exact hcc.2.2.2
      rw [findFirst_none (fun c hc cs => importanceTry_ne (hno c hc))]
      rfl
    · obtain ⟨hi1, hi5⟩ := himp i himpc
      have Eim : findFirst importanceTry (taskLineText t) =
          some ('$' :: [Nat.digitChar i]) := by
        rw [show taskLineText t =
            ((((t.text ++ (" [id:".toList ++ (t.id ++ [']']))) ++
              (mdDateSeg '!' t.deadline ++ (mdTagsSeg t.tags ++
                (mdDateSeg '@' t.reminder ++ mdNotesSeg t.notes)))) ++
              [' ']) ++ '$' :: ([Nat.digitChar i] ++ [])) by
          rw [hS, himpc,
            show mdImpSeg (some i) = ' ' :: ('$' :: Nat.toDigits 10 i)
              from rfl, toDigits_single hi1 hi5]
          simp [List.append_assoc]]
        exact findFirst_single (fun c hc cs => importanceTry_ne (by
            rcases List.mem_append.mp hc with hc | h
            · rcases List.mem_append.mp hc with h | hc
              · exact (hTIP c h).2.2.2.1
              rcases List.mem_append.mp hc with h | hc
              · rcases hD c h with rfl | rfl | hcc
                · decide
                · decide
                · exact hcc.2.2.2.1
              rcases List.mem_append.mp hc with h | hc
              · rcases hT c h with rfl | rfl | hcc
                · decide
                · decide
                · exact hcc.2.2.2.1
              rcases List.mem_append.mp hc with h | h
              · rcases hR c h with rfl | rfl | hcc
                · decide
                · decide
                · exact hcc.2.2.2.1
              · rcases hN c h with rfl | rfl | hcc
                · decide
                · decide
                · exact hcc.2.2.2
            · simp only [List.mem_singleton] at h
              subst h; decide))
          (by
            rw [show ([Nat.digitChar i] ++ [] : Str) = Nat.digitChar i :: []
              by simp]
            exact importanceTry_at hi1 hi5)
          rfl
      rw [Eim]
      show rustParseUInt 255
        (('$' :: [Nat.digitChar i]).dropWhile (fun c => c = '$')) = some i
      have hdw : ('$' :: [Nat.digitChar i]).dropWhile (fun c => c = '$') =
          [Nat.digitChar i] := by
        rw [List.dropWhile_cons]
        simp only [decide_True, if_true]
        exact dropWhile_of_head_false (by
          simp [(digitChar_not_marker (k := i) (by omega)).2.2.2.1])
      rw [hdw]
      exact rustParseUInt_digit hi1 hi5
  have Hnt : ((findFirst notesTry (taskLineText t)).map
      (fun m => rustTrim (dropLeadingSlashPairs m))).filter
        (fun s => s ≠ []) = t.notes := by
    rcases hntc : t.notes with _ | n
    · have hno : ∀ c ∈ taskLineText t, c ≠ '/' := by
        rw [hS, hntc, mdNotesSeg_none, List.nil_append]
        intro c hc
        rcases List.mem_append.mp hc with h | hc
        · exact (hTIP c h).2.2.2.2
        rcases List.mem_append.mp hc with h | hc
        · rcases hD c h with rfl | rfl | hcc
          · decide
          · decide
          · exact hcc.2.2.2.2.1
        rcases List.mem_append.mp hc with h | hc
        · rcases hT c h with rfl | rfl | hcc
          · decide
          · decide
          · exact hcc.2.2.2.2.2.1
        rcases List.mem_append.mp hc with h | h
        · rcases hR c h with rfl | rfl | hcc
          · decide
          · decide
          · exact hcc.2.2.2.2.1
        · rcases hI c h with rfl | rfl | hcc
          · decide
          · decide
          · exact hcc.2.2.2.2.1
      rw [findFirst_none (fun c hc cs => notesTry_ne (hno c hc))]
      rfl
    · obtain ⟨hn1, hnT, hnOK, hnSS⟩ := hnt n hntc
      have hApre : ∀ c ∈ ((t.text ++ (" [id:".toList ++ (t.id ++ [']']))) ++
          (mdDateSeg '!' t.deadline ++ (mdTagsSeg t.tags ++
            mdDateSeg '@' t.reminder))) ++ [' '], ∀ cs,
          notesTry c cs = none := by
        intro c hc cs
        refine notesTry_ne ?_
        rcases List.mem_append.mp hc with hc | h
        · rcases List.mem_append.mp hc with h | hc
          · exact (hTIP c h).2.2.2.2
          rcases List.mem_append.mp hc with h | hc
          · rcases hD c h with rfl | rfl | hcc
            · decide
            · decide
            · exact hcc.2.2.2.2.1
          rcases List.mem_append.mp hc with h | h
          · rcases hT c h with rfl | rfl | hcc
            · decide
            · decide
            · exact hcc.2.2.2.2.2.1
          · rcases hR c h with rfl | rfl | hcc
            · decide
            · decide
            · exact hcc.2.2.2.2.1
        · simp only [List.mem_singleton] at h
          subst h; decide
      rcases himpc : t.importance with _ | i
      · have Ent : findFirst notesTry (taskLineText t) =
            some ('/' :: ('/' :: n)) := by
          rw [show taskLineText t =
              (((t.text ++ (" [id:".toList ++ (t.id ++ [']']))) ++
                (mdDateSeg '!' t.deadline ++ (mdTagsSeg t.tags ++
                  mdDateSeg '@' t.reminder))) ++ [' ']) ++
                '/' :: (('/' :: n) ++ []) by
            rw [hS, hntc, himpc, mdImpSeg_none,
              show mdNotesSeg (some n) = ' ' :: ('/' :: '/' :: n) from rfl]
            simp [List.append_assoc]]
          exact findFirst_single hApre
            (by
              rw [show (('/' :: n) ++ [] : Str) = '/' :: n by simp]
              exact notesTry_at_end hn1 hnOK)
            (by simp [Nat.add_comm])
        rw [Ent]
        show (some (rustTrim
          (dropLeadingSlashPairs ('/' :: ('/' :: n))))).filter
            (fun s => s ≠ []) = some n
        rw [show dropLeadingSlashPairs ('/' :: ('/' :: n)) =
            dropLeadingSlashPairs n from rfl,
          dropLeadingSlashPairs_no hnSS, rustTrim_of_trimStable hnT]
        simp [Option.filter, hn1]
      · obtain ⟨hi1, hi5⟩ := himp i himpc
        have Ent : findFirst notesTry (taskLineText t) =
            some ('/' :: ('/' :: (n ++ [' ']))) := by
          rw [show taskLineText t =
              (((t.text ++ (" [id:".toList ++ (t.id ++ [']']))) ++
                (mdDateSeg '!' t.deadline ++ (mdTagsSeg t.tags ++
                  mdDateSeg '@' t.reminder))) ++ [' ']) ++
                '/' :: (('/' :: (n ++ [' '])) ++
                  ('$' :: [Nat.digitChar i])) by
            rw [hS, hntc, himpc,
              show mdNotesSeg (some n) = ' ' :: ('/' :: '/' :: n) from rfl,
              show mdImpSeg (some i) = ' ' :: ('$' :: Nat.toDigits 10 i)
                from rfl, toDigits_single hi1 hi5]
            simp [List.append_assoc]]
          exact findFirst_single hApre
            (by
              rw [show ('/' :: (n ++ [' '])) ++ ('$' :: [Nat.digitChar i]) =
                '/' :: (n ++ ' ' :: '$' :: [Nat.digitChar i]) by
                  simp [List.append_assoc]]
              exact notesTry_at_imp hnOK)
            (by simp; omega)
        rw [Ent]
        show (some (rustTrim
          (dropLeadingSlashPairs ('/' :: ('/' :: (n ++ [' ']))))) ).filter
            (fun s => s ≠ []) = some n
        rw [show dropLeadingSlashPairs ('/' :: ('/' :: (n ++ [' ']))) =
            dropLeadingSlashPairs (n ++ [' ']) from rfl,
          dropLeadingSlashPairs_no (strStarts_slash_pad hn1 hnSS),
          rustTrim_text_junk hnT (by simp)]
        simp [Option.filter, hn1]
  simp only [Task.parse]
  rw [Hnt, Hid, Hdl, Etags, Hrm, Himp2, hclean]

/-- C1, counterexample to the unrestricted statement: a task with a
nine-character id does not survive the markdown round trip, because
`to_markdown` only displays the first eight characters of the id. -/
theorem c1_counterexample :
    loadTaskLine envC1 tC1long.toMarkdown ≠ some tC1long := by
  decide

/-- C1 (amended): for every well-formed task — an id of at most eight
characters over `[a-f0-9-]`, a trim-stable description free of marker
characters, non-empty tags over `[\w-]`, valid dates, well-formed notes and
an importance in `1..=5` — the loader's round trip is the identity:
recognising the checkbox of `to_markdown`'s line, stripping the prefix,
parsing with `Task::parse` and restoring the completion flag reproduces
every field of the task. -/
theorem c1_markdown_roundtrip (env : ParseEnv) (t : Task)
    (hW : WellFormedTask t) :
    loadTaskLine env t.toMarkdown = some t := by
  rw [loadTaskLine_toMarkdown env t hW, parse_taskLineText env t hW]

/-- Witness for C1's amended statement at a concrete well-formed task with
every optional field populated. -/
theorem c1_markdown_roundtrip_witness :
    WellFormedTask tC1 ∧ loadTaskLine envC1 tC1.toMarkdown = some tC1 := by
  have hw : WellFormedTask tC1 :=
    ⟨⟨by decide, by decide, by decide⟩, ⟨by decide, by decide⟩, by decide,
     fun d hd => by cases hd; exact ⟨by decide, by decide, by decide,
       by decide, by decide⟩,
     fun r hr => by cases hr; exact ⟨by decide, by decide, by decide,
       by decide, by decide⟩,
     fun n hn => by cases hn; exact ⟨by decide, by decide, by decide,
       by decide⟩,
     fun i hi => by cases hi; exact ⟨by decide, by decide⟩⟩
  exact ⟨hw, c1_markdown_roundtrip envC1 tC1 hw⟩

/-! # Metadata-store and remote-store lemmas for the sync pass -/

theorem lookup_assocInsert_self (k : Str) (v : TaskSyncInfo)
    (l : List (Str × TaskSyncInfo)) :
    (assocInsert k v l).lookup k = some v := by
  induction l with
  | nil => simp [assocInsert, List.lookup]
  | cons p rest ih =>
    rcases p with ⟨a, b⟩
    rw [assocInsert]
    by_cases h : a = k
    · simp [h, List.lookup]
    · rw [if_neg h, List.lookup_cons]
      have hbeq : (k == a) = false := by
        simp [Ne.symm h]
      rw [hbeq]
      exact ih

theorem lookup_assocInsert_ne {k k' : Str} (v : TaskSyncInfo)
    (l : List (Str × TaskSyncInfo)) (h : k' ≠ k) :
    (assocInsert k v l).lookup k' = l.lookup k' := by
  induction l with
  | nil =>
    show List.lookup k' [(k, v)] = List.lookup k' []
    rw [List.lookup_cons]
    have hbeq : (k' == k) = false := by simp [h]
    rw [hbeq]
  | cons p rest ih =>
    rcases p with ⟨a, b⟩
    rw [assocInsert]
    by_cases ha : a = k
    · subst ha
      rw [if_pos rfl, List.lookup_cons, List.lookup_cons]
      have hbeq : (k' == a) = false := by simp [h]
      rw [hbeq]
    · rw [if_neg ha, List.lookup_cons, List.lookup_cons]
      rcases hbeq : (k' == a) with _ | _
      · exact ih
      · rfl

theorem assocInsert_of_lookup_none {k : Str} (v : TaskSyncInfo)
    {l : List (Str × TaskSyncInfo)} (h : l.lookup k = none) :
    assocInsert k v l = l ++ [(k, v)] := by
  induction l with
  | nil => rfl
  | cons p rest ih =>
    rcases p with ⟨a, b⟩
    rw [List.lookup_cons] at h
    rcases hbeq : (k == a) with _ | _
    · rw [hbeq] at h
      have hne : a ≠ k := by
        intro hc
        subst hc
        simp at hbeq
      rw [assocInsert, if_neg hne, ih h]
      rfl
    · rw [hbeq] at h
      exact absurd h (by simp)

theorem remoteSetCompleted_ids (rid : Str) (v : Bool)
    (rs : List TodoistTask) :
    (remoteSetCompleted rid v rs).filterMap (fun r => r.id) =
      rs.filterMap (fun r => r.id) := by
  induction rs with
  | nil => rfl
  | cons r rs ih =>
    rw [remoteSetCompleted, List.map_cons, List.filterMap_cons,
      List.filterMap_cons]
    have he : (if r.id = some rid then { r with is_completed := some v }
        else r).id = r.id := by
      by_cases h : r.id = some rid <;> simp [h]
    rw [he]
    rw [remoteSetCompleted] at ih
    rcases r.id with _ | x
    · exact ih
    · rw [ih]

theorem mem_remoteSetCompleted {rid : Str} {v : Bool} {rs : List TodoistTask}
    {q : TodoistTask} (h : q ∈ remoteSetCompleted rid v rs) :
    ∃ r ∈ rs, q.id = r.id := by
  rw [remoteSetCompleted] at h
  obtain ⟨r, hr, rfl⟩ := List.mem_map.mp h
  refine ⟨r, hr, ?_⟩
  by_cases hc : r.id = some rid <;> simp [hc]

theorem eq_of_nodup_map {α β : Type} {l : List α} {f : α → β}
    (h : (l.map f).Nodup) :
    ∀ p ∈ l, ∀ q ∈ l, f p = f q → p = q := by
  induction l with
  | nil => simp
  | cons a l ih =>
    simp only [List.map_cons, List.nodup_cons] at h
    obtain ⟨ha, hnd⟩ := h
    intro p hp q hq hfq
    rcases List.mem_cons.mp hp with hpa | hp'
    · rcases List.mem_cons.mp hq with hqa | hq'
      · rw [hpa, hqa]
      · refine absurd ?_ ha
        rw [← hpa, hfq]
        exact List.mem_map_of_mem f hq'
    · rcases List.mem_cons.mp hq with hqa | hq'
      · refine absurd ?_ ha
        rw [← hqa, ← hfq]
        exact List.mem_map_of_mem f hp'
      · exact ih hnd p hp' q hq' hfq

theorem find?_eq_of_nodup {l : List (Str × TaskSyncInfo)} {rid : Str}
    {p : Str × TaskSyncInfo} (hp : p ∈ l) (heq : p.2.todoist_id = rid)
    (hnd : (l.map (fun q => q.2.todoist_id)).Nodup) :
    l.find? (fun q => q.2.todoist_id = rid) = some p := by
  induction l with
  | nil => simp at hp
  | cons a l ih =>
    simp only [List.map_cons, List.nodup_cons] at hnd
    obtain ⟨ha, hnd⟩ := hnd
    rcases List.mem_cons.mp hp with rfl | hp
    · exact List.find?_cons_of_pos _ (by simp [heq])
    · have hane : ¬ (a.2.todoist_id = rid) := fun hcon => ha (by
        rw [hcon, ← heq]
        exact List.mem_map_of_mem _ hp)
      rw [List.find?_cons_of_neg _ (by simp [hane])]
      exact ih hp hnd

theorem localDiff_unmapped {meta : SyncMetadata} {ids : List Str}
    {today : NaiveDate} {t : Task}
    (h : meta.get_todoist_id t.id = none) :
    localDiff meta ids today t =
      if staleDone today t then [] else [SyncAction.CreateInTodoist t] := by
  rw [localDiff, h, staleDone]
  rcases t.completed with _ | _
  · simp
  · rcases t.deadline with _ | d
    · simp
    · simp

theorem localDiff_clean {meta : SyncMetadata} {ids : List Str}
    {today : NaiveDate} {t : Task} (rid : Str)
    (h1 : meta.get_todoist_id t.id = some rid)
    (h2 : ids.contains rid = true)
    (h3 : meta.get_hash t.id = some (computeTaskHash t)) :
    localDiff meta ids today t = [] := by
  have h2' : rid ∈ ids := List.mem_of_elem_eq_true h2
  simp [localDiff, h1, h2', h3]

theorem remoteDiff_mapped {meta : SyncMetadata} {localIds : List Str}
    {r : TodoistTask} {rid : Str} (yid : Str)
    (h1 : r.id = some rid) (h2 : meta.get_yarmtl_id rid = some yid)
    (h3 : localIds.contains yid = true) :
    remoteDiff meta localIds r = [] := by
  have h3' : yid ∈ localIds := List.mem_of_elem_eq_true h3
  simp [remoteDiff, h1, h2, h3']

theorem detect_empty_of {meta : SyncMetadata} {locals : List Task}
    {remotes : List TodoistTask} {today : NaiveDate}
    (hl : ∀ t ∈ locals,
      localDiff meta (remotes.filterMap (fun r => r.id)) today t = [])
    (hr : ∀ r ∈ remotes,
      remoteDiff meta (locals.map (fun t => t.id)) r = []) :
    detect_changes meta locals remotes today = [] := by
  simp only [detect_changes]
  have h1 : (locals.map (fun t =>
      localDiff meta (remotes.filterMap (fun r => r.id)) today t)).flatten =
      [] := by
    rw [List.flatten_eq_nil_iff]
    intro l hl'
    obtain ⟨t, ht, rfl⟩ := List.mem_map.mp hl'
    exact hl t ht
  have h2 : (remotes.map (fun r =>
      remoteDiff meta (locals.map (fun t => t.id)) r)).flatten = [] := by
    rw [List.flatten_eq_nil_iff]
    intro l hl'
    obtain ⟨r, hr', rfl⟩ := List.mem_map.mp hl'
    exact hr r hr'
  rw [h1, h2]
  rfl

/-- Effect summary of a successful `CreateInTodoist`: a fresh remote id is
drawn from the supply, the created task is appended remotely (possibly with
its completion state set), and the metadata store gains the mapping with
the task's current fingerprint.  Local tasks and the supply are
untouched. -/
theorem apply_create (sk : SyncState) (t : Task) :
    ∃ s₁ rid k,
      apply_action sk (SyncAction.CreateInTodoist t) = some s₁ ∧
      sk.supplyIdx ≤ k ∧ rid = sk.supply k ∧ s₁.supplyIdx = k + 1 ∧
      s₁.local_tasks = sk.local_tasks ∧
      s₁.supply = sk.supply ∧
      s₁.metadata.task_mappings =
        assocInsert t.id ⟨rid, sk.now, computeTaskHash t⟩
          sk.metadata.task_mappings ∧
      s₁.remote.filterMap (fun r => r.id) =
        sk.remote.filterMap (fun r => r.id) ++ [rid] ∧
      (∀ q ∈ s₁.remote, (∃ r ∈ sk.remote, q.id = r.id) ∨ q.id = some rid) := by
  rcases htg : t.tags with _ | ⟨tg, tgs⟩
  · refine ⟨{ sk with
        metadata := sk.metadata.update_mapping t.id
          ⟨sk.supply sk.supplyIdx, sk.now, computeTaskHash t⟩
        remote :=
          if t.completed = true then
            remoteSetCompleted (sk.supply sk.supplyIdx) true
              (sk.remote ++ [{ convert_yarmtl_to_todoist sk.projects t with
                id := some (sk.supply sk.supplyIdx) }])
          else sk.remote ++ [{ convert_yarmtl_to_todoist sk.projects t with
            id := some (sk.supply sk.supplyIdx) }]
        supplyIdx := sk.supplyIdx + 1 },
      sk.supply sk.supplyIdx, sk.supplyIdx,
      by simp only [apply_action, htg, popFresh],
      le_refl _, rfl, rfl, rfl, rfl, rfl, ?_, ?_⟩
    · by_cases hc : t.completed = true
      · simp only [if_pos hc, remoteSetCompleted_ids, List.filterMap_append]
        simp
      · simp only [if_neg hc, List.filterMap_append]
        simp
    · intro q hq
      by_cases hc : t.completed = true
      · rw [if_pos hc] at hq
        rcases mem_remoteSetCompleted hq with ⟨r, hr, hid⟩
        rcases List.mem_append.mp hr with h | h
        · exact Or.inl ⟨r, h, hid⟩
        · simp only [List.mem_singleton] at h
          subst h
          exact Or.inr (by rw [hid])
      · rw [if_neg hc] at hq
        rcases List.mem_append.mp hq with h | h
        · exact Or.inl ⟨q, h, rfl⟩
        · simp only [List.mem_singleton] at h
          subst h
          exact Or.inr rfl
  · have hg : (get_or_create_project sk tg).local_tasks = sk.local_tasks ∧
        (get_or_create_project sk tg).metadata = sk.metadata ∧
        (get_or_create_project sk tg).remote = sk.remote ∧
        (get_or_create_project sk tg).supply = sk.supply ∧
        sk.supplyIdx ≤ (get_or_create_project sk tg).supplyIdx ∧
        (get_or_create_project sk tg).now = sk.now := by
      rw [get_or_create_project]
      rcases hl : sk.projects.lookup tg with _ | pid
      · exact ⟨rfl, rfl, rfl, rfl, Nat.le_succ _, rfl⟩
      · exact ⟨rfl, rfl, rfl, rfl, le_refl _, rfl⟩
    obtain ⟨hg1, hg2, hg3, hg4, hg5, hg6⟩ := hg
    refine ⟨{ get_or_create_project sk tg with
        metadata := (get_or_create_project sk tg).metadata.update_mapping t.id
          ⟨(get_or_create_project sk tg).supply
              (get_or_create_project sk tg).supplyIdx,
            (get_or_create_project sk tg).now, computeTaskHash t⟩
        remote :=
          if t.completed = true then
            remoteSetCompleted ((get_or_create_project sk tg).supply
                (get_or_create_project sk tg).supplyIdx) true
              ((get_or_create_project sk tg).remote ++
                [{ convert_yarmtl_to_todoist
                    (get_or_create_project sk tg).projects t with
                  id := some ((get_or_create_project sk tg).supply
                    (get_or_create_project sk tg).supplyIdx) }])
          else (get_or_create_project sk tg).remote ++
            [{ convert_yarmtl_to_todoist
                (get_or_create_project sk tg).projects t with
              id := some ((get_or_create_project sk tg).supply
                (get_or_create_project sk tg).supplyIdx) }]
        supplyIdx := (get_or_create_project sk tg).supplyIdx + 1 },
      (get_or_create_project sk tg).supply
        (get_or_create_project sk tg).supplyIdx,
      (get_or_create_project sk tg).supplyIdx,
      by simp only [apply_action, htg, popFresh],
      hg5, by rw [hg4], rfl, by rw [hg1], by rw [hg4],
      by rw [hg2, hg6]; rfl, ?_, ?_⟩
    · by_cases hc : t.completed = true
      · simp only [if_pos hc, remoteSetCompleted_ids, List.filterMap_append,
          hg3]
        simp
      · simp only [if_neg hc, List.filterMap_append, hg3]
        simp
    · intro q hq
      by_cases hc : t.completed = true
      · rw [if_pos hc] at hq
        rcases mem_remoteSetCompleted hq with ⟨r, hr, hid⟩
        rw [hg3] at hr
        rcases List.mem_append.mp hr with h | h
        · exact Or.inl ⟨r, h, hid⟩
        · simp only [List.mem_singleton] at h
          subst h
          exact Or.inr (by rw [hid])
      · rw [if_neg hc, hg3] at hq
        rcases List.mem_append.mp hq with h | h
        · exact Or.inl ⟨q, h, rfl⟩
        · simp only [List.mem_singleton] at h
          subst h
          exact Or.inr rfl

/-- The apply loop of an initial push: running the `CreateInTodoist`
actions of the unmapped local tasks `rest` from a state whose metadata does
not yet map them, with a supply of fresh injective ids, succeeds and
establishes exactly the mappings, fingerprints and remote tasks that make
the next diff empty. -/
theorem c2_push_loop (today : NaiveDate) (L : List Task) :
    ∀ (rest : List Task), ∀ (sk : SyncState),
    sk.local_tasks = L →
    (∀ t ∈ rest, t ∈ L) →
    ((rest.map (fun t => t.id)).Nodup) →
    (∀ t ∈ rest, sk.metadata.task_mappings.lookup t.id = none) →
    (∀ k, sk.supplyIdx ≤ k →
      (∀ r ∈ sk.remote, r.id ≠ some (sk.supply k)) ∧
      (∀ p ∈ sk.metadata.task_mappings, p.2.todoist_id ≠ sk.supply k)) →
    ((sk.metadata.task_mappings.map (fun p => p.2.todoist_id)).Nodup) →
    (∀ r ∈ sk.remote, ∃ rid p, r.id = some rid ∧
      p ∈ sk.metadata.task_mappings ∧ p.2.todoist_id = rid ∧
      p.1 ∈ L.map (fun t => t.id)) →
    (∀ i j, sk.supply i = sk.supply j → i = j) →
    ∃ s', applyAll sk ((rest.map (fun t =>
        if staleDone today t then [] else
          [SyncAction.CreateInTodoist t])).flatten) = some s' ∧
      s'.local_tasks = L ∧
      (∀ yid, (∀ t ∈ rest, yid ≠ t.id) →
        s'.metadata.task_mappings.lookup yid =
          sk.metadata.task_mappings.lookup yid) ∧
      (∀ t ∈ rest, staleDone today t = false →
        ∃ rid τ, s'.metadata.task_mappings.lookup t.id =
            some ⟨rid, τ, computeTaskHash t⟩ ∧
          rid ∈ s'.remote.filterMap (fun r => r.id)) ∧
      (∀ t ∈ rest, staleDone today t = true →
        s'.metadata.task_mappings.lookup t.id =
          sk.metadata.task_mappings.lookup t.id) ∧
      ((s'.metadata.task_mappings.map (fun p => p.2.todoist_id)).Nodup) ∧
      (∀ r ∈ s'.remote, ∃ rid p, r.id = some rid ∧
        p ∈ s'.metadata.task_mappings ∧ p.2.todoist_id = rid ∧
        p.1 ∈ L.map (fun t => t.id)) ∧
      (∀ rid, rid ∈ sk.remote.filterMap (fun r => r.id) →
        rid ∈ s'.remote.filterMap (fun r => r.id)) := by
  intro rest
  induction rest with
  | nil =>
    intro sk hloc hsub hnd hmk hfresh hnd2 hrev hinj
    exact ⟨sk, rfl, hloc, fun _ _ => rfl, by simp, by simp, hnd2, hrev,
      fun _ h => h⟩
  | cons t rest' ih =>
    intro sk hloc hsub hnd hmk hfresh hnd2 hrev hinj
    rw [List.map_cons] at hnd
    have hhead : t.id ∉ rest'.map (fun t => t.id) :=
      (List.nodup_cons.mp hnd).1
    have hnd' : (rest'.map (fun t => t.id)).Nodup :=
      (List.nodup_cons.mp hnd).2
    rcases hsd : staleDone today t with _ | _
    · -- the head task is pushed
      have hact : ((t :: rest').map (fun t => if staleDone today t then []
          else [SyncAction.CreateInTodoist t])).flatten =
        SyncAction.CreateInTodoist t :: ((rest'.map (fun t =>
          if staleDone today t then [] else
            [SyncAction.CreateInTodoist t])).flatten) := by
        simp [hsd]
      rw [hact]
      obtain ⟨s₁, rid, k, happ, hk1, hk2, hk3, hb1, hb2, hb3, hb4, hb5⟩ :=
        apply_create sk t
      have hstep : applyAll sk (SyncAction.CreateInTodoist t ::
          ((rest'.map (fun t => if staleDone today t then [] else
            [SyncAction.CreateInTodoist t])).flatten)) =
          applyAll s₁ ((rest'.map (fun t => if staleDone today t then []
            else [SyncAction.CreateInTodoist t])).flatten) := by
        rw [applyAll, happ]
        rfl
      rw [hstep]
      have hins : s₁.metadata.task_mappings =
          sk.metadata.task_mappings ++
            [(t.id, ⟨rid, sk.now, computeTaskHash t⟩)] := by
        rw [hb3]
        exact assocInsert_of_lookup_none _ (hmk t (by simp))
      have hmk₁ : ∀ t' ∈ rest',
          s₁.metadata.task_mappings.lookup t'.id = none := by
        intro t' ht'
        have hne : t'.id ≠ t.id := fun heq =>
          hhead (by rw [← heq]; exact List.mem_map_of_mem _ ht')
        rw [hb3, lookup_assocInsert_ne _ _ hne]
        exact hmk t' (by simp [ht'])
      have hridfresh := hfresh k hk1
      have hfresh₁ : ∀ m, s₁.supplyIdx ≤ m →
          (∀ r ∈ s₁.remote, r.id ≠ some (s₁.supply m)) ∧
          (∀ p ∈ s₁.metadata.task_mappings,
            p.2.todoist_id ≠ s₁.supply m) := by
        intro m hm
        rw [hk3] at hm
        have hmsk : sk.supplyIdx ≤ m :=
          le_trans hk1 (le_trans (Nat.le_succ k) hm)
        have hold := hfresh m hmsk
        rw [hb2]
        constructor
        · intro q hq
          rcases hb5 q hq with ⟨r, hr, hid⟩ | hid
          · rw [hid]
            exact hold.1 r hr
          · rw [hid, hk2]
            intro hcon
            have hkm : k = m := hinj k m (Option.some.inj hcon)
            omega
        · intro p hp
          rw [hins] at hp
          rcases List.mem_append.mp hp with h | h
          · exact hold.2 p h
          · simp only [List.mem_singleton] at h
            subst h
            show rid ≠ sk.supply m
            rw [hk2]
            intro hcon
            have hkm := hinj k m hcon
            omega
      have hnd2₁ : (s₁.metadata.task_mappings.map
          (fun p => p.2.todoist_id)).Nodup := by
        rw [hins, List.map_append]
        rw [List.nodup_append]
        refine ⟨hnd2, List.nodup_singleton _, ?_⟩
        intro x hx hx2
        simp only [List.map_cons, List.map_nil, List.mem_singleton] at hx2
        subst hx2
        obtain ⟨p, hp, hpe⟩ := List.mem_map.mp hx
        exact (hridfresh.2 p hp) (hpe.trans hk2)
      have hrev₁ : ∀ q ∈ s₁.remote, ∃ rid₂ p, q.id = some rid₂ ∧
          p ∈ s₁.metadata.task_mappings ∧ p.2.todoist_id = rid₂ ∧
          p.1 ∈ L.map (fun t => t.id) := by
        intro q hq
        rcases hb5 q hq with ⟨r, hr, hid⟩ | hid
        · obtain ⟨rid₂, p, hq1, hq2, hq3, hq4⟩ := hrev r hr
          exact ⟨rid₂, p, by rw [hid, hq1],
            by rw [hins]; exact List.mem_append_left _ hq2, hq3, hq4⟩
        · refine ⟨rid, (t.id, ⟨rid, sk.now, computeTaskHash t⟩), hid, ?_,
            rfl, ?_⟩
          · rw [hins]
            exact List.mem_append_right _ (by simp)
          · exact List.mem_map_of_mem _ (hsub t (by simp))
      obtain ⟨s', ha', hl', P1, P2, P2', P3, P4, P5⟩ :=
        ih s₁ (by rw [hb1, hloc]) (fun t' ht' => hsub t' (by simp [ht']))
          hnd' hmk₁ hfresh₁ hnd2₁ hrev₁ (by rw [hb2]; exact hinj)
      refine ⟨s', ha', hl', ?_, ?_, ?_, P3, P4, ?_⟩
      · intro yid hy
        have h1 := P1 yid (fun t' ht' => hy t' (by simp [ht']))
        rw [h1, hb3, lookup_assocInsert_ne _ _ (hy t (by simp))]
      · intro t' ht' hkept
        rcases List.mem_cons.mp ht' with rfl | ht'
        · have h1 := P1 t'.id (fun t'' ht'' heq =>
            hhead (by rw [heq]; exact List.mem_map_of_mem _ ht''))
          refine ⟨rid, sk.now, ?_, ?_⟩
          · rw [h1, hb3, lookup_assocInsert_self]
          · refine P5 rid ?_
            rw [hb4]
            exact List.mem_append_right _ (by simp)
        · exact P2 t' ht' hkept
      · intro t' ht' hsk'
        rcases List.mem_cons.mp ht' with rfl | ht'
        · exact absurd hsk' (by simp [hsd])
        · have hne : t'.id ≠ t.id := fun heq =>
            hhead (by rw [← heq]; exact List.mem_map_of_mem _ ht')
          have h2 := P2' t' ht' hsk'
          rw [h2, hb3, lookup_assocInsert_ne _ _ hne]
      · intro rid₂ h
        refine P5 rid₂ ?_
        rw [hb4]
        exact List.mem_append_left _ h
    · -- the head task is a stale completed task: no action
      have hact : ((t :: rest').map (fun t => if staleDone today t then []
          else [SyncAction.CreateInTodoist t])).flatten =
        (rest'.map (fun t => if staleDone today t then [] else
          [SyncAction.CreateInTodoist t])).flatten := by
        simp [hsd]
      rw [hact]
      obtain ⟨s', ha', hl', P1, P2, P2', P3, P4, P5⟩ :=
        ih sk hloc (fun t' ht' => hsub t' (by simp [ht'])) hnd'
          (fun t' ht' => hmk t' (by simp [ht'])) hfresh hnd2 hrev hinj
      refine ⟨s', ha', hl', ?_, ?_, ?_, P3, P4, P5⟩
      · intro yid hy
        exact P1 yid (fun t' ht' => hy t' (by simp [ht']))
      · intro t' ht' hkept
        rcases List.mem_cons.mp ht' with rfl | ht'
        · exact absurd hkept (by simp [hsd])
        · exact P2 t' ht' hkept
      · intro t' ht' hsk'
        rcases List.mem_cons.mp ht' with rfl | ht'
        · exact P1 t'.id (fun t'' ht'' heq =>
            hhead (by rw [heq]; exact List.mem_map_of_mem _ ht''))
        · exact P2' t' ht' hsk'

/-- In a fresh workspace the first pass's diff consists exactly of the
`CreateInTodoist` actions of the non-stale local tasks. -/
theorem detect_fresh {s : SyncState} {today : NaiveDate}
    (h1 : s.metadata.task_mappings = []) (h2 : s.remote = []) :
    detect_changes s.metadata s.local_tasks s.remote today =
      (s.local_tasks.map (fun t => if staleDone today t then [] else
        [SyncAction.CreateInTodoist t])).flatten := by
  simp only [detect_changes, h2, List.map_nil, List.flatten_nil,
    List.append_nil, List.filterMap_nil]
  congr 1
  apply List.map_congr_left
  intro t ht
  exact localDiff_unmapped (by simp [SyncMetadata.get_todoist_id, h1])

/-- C2, counterexample to the unrestricted statement: with two remote
tasks claiming the same sideband local identity `aa`, the first pass
succeeds (rebinding the single mapping to each in turn), yet the second
diff emits an `UpdateYarmtl` action again — reconciliation never reaches a
fixed point on this state. -/
theorem c2_counterexample :
    (runSyncPass dayC2 sC2).isSome = true ∧
    (runSyncPass dayC2 sC2).map (fun s' =>
      detect_changes s'.metadata s'.local_tasks s'.remote dayC2) ≠
      some [] := by
  constructor
  · decide
  · decide

/-- C2 (amended): reconciliation is not idempotent for every state — see
the counterexample — but it is for an initial push: from a state with no
metadata mappings and no remote tasks, local tasks with pairwise-distinct
ids, and an injective fresh-id supply, one full pass succeeds and a second
`detect_changes` on the resulting state emits no action. -/
theorem c2_initial_push_idempotent (today : NaiveDate) (s : SyncState)
    (h1 : s.metadata.task_mappings = [])
    (h2 : s.remote = [])
    (h3 : (s.local_tasks.map (fun t => t.id)).Nodup)
    (h4 : ∀ i j, s.supply i = s.supply j → i = j) :
    ∃ s', runSyncPass today s = some s' ∧
      detect_changes s'.metadata s'.local_tasks s'.remote today = [] := by
  obtain ⟨s', ha, hl', P1, P2, P2', P3, P4, P5⟩ :=
    c2_push_loop today s.local_tasks s.local_tasks s rfl (fun _ h => h) h3
      (fun t _ => by rw [h1]; rfl)
      (by
        intro k _
        rw [h1, h2]
        exact ⟨by simp, by simp⟩)
      (by rw [h1]; exact List.nodup_nil)
      (by
        rw [h2]
        intro r hr
        exact absurd hr (List.not_mem_nil r)) h4
  refine ⟨s', by rw [runSyncPass, detect_fresh h1 h2]; exact ha, ?_⟩
  apply detect_empty_of
  · intro t ht
    rw [hl'] at ht
    rcases hsd : staleDone today t with _ | _
    · obtain ⟨rid, τ, hlk, hmem⟩ := P2 t ht hsd
      refine localDiff_clean rid ?_ ?_ ?_
      · simp [SyncMetadata.get_todoist_id, hlk]
      · exact List.elem_eq_true_of_mem hmem
      · simp [SyncMetadata.get_hash, hlk]
    · have h0 : s'.metadata.task_mappings.lookup t.id = none := by
        rw [P2' t ht hsd, h1]
        rfl
      rw [localDiff_unmapped (by simp [SyncMetadata.get_todoist_id, h0])]
      simp [hsd]
  · intro r hr
    obtain ⟨rid, p, hq1, hq2, hq3, hq4⟩ := P4 r hr
    refine remoteDiff_mapped p.1 hq1 ?_ ?_
    · simp [SyncMetadata.get_yarmtl_id, find?_eq_of_nodup hq2 hq3 P3]
    · rw [hl']
      exact List.elem_eq_true_of_mem hq4

/-- Witness for C2's amended statement: a fresh workspace with a tagged
active task and a stale completed task; the pass pushes the first, skips
the second, and a second diff is empty. -/
theorem c2_initial_push_idempotent_witness :
    ∃ s', runSyncPass dayC2 sW = some s' ∧
      detect_changes s'.metadata s'.local_tasks s'.remote dayC2 = [] :=
  c2_initial_push_idempotent dayC2 sW rfl rfl (by decide)
    (fun i j h => by
      have hlen := congrArg List.length h
      simp only [sW, List.length_replicate] at hlen
      omega)

/-- C4, counterexample to the unrestricted statement: a pass over a state
whose metadata store already carries two entries with the same remote id
completes with zero actions (every action trivially succeeding) and leaves
the duplicate entries in place, so the map is not injective on remote
ids. -/
theorem c4_counterexample :
    runSyncPass dayC2 sC4 = some sC4 ∧
    ¬ MappingsInjective sC4.metadata.task_mappings :=
  ⟨rfl, by decide⟩

/-- C4 (amended): a pass never removes a pre-existing duplicate — see the
counterexample — but it never creates one either: for an initial push
(empty metadata and remote stores, pairwise-distinct local ids, an
injective fresh-id supply) the pass succeeds and the resulting
task-mappings store is injective on remote ids. -/
theorem c4_pass_mappings_injective (today : NaiveDate) (s : SyncState)
    (h1 : s.metadata.task_mappings = [])
    (h2 : s.remote = [])
    (h3 : (s.local_tasks.map (fun t => t.id)).Nodup)
    (h4 : ∀ i j, s.supply i = s.supply j → i = j) :
    ∃ s', runSyncPass today s = some s' ∧
      MappingsInjective s'.metadata.task_mappings := by
  obtain ⟨s', ha, hl', P1, P2, P2', P3, P4, P5⟩ :=
    c2_push_loop today s.local_tasks s.local_tasks s rfl (fun _ h => h) h3
      (fun t _ => by rw [h1]; rfl)
      (by
        intro k _
        rw [h1, h2]
        exact ⟨by simp, by simp⟩)
      (by rw [h1]; exact List.nodup_nil)
      (by
        rw [h2]
        intro r hr
        exact absurd hr (List.not_mem_nil r)) h4
  refine ⟨s', by rw [runSyncPass, detect_fresh h1 h2]; exact ha, ?_⟩
  intro p hp q hq heq
  rw [eq_of_nodup_map P3 p hp q hq heq]

/-- Witness for C4's amended statement at the fresh workspace fixture. -/
theorem c4_pass_mappings_injective_witness :
    ∃ s', runSyncPass dayC2 sW = some s' ∧
      MappingsInjective s'.metadata.task_mappings :=
  c4_pass_mappings_injective dayC2 sW rfl rfl (by decide)
    (fun i j h => by
      have hlen := congrArg List.length h
      simp only [sW, List.length_replicate] at hlen
      omega)

end Yarmtl
